import Mathlib

/-!
# tcpclips64: wire framing, server session and client correlation

A shallow embedding of the framing code of the repository:

* `Request::getPayload`, `Request::fromMessage` (clipsclient/src/request.cpp)
* `Reply::fromMessage` (clipsclient/src/reply.cpp)
* `Session::asyncReadHandler`, `peekMessageHeader`, `fetchStringFromBuffer`,
  `Session::send` (clipsserver/src/session.cpp)
* `splitCommand`, `Server::parseMessage`, `Server::acknowledgeMessage`
  (clipsserver/src/server.cpp)
* `ClipsClient::asyncReadHandler`, `handleResponseMesage`, `awaitResponse`,
  `hasReponseArrived` (clipsclient/src/clipsclient.cpp)
* `publish` (tests/simple/main.cpp)
* `ClipsClient::sendCommand`, `rpc`, `abortAllRPC` and the constructor of
  `Request` (clipsclient/src/clipsclient.cpp, request.cpp)
* `Server::handleCommand` with the handlers it calls, `assertFact`,
  `publishStatus`, `broadcast`, `sendTo`, `acknowledgeMessage`,
  `removeSession` (clipsserver/src/server.cpp)
* `clips::isValidClipsString`, `sendCommandRaw`, `sendCommand`, `query`,
  `toggleWatch`, `getWatches` (clipswrapper/src/clipswrapper.cpp) and
  `QueryRouter::enable`, `disable` (clipswrapper/src/queryrouter.cpp)
* `ClipsStatus::fromString` (clipsclient/src/clipsstatus.cpp),
  `ClipsClient::updateStatus` and `ClipsClient::execute`
  (clipsclient/src/clipsclient.cpp)

A call of `std::regex_match` is a recogniser written for the pattern of the
call. Where a claim is compared with the code in its own words, the wording
is a definition in the namespace `Claim`.

A `std::string` / `std::vector<char>` is a list of bytes. Machine integers are
natural numbers reduced modulo `2^16` or `2^32` where the source stores them
in `uint16_t` / `uint32_t`. The target is little-endian (x86-64), so a
`memcpy` of an integer stores its low byte first.
-/

namespace TcpClips

/-! ## Bytes, strings and little-endian integers -/

/-- One `char` of a `std::string`. -/
abbrev Byte := Fin 256

/-- The contents of a `std::string` or of a `std::vector<char>`. -/
abbrev Str := List Byte

/-- The low eight bits of `n`, as one byte. -/
def byteOf (n : Nat) : Byte := ⟨n % 256, Nat.mod_lt n (by decide)⟩

/-- The two bytes that `memcpy(dst, &v, 2)` stores for a `uint16_t v`. -/
def le16 (n : Nat) : Str := [byteOf n, byteOf (n / 256)]

/-- The four bytes that `memcpy(dst, &v, 4)` stores for a 32-bit `v`. -/
def le32 (n : Nat) : Str :=
  [byteOf n, byteOf (n / 256), byteOf (n / 65536), byteOf (n / 16777216)]

/-- The integer whose little-endian object representation is `bs`. -/
def fromLE : Str → Nat
  | [] => 0
  | b :: bs => b.val + 256 * fromLE bs

/-- The difference `a - b` computed in `uint16_t`. -/
def sub16 (a b : Nat) : Nat := (a + 65536 - b) % 65536

/-- The byte of a space character. -/
def SP : Byte := 32

/-- The NUL byte. -/
def NUL : Byte := 0

/-- Exceptions of the standard library that the modelled code can raise.
`null_pointer` is not an exception: it stands for a call through a null
`shared_ptr`, after which the behaviour is undefined. -/
inductive Exn where
  | out_of_range
  | invalid_argument
  | null_pointer
  deriving DecidableEq, Repr

/-- Index of the first `c` in `s`, counted from the head of `s`. -/
def findFrom (c : Byte) : Str → Option Nat
  | [] => none
  | x :: xs => if x = c then some 0 else (findFrom c xs).map (· + 1)

/-- The call `s.find(c, pos)`: `none` stands for `std::string::npos`. -/
def find (s : Str) (c : Byte) (pos : Nat) : Option Nat :=
  (findFrom c (s.drop pos)).map (· + pos)

/-- The call `s.substr(pos, count)`; a `count` of `none` is `npos`, that is,
up to the end. Raises `out_of_range` when `pos > s.size()`. -/
def substr (s : Str) (pos : Nat) (count : Option Nat) : Except Exn Str :=
  if pos > s.length then .error .out_of_range
  else match count with
    | none => .ok (s.drop pos)
    | some n => .ok ((s.drop pos).take n)

/-- The call `s.erase(index)`: removes everything from `index` on; `index`
is `none` for `npos`. Raises `out_of_range` when `index > s.size()`. -/
def erase (s : Str) (index : Option Nat) : Except Exn Str :=
  match index with
  | none => .error .out_of_range
  | some i => if i > s.length then .error .out_of_range else .ok (s.take i)

/-- The expression `s[i]` for `i <= s.size()`: `s[s.size()]` is the
terminating NUL. -/
def charAt (s : Str) (i : Nat) : Byte := s.getD i NUL

/-- The bytes that `s.copy(dst, count, pos)` stores at `dst`. -/
def copyOut (s : Str) (count pos : Nat) : Str := (s.drop pos).take count

/-- Stores `src` into `buf` from offset `off` on (`memcpy(buf + off, src, n)`,
or a loop of byte stores). `none` is a store outside the buffer, which is
undefined behaviour. -/
def store (buf : Str) (off : Nat) (src : Str) : Option Str :=
  if off + src.length ≤ buf.length then
    some (buf.take off ++ src ++ buf.drop (off + src.length))
  else none

/-! ## Request (clipsclient/src/request.cpp) -/

/-- The fields of class `Request`. -/
structure Request where
  cmdId : Nat
  cmd : Str
  args : Str
  deriving DecidableEq, Repr

/-- The constructor `Request::Request(command, args)`: pre-increments the
static `uint32_t lastCommandId` and takes the new value as command id.
Returns the request and the new value of the counter. -/
def Request.create (lastCommandId : Nat) (command args : Str) : Request × Nat :=
  let next := (lastCommandId + 1) % 2 ^ 32
  ({ cmdId := next, cmd := command, args := args }, next)

/-- The local `content` of `Request::getPayload`. -/
def Request.content (r : Request) : Str :=
  if r.args.isEmpty then r.cmd else r.cmd ++ ([SP] ++ r.args)

/-- The method `Request::getPayload`. `none` when a store falls outside the
vector resized to the (truncated) `uint16_t packetsize`. -/
def Request.getPayload (r : Request) : Option Str :=
  let content := r.content
  let packetsize := (7 + content.length) % 65536
  let payload : Str := List.replicate packetsize 0
  (store payload 0 (le16 packetsize)).bind fun p1 =>
  (store p1 2 [0]).bind fun p2 =>
  (store p2 3 (le32 r.cmdId)).bind fun p3 =>
  store p3 7 content

/-- The static method `Request::fromMessage`; `none` is the `NULL` result. -/
def Request.fromMessage (message : Str) : Option Request :=
  if charAt message 0 ≠ 0 ∨ message.length < 6 then none
  else
    let argsPos := find message SP 5
    if argsPos = some 5 then none
    else
      match substr message 5 argsPos,
            (match argsPos with
             | some p => substr message (p + 1) none
             | none => .ok []) with
      | .ok cmd, .ok args =>
        some { cmdId := fromLE (copyOut message 4 1), cmd := cmd, args := args }
      | _, _ => none

/-- The function `publish` of tests/simple/main.cpp, without the socket: the
bytes handed to `socketPtr->send` for the string `s` when the static counter
holds `cmdId`. -/
def publish (cmdId : Nat) (s : Str) : Option Str :=
  let packetsize := (11 + s.length) % 65536
  let buffer : Str := List.replicate packetsize 0
  (store buffer 0 (le16 packetsize)).bind fun b1 =>
  (store b1 2 [0]).bind fun b2 =>
  (store b2 3 (le32 cmdId)).bind fun b3 =>
  (store b3 7 [114, 97, 119, 32]).bind fun b4 =>
  store b4 11 s

/-! ## Reply (clipsclient/src/reply.cpp) -/

/-- The fields of class `Reply`. -/
structure Reply where
  cmdId : Nat
  success : Bool
  result : Str
  deriving DecidableEq, Repr

/-- The constant `Reply::CommandIdNone`, that is `(uint32_t)-1`. -/
def Reply.CommandIdNone : Nat := 4294967295

/-- The static method `Reply::fromMessage`; `none` is the `NULL` result. The
call `message.substr(6)` is made only when `message.length() > 6`. -/
def Reply.fromMessage (message : Str) : Option Reply :=
  if message.length < 6 then none
  else if charAt message 0 ≠ 0 then none
  else
    let cmdId := fromLE (copyOut message 4 1)
    let success : Bool := decide (charAt message 5 ≠ 0)
    match (if message.length > 6 then substr message 6 none else .ok []) with
    | .ok result => some { cmdId := cmdId, success := success, result := result }
    | .error _ => none

/-! ## The input stream over the receive buffer

`std::istream` reading from a `boost::asio::streambuf`. Extracting bytes
moves the get pointer, so `buffer.size()` is the number of bytes not yet
extracted. -/

/-- An input stream together with its stream buffer. `avail` are the bytes
between the get pointer and the put pointer (`buffer.size()` is its length),
`putback` the bytes before the get pointer, the last extracted first, and
`fail` the `failbit` (`eofbit` is only ever set together with it). -/
structure IStream where
  putback : Str
  avail : Str
  fail : Bool
  deriving DecidableEq, Repr

/-- The call `is.read(dst, n)`: the bytes stored at `dst` and the stream
afterwards. On a stream that is not good nothing is extracted; when fewer
than `n` bytes are available they are all extracted and `failbit` is set. -/
def IStream.read (is : IStream) (n : Nat) : Str × IStream :=
  if is.fail then ([], is)
  else if n ≤ is.avail.length then
    (is.avail.take n,
      { putback := (is.avail.take n).reverse ++ is.putback, avail := is.avail.drop n,
        fail := false })
  else
    (is.avail, { putback := is.avail.reverse ++ is.putback, avail := [], fail := true })

/-- The call `is.unget()`: it clears `eofbit` only, so on a stream whose
`failbit` is set it gives nothing back. -/
def IStream.unget (is : IStream) : IStream :=
  if is.fail then is
  else match is.putback with
    | [] => { is with fail := true }
    | b :: pb => { putback := pb, avail := b :: is.avail, fail := false }

/-- A stream whose `failbit`, if set, was set by a read that emptied the
buffer, with no byte received since: it is good or holds no bytes. -/
def IStream.Drained (is : IStream) : Prop := is.fail = true → is.avail = []

instance (is : IStream) : Decidable is.Drained :=
  inferInstanceAs (Decidable (is.fail = true → is.avail = []))

/-- The content of a destination object that held `old` after `new` has been
stored at its start. -/
def overlay (old new : Str) : Str := new ++ old.drop new.length

/-! ## Session (clipsserver/src/session.cpp) -/

/-- The fields of class `TcpMessage`. -/
structure TcpMessage where
  source : Str
  message : Str
  deriving DecidableEq, Repr

/-- The method `Session::peekMessageHeader`. `junk` is the indeterminate
value that the uninitialised local `hdr` holds before the read. -/
def Session.peekMessageHeader (junk : Nat) (is : IStream) : Nat × IStream :=
  let (bs, is1) := is.read 2
  (fromLE (overlay (le16 junk) bs), is1.unget.unget)

/-- The method `Session::fetchStringFromBuffer`. `junk` is the indeterminate
value that the uninitialised local `bytesToRead` holds before the read. -/
def Session.fetchStringFromBuffer (junk : Nat) (is : IStream) : Str × IStream :=
  let (bs, is1) := is.read 2
  let bytesToRead := sub16 (fromLE (overlay (le16 junk) bs)) 2
  let s : Str := List.replicate (bytesToRead + 1) 0
  let (body, is2) := is1.read bytesToRead
  (overlay s body, is2)

/-- The `do ... while(buffer.size() > 0)` loop of `Session::asyncReadHandler`.
`junk` supplies the indeterminate values of the uninitialised locals, two for
each iteration; `q` are the messages enqueued so far. `none` when the loop
has not ended after `fuel` iterations. -/
def Session.readLoop (endpoint : Str) :
    Nat → (Nat → Nat) → IStream → List TcpMessage → Option (IStream × List TcpMessage)
  | 0, _, _, _ => none
  | fuel + 1, junk, is, q =>
    let (msgsize, is1) := Session.peekMessageHeader (junk 0) is
    if is1.avail.length < msgsize then some (is1, q)
    else
      let (s, is2) := Session.fetchStringFromBuffer (junk 1) is1
      let q2 := q ++ [{ source := endpoint, message := s }]
      if is2.avail.length > 0 then Session.readLoop endpoint fuel (fun k => junk (k + 2)) is2 q2
      else some (is2, q2)

/-- The state of a `Session` that the modelled methods read or write. -/
structure Session where
  endpoint : Str
  buffer : Str
  isOpen : Bool
  deriving DecidableEq, Repr

/-- What one call of `Session::asyncReadHandler` does: the receive buffer it
leaves, the messages it hands to `Server::enqueueTcpMessage` in order,
whether it called `Server::removeSession` and whether it called
`beginAsyncReceivePoll`. -/
structure ReadResult where
  buffer : Str
  enqueued : List TcpMessage
  removed : Bool
  rearmed : Bool
  deriving DecidableEq, Repr

/-- A frame as it travels on the wire: the 16-bit little-endian total size,
then the content (the layout `Session::send` writes). -/
def frameOf (content : Str) : Str := le16 (content.length + 2) ++ content

/-- The method `Session::asyncReadHandler`. The stream `is` is a local built
on the buffer at every call. Every iteration that goes on extracts the two
header bytes, so `buffer.size() + 1` iterations are enough. -/
def Session.asyncReadHandler (s : Session) (error : Bool) (junk : Nat → Nat) :
    Option ReadResult :=
  if error then
    some { buffer := s.buffer, enqueued := [], removed := true, rearmed := false }
  else
    (Session.readLoop s.endpoint (s.buffer.length + 1) junk
        { putback := [], avail := s.buffer, fail := false } []).map
      fun r => { buffer := r.1.avail, enqueued := r.2, removed := false, rearmed := true }

/-- The bytes arrive in `chunks`; after each chunk has been appended to the
receive buffer `asyncReadHandler` runs once without error, the `k`-th run
with the indeterminate values `junk k`. Returns the final buffer and all
messages enqueued, in order. -/
def Session.deliver (endpoint : Str) :
    List Str → (Nat → Nat → Nat) → Str → List TcpMessage → Option (Str × List TcpMessage)
  | [], _, buffer, q => some (buffer, q)
  | chunk :: rest, junk, buffer, q =>
    (Session.asyncReadHandler
        { endpoint := endpoint, buffer := buffer ++ chunk, isOpen := true } false (junk 0)).bind
      fun r => Session.deliver endpoint rest (fun k => junk (k + 1)) r.buffer (q ++ r.enqueued)

/-- Frames lying back to back: the wire bytes of the contents `cs`. -/
def framesOf : List Str → Str
  | [] => []
  | c :: cs => frameOf c ++ framesOf cs

/-- The method `Session::send`: `wire` lists the `asio::write` calls made on
the socket so far, one entry for each call. The variable-length array
`buffer` is not initialised; every byte of it is stored before the write.
`none` when a store falls outside the array. -/
def Session.send (s : Session) (str : Str) (wire : List Str) : Option (List Str) :=
  if !s.isOpen then some wire
  else
    let packetsize := (2 + str.length) % 65536
    let buffer : Str := List.replicate packetsize 0
    (store buffer 0 [byteOf packetsize]).bind fun b1 =>
    (store b1 1 [byteOf (packetsize / 256)]).bind fun b2 =>
    (store b2 2 str).bind fun b3 =>
    some (wire ++ [b3.take packetsize])

/-! ## Server (clipsserver/src/server.cpp) -/

/-- What `Server::parseMessage` does with a message: it either calls
`handleCommand(c, result)` and then `acknowledgeMessage`, or it calls
`assertFact(s, fact)`. -/
inductive ParseAction where
  | handleCommand (c : Str)
  | assertFact (s : Str) (fact : Str)
  deriving DecidableEq, Repr

/-- The bytes of the string literal `"network "`. -/
def networkPrefix : Str := [110, 101, 116, 119, 111, 114, 107, 32]

/-- The dispatch of `Server::parseMessage`: a message with first byte zero
and more than five bytes goes to `handleCommand` without its first five
bytes, every other message is asserted as a fact named after its source. -/
def Server.parseMessage (msg : TcpMessage) : Except Exn ParseAction :=
  let m := msg.message
  if charAt m 0 = 0 ∧ m.length > 5 then
    (substr m 5 none).map ParseAction.handleCommand
  else
    .ok (ParseAction.assertFact m (networkPrefix ++ msg.source))

/-- The helper `splitCommand`: the resulting `cmd` and `arg`. -/
def splitCommand (s : Str) : Except Exn (Str × Str) :=
  match find s SP 0 with
  | none => (substr s 0 (find s NUL 0)).map fun cmd => (cmd, [])
  | some sp =>
    (substr s 0 (some sp)).bind fun cmd =>
    (substr s (sp + 1) none).bind fun arg =>
    (erase arg (find arg NUL 0)).map fun arg2 => (cmd, arg2)

/-- The string `ack` that `Server::acknowledgeMessage` builds and hands to
`Session::send`. -/
def Server.ackContent (message : Str) (success : Bool) (result : Str) : Except Exn Str :=
  (substr message 0 (some 5)).map fun ack =>
    ack ++ [if success then (1 : Byte) else 0] ++ result

/-! ## ClipsClient (clipsclient/src/clipsclient.cpp) -/

/-- The member `std::map<uint32_t, ReplyPtr> pendingCommands`: `none` for a
key that is absent, `some none` for a key mapped to a null pointer. -/
abbrev Pending := Nat → Option (Option Reply)

/-- The call `pendingCommands.count(k)`. -/
def Pending.count (t : Pending) (k : Nat) : Nat := if (t k).isSome then 1 else 0

/-- The assignment `pendingCommands[k] = v`. -/
def Pending.assign (t : Pending) (k : Nat) (v : Option Reply) : Pending :=
  fun j => if j = k then some v else t j

/-- The expression `pendingCommands[k]` read as a value: an absent key is
inserted with a null pointer. -/
def Pending.index (t : Pending) (k : Nat) : Option Reply × Pending :=
  match t k with
  | some v => (v, t)
  | none => (none, t.assign k none)

/-- The call `pendingCommands.erase(k)`. -/
def Pending.erase (t : Pending) (k : Nat) : Pending :=
  fun j => if j = k then none else t j

/-- The call `pendingCommands.clear()`. -/
def Pending.clear : Pending := fun _ => none

/-- Conversion of a `uint32_t` to `int` (two's complement). -/
def toInt32 (n : Nat) : Int :=
  if n % 2 ^ 32 < 2 ^ 31 then (n % 2 ^ 32 : Nat) else ((n % 2 ^ 32 : Nat) : Int) - 2 ^ 32

/-- Conversion of an `int` to `uint32_t`. -/
def toUInt32 (z : Int) : Nat := (z % 2 ^ 32).toNat

/-- Conversion of an `int` to the 64-bit `size_t`. -/
def toSizeT (z : Int) : Nat := (z % 2 ^ 64).toNat

/-- What `ClipsClient::handleResponseMesage` does: the pending table it
leaves, whether it called `pccv.notify_all()`, and the reply it handed to
`updateStatus`, if any. -/
structure ResponseEffect where
  pending : Pending
  notified : Bool
  status : Option Reply

/-- The method `ClipsClient::handleResponseMesage`. -/
def ClipsClient.handleResponseMesage (t : Pending) (s : Str) : ResponseEffect :=
  match Reply.fromMessage s with
  | none => { pending := t, notified := false, status := none }
  | some r =>
    if r.cmdId = Reply.CommandIdNone then
      { pending := t, notified := false, status := some r }
    else if t.count r.cmdId = 0 then
      { pending := t, notified := false, status := none }
    else
      { pending := t.assign r.cmdId (some r), notified := true, status := none }

/-- The method `ClipsClient::hasReponseArrived`: the value returned and the
value of the reference parameter `aborted` afterwards. -/
def ClipsClient.hasReponseArrived (t : Pending) (cmdId : Nat) (aborted : Bool) : Bool × Bool :=
  if t.count cmdId < 1 then (true, true)
  else (decide (t cmdId ≠ some none), aborted)

/-- What `ClipsClient::awaitResponse` returns together with its two
reference parameters and the pending table afterwards. -/
structure AwaitResult where
  returned : Bool
  success : Bool
  result : Str
  pending : Pending

/-- The method `ClipsClient::awaitResponse(int cmdId, bool& success,
std::string& result)` run on the pending table `t`. `none` when the wait
predicate is false, that is, the caller stays blocked on the condition
variable. -/
def ClipsClient.awaitResponse (t : Pending) (cmdId : Int) (success : Bool) (result : Str) :
    Option AwaitResult :=
  let key := toUInt32 cmdId
  let (arrived, aborted) := ClipsClient.hasReponseArrived t key false
  if !arrived then none
  else
    let (v, t1) := t.index key
    match v with
    | none => some { returned := false, success := success, result := result, pending := t1 }
    | some r =>
      if aborted then
        some { returned := false, success := success, result := result, pending := t1 }
      else
        some { returned := true, success := r.success, result := r.result,
               pending := t1.erase key }

/-- The method `ClipsClient::abortAllRPC`: the pending table afterwards. -/
def ClipsClient.abortAllRPC (_t : Pending) : Pending := Pending.clear

/-- A call made by the receive loop of the client. -/
inductive Call where
  | handleResponseMesage (s : Str)
  | onMessageReceived (s : Str)
  deriving DecidableEq, Repr

/-- Step 1 of the loop body of `ClipsClient::asyncReadHandler`, the call
`is.read((char*)&msgsize, sizeof(msgsize))`: the value of `msgsize` and the
stream afterwards. `junk` is the indeterminate value that the uninitialised
local `msgsize` holds before the read. -/
def ClipsClient.readHeader (junk : Nat) (is : IStream) : Nat × IStream :=
  (fromLE (overlay (le16 junk) (is.read 2).1), (is.read 2).2)

/-- Step 2 of the loop body, `std::string s(msgsize, 0); is.read(&s[0],
msgsize);`: the string `s` and the stream afterwards. -/
def ClipsClient.readMessage (msgsize : Nat) (is : IStream) : Str × IStream :=
  (overlay (List.replicate msgsize 0) (is.read msgsize).1, (is.read msgsize).2)

/-- Step 3 of the loop body: a string whose first byte is zero goes to
`handleResponseMesage`, any other to `onMessageReceived`. -/
def ClipsClient.dispatch (s : Str) : Call :=
  if charAt s 0 = 0 then Call.handleResponseMesage s else Call.onMessageReceived s

/-- How one pass through the loop body of `ClipsClient::asyncReadHandler`
ends: with `break`, or at the loop condition (after `continue` or at the end
of the body). Both carry the stream and the calls made so far. -/
inductive LoopStep where
  | stop (is : IStream) (calls : List Call)
  | next (is : IStream) (calls : List Call)
  deriving DecidableEq, Repr

/-- The loop body of `ClipsClient::asyncReadHandler` after the header has
been read into `msgsize`. The comparison `buffer.size() < (size_t)(msgsize -
2)` is made on the `int` difference converted to `size_t`; `msgsize -= 2` is
made on the `uint16_t`. -/
def ClipsClient.afterHeader (msgsize : Nat) (is1 : IStream) (calls : List Call) : LoopStep :=
  if is1.avail.length < toSizeT ((msgsize : Int) - 2) then
    LoopStep.stop is1.unget.unget calls
  else if sub16 msgsize 2 = 0 then
    LoopStep.next is1 calls
  else
    match ClipsClient.readMessage (sub16 msgsize 2) is1 with
    | (s, is2) => LoopStep.next is2 (calls ++ [ClipsClient.dispatch s])

/-- The loop body of `ClipsClient::asyncReadHandler`. `junk` is the
indeterminate value that the uninitialised local `msgsize` holds before the
read. -/
def ClipsClient.loopBody (junk : Nat) (is : IStream) (calls : List Call) : LoopStep :=
  match ClipsClient.readHeader junk is with
  | (msgsize, is1) => ClipsClient.afterHeader msgsize is1 calls

/-- The `do ... while(buffer.size() > 0)` loop of
`ClipsClient::asyncReadHandler`. `junk` supplies the indeterminate value of
the uninitialised local `msgsize` of each iteration; `calls` are the calls
made so far. `none` when the loop has not ended after `fuel` iterations. -/
def ClipsClient.readLoop :
    Nat → (Nat → Nat) → IStream → List Call → Option (IStream × List Call)
  | 0, _, _, _ => none
  | fuel + 1, junk, is, calls =>
    match ClipsClient.loopBody (junk 0) is calls with
    | LoopStep.stop is2 calls2 => some (is2, calls2)
    | LoopStep.next is2 calls2 =>
      if is2.avail.length > 0 then
        ClipsClient.readLoop fuel (fun k => junk (k + 1)) is2 calls2
      else some (is2, calls2)

/-- What one call of `ClipsClient::asyncReadHandler` does: the member stream
afterwards, the calls to `handleResponseMesage` and `onMessageReceived` in
order, whether `disconnect` was called and whether `beginReceive` was. -/
structure ClientReadResult where
  is : IStream
  calls : List Call
  disconnected : Bool
  rearmed : Bool
  deriving DecidableEq, Repr

/-- The method `ClipsClient::asyncReadHandler` on the member stream `is`.
On a good stream every iteration that goes on extracts the two header bytes,
so `buffer.size() + 1` iterations are enough; `none` when the loop has not
ended by then. -/
def ClipsClient.asyncReadHandler (is : IStream) (error : Bool) (junk : Nat → Nat) :
    Option ClientReadResult :=
  if error then some { is := is, calls := [], disconnected := true, rearmed := false }
  else
    (ClipsClient.readLoop (is.avail.length + 1) junk is []).map
      fun r => { is := r.1, calls := r.2, disconnected := false, rearmed := true }

/-! ## The engine wrapper (clipswrapper/src/clipswrapper.cpp)

The CLIPS engine, the file system and the sockets are outside the modelled
code. Every call that leaves the modelled code is recorded, in order, in a
log; the values such calls return come from an environment `Env`. -/

/-- The bytes of a string literal of the source. -/
def bytesOf (s : String) : Str := s.toList.map fun c => byteOf c.toNat

/-- The keys of the map `watchItems` of clipswrapper.cpp, enumerators of
`clips::WatchItem`. -/
inductive WatchItem where
  | Facts | Rules | Activations | Focus | Compilations | Statistics | Globals
  | Deffunctions | Instances | Slots | Messages | MessageHandlers | GenericFunctions
  | Methods
  deriving DecidableEq, Repr

/-- A call that leaves the modelled code: to the CLIPS engine
(`AssertString`, `SetFactListChanged`, `Reset`, `Clear`, `RouteCommand` with
its bookkeeping in `sendCommandRaw`, `Run`, `Facts`, the listing of rules,
`Agenda`, `Watch`, `Unwatch`, the registration, activation and deactivation
of the query router), to the operating system (`chdir`), to the file loader
(`Server::loadFile`), or to a session (`Session::send`). -/
inductive Effect where
  | assertString (s : Str)
  | setFactListChanged (changed : Bool)
  | reset
  | clear
  | sendCommandRaw (s : Str)
  | run (maxRules : Int)
  | printFacts
  | printRules
  | printAgenda
  | watch (item : WatchItem)
  | unwatch (item : WatchItem)
  | addRouter
  | activateRouter
  | deactivateRouter
  | chdir (path : Str)
  | loadFile (fpath : Str)
  | send (endpoint : Str) (s : Str)
  deriving DecidableEq, Repr

/-- What the surroundings of the modelled code answer. `bits` are the `int`
values of the enumerators of `clips::WatchItem` and `order` the keys of the
map `watchItems` in its iteration order, both fixed by the header
clipswrapper.h, which is not among the sources; `runDefault` is the default
argument of `clips::run`, from the same header. `output e` is the text the
engine writes, during the call `e`, to the logical names the query router
listens to. `evaluationError s` is what `GetEvaluationError` returns after
`RouteCommand` has processed `s`. -/
structure Env where
  bits : WatchItem → Nat
  order : List WatchItem
  runDefault : Int
  run : Int → Int
  evaluationError : Str → Bool
  activateRouter : Bool
  output : Effect → Str
  canonicalize_path : Str → Str
  chdir : Str → Bool
  loadFile : Str → Bool

/-- The state the command router works on: the watch state of the engine
(`GetWatchState`), the members `clppath`, `defaultMsgInFact` and `clients`
of `Server` (a null `shared_ptr` is `none`; the list is in the iteration
order of the map), the members `enabled` and `buffer` of the `QueryRouter`,
and the log of the calls made so far. -/
structure ServerState where
  watches : WatchItem → Bool
  clppath : Str
  defaultMsgInFact : Str
  clients : List (Str × Option Session)
  routerEnabled : Bool
  routerBuffer : Str
  log : List Effect

/-- Records the call `e`, which is not a call to the engine. -/
def ServerState.record (st : ServerState) (e : Effect) : ServerState :=
  { st with log := st.log ++ [e] }

/-- Records the call `e` to the engine. While the query router is enabled,
its `writeFunction` appends what the engine prints to the buffer of the
router. -/
def ServerState.engineCall (env : Env) (st : ServerState) (e : Effect) : ServerState :=
  { st with
    log := st.log ++ [e],
    routerBuffer :=
      if st.routerEnabled then st.routerBuffer ++ env.output e else st.routerBuffer }

/-- The pointer that `clipsstr(s)` hands to the C interface of CLIPS: `NULL`
for the empty string, otherwise `s.c_str()`, which CLIPS reads up to the
first NUL. -/
def clipsstr (s : Str) : Option Str :=
  if s.length = 0 then none else some (s.takeWhile fun b => b ≠ NUL)

/-- The loop of `clips::isValidClipsString` over the bytes not yet visited,
with `depth` the size of the stack: a backslash skips the byte after it. -/
def clips.scanParens : Str → Nat → Bool
  | [], depth => depth == 0
  | b :: rest, depth =>
    if b = 92 then
      match rest with
      | [] => depth == 0
      | _ :: rest2 => clips.scanParens rest2 depth
    else if b = 40 then clips.scanParens rest (depth + 1)
    else if b = 41 then
      if depth = 0 then false else clips.scanParens rest (depth - 1)
    else clips.scanParens rest depth

/-- The function `clips::isValidClipsString`. -/
def clips.isValidClipsString (str : Str) : Bool :=
  if str.length < 1 ∨ charAt str 0 ≠ 40 then false
  else clips.scanParens str 0

/-- The function `clips::sendCommandRaw`, which returns nothing: the state
afterwards. The flag that `GetEvaluationError` returns is stored in the local
`res`, which no statement reads. -/
def clips.sendCommandRaw (env : Env) (st : ServerState) (s : Str) : ServerState :=
  let _res := env.evaluationError s
  st.engineCall env (Effect.sendCommandRaw s)

/-- The function `clips::sendCommand`: the value returned and the state
afterwards. -/
def clips.sendCommand (env : Env) (st : ServerState) (s : Str) : Bool × ServerState :=
  if !clips.isValidClipsString s then (false, st)
  else (true, clips.sendCommandRaw env st s)

/-- The method `QueryRouter::enable`. The member `registered` is false from
the constructor on and no method sets it, so `registerR` adds the router at
every call that finds the router disabled. -/
def QueryRouter.enable (env : Env) (st : ServerState) : ServerState :=
  if st.routerEnabled then st
  else
    { (st.record Effect.addRouter).record Effect.activateRouter with
      routerEnabled := env.activateRouter }

/-- The method `QueryRouter::disable`. -/
def QueryRouter.disable (st : ServerState) : ServerState :=
  if !st.routerEnabled then st
  else { st.record Effect.deactivateRouter with routerEnabled := false }

/-- The function `clips::query(query, result, steps)`: the value returned,
`result` and `steps` afterwards (`steps` is `none` while it is not
initialised) and the state afterwards. -/
def clips.query3 (env : Env) (st : ServerState) (query result : Str) :
    Bool × Str × Option Int × ServerState :=
  let st1 := QueryRouter.enable env st
  let sent := clips.sendCommand env st1 query
  if !sent.1 then (false, result, none, sent.2)
  else
    let st3 := sent.2.engineCall env (Effect.run env.runDefault)
    let st4 := { st3 with routerBuffer := [] }
    (true, st3.routerBuffer, some (env.run env.runDefault), QueryRouter.disable st4)

/-- The function `clips::query(query, result)`: the value returned, `result`
afterwards and the state afterwards. -/
def clips.query (env : Env) (st : ServerState) (query result : Str) :
    Bool × Str × ServerState :=
  match clips.query3 env st query result with
  | (true, res, some steps, st1) => (decide (steps > 0), res, st1)
  | (_, res, _, st1) => (false, res, st1)

/-- The loop of `clips::toggleWatch` over the keys of `watchItems` not yet
visited: the first key that shares a bit with `item` is toggled, and the
`break` after the `if`/`else` ends the loop. -/
def clips.toggleWatchLoop (env : Env) (item : WatchItem) :
    List WatchItem → ServerState → ServerState
  | [], st => st
  | kv :: rest, st =>
    if Nat.land (env.bits item) (env.bits kv) = 0 then clips.toggleWatchLoop env item rest st
    else if st.watches kv then
      { st.engineCall env (Effect.unwatch kv) with
        watches := fun w => if w = kv then false else st.watches w }
    else
      { st.engineCall env (Effect.watch kv) with
        watches := fun w => if w = kv then true else st.watches w }

/-- The function `clips::toggleWatch`: the state afterwards. The value it
returns is not used by the server. -/
def clips.toggleWatch (env : Env) (st : ServerState) (item : WatchItem) : ServerState :=
  clips.toggleWatchLoop env item env.order st

/-- The function `clips::getWatches`, as an `int`. -/
def clips.getWatches (env : Env) (st : ServerState) : Nat :=
  env.order.foldl (fun result kv => if st.watches kv then Nat.lor result (env.bits kv) else result) 0

/-! ## Numbers as text -/

/-- The decimal digits of `n`, the most significant first; `fuel` bounds the
number of digits. -/
def decimalDigits : Nat → Nat → Str
  | 0, _ => []
  | fuel + 1, n =>
    if n < 10 then [byteOf (48 + n)]
    else decimalDigits fuel (n / 10) ++ [byteOf (48 + n % 10)]

/-- The function `std::to_string(int)`. -/
def to_string (z : Int) : Str :=
  if z < 0 then 45 :: decimalDigits (z.natAbs + 1) z.natAbs
  else decimalDigits (z.toNat + 1) z.toNat

/-- The test `isspace` in the C locale. -/
def isSpace (b : Byte) : Bool := b = 32 || (9 ≤ b.val && b.val ≤ 13)

/-- The test `isdigit`. -/
def isDigit (b : Byte) : Bool := 48 ≤ b.val && b.val ≤ 57

/-- The function `std::stoi(str)`: leading white space, an optional sign,
then decimal digits up to the first other byte. Raises `invalid_argument`
when there is no digit and `out_of_range` when the value is no `int`. -/
def stoi (str : Str) : Except Exn Int :=
  let s1 := str.dropWhile isSpace
  let neg : Bool := s1.head? = some 45
  let s2 := if s1.head? = some 45 ∨ s1.head? = some 43 then s1.drop 1 else s1
  let digits := s2.takeWhile isDigit
  if digits = [] then .error .invalid_argument
  else
    let v : Int := (digits.foldl (fun a d => 10 * a + (d.val - 48)) 0 : Nat)
    let z : Int := if neg then -v else v
    if z < -2147483648 ∨ z > 2147483647 then .error .out_of_range else .ok z

/-! ## The command router (clipsserver/src/server.cpp) -/

/-- The method `Server::assertFact(s, fact, resetFactListChanged)`: the
state afterwards. The local `f` of the source is computed and not used. -/
def Server.assertFact (env : Env) (st : ServerState) (s fact : Str)
    (resetFactListChanged : Bool) : ServerState :=
  let as := bytesOf "(" ++ fact ++ bytesOf " " ++ s ++ bytesOf ")"
  let st1 := st.engineCall env (Effect.assertString as)
  if resetFactListChanged then st1.engineCall env (Effect.setFactListChanged false) else st1

/-- The method `Server::broadcast` over the sessions not yet visited: the
state afterwards. -/
def Server.broadcast (message : Str) : List (Str × Option Session) → ServerState →
    Except Exn ServerState
  | [], st => .ok st
  | (_, none) :: _, _ => .error .null_pointer
  | (ep, some _) :: rest, st => Server.broadcast message rest (st.record (Effect.send ep message))

/-- The string `status` that `Server::publishStatus` builds. -/
def Server.statusMessage (env : Env) (st : ServerState) : Str :=
  [0] ++ ([255, 255, 255, 255, 1] ++ bytesOf "watching:"
    ++ to_string (clips.getWatches env st)) ++ (bytesOf "|path:" ++ st.clppath)

/-- The method `Server::publishStatus`: the state afterwards. -/
def Server.publishStatus (env : Env) (st : ServerState) : Except Exn ServerState :=
  Server.broadcast (Server.statusMessage env st) st.clients st

/-- The method `Server::sendCommand`. -/
def Server.sendCommand (env : Env) (st : ServerState) (s : Str) : Bool × ServerState :=
  clips.sendCommand env st s

/-- The method `Server::handleLog`. -/
def Server.handleLog (_arg : Str) : Bool := true

/-- The method `Server::handlePath`. -/
def Server.handlePath (env : Env) (st : ServerState) (path : Str) :
    Except Exn (Bool × ServerState) :=
  let cpath := env.canonicalize_path path
  let st1 := st.record (Effect.chdir cpath)
  if !env.chdir cpath then .ok (false, st1)
  else (Server.publishStatus env { st1 with clppath := cpath }).map fun st2 => (true, st2)

/-- The method `Server::handlePrint`. -/
def Server.handlePrint (env : Env) (st : ServerState) (arg : Str) : Bool × ServerState :=
  if arg = bytesOf "facts" then (true, st.engineCall env Effect.printFacts)
  else if arg = bytesOf "rules" then (true, st.engineCall env Effect.printRules)
  else if arg = bytesOf "agenda" then (true, st.engineCall env Effect.printAgenda)
  else (false, st)

/-- The method `Server::handleRun`: the `int` returned. -/
def Server.handleRun (env : Env) (st : ServerState) (arg : Str) :
    Except Exn (Int × ServerState) :=
  (stoi arg).map fun n => (env.run n, st.engineCall env (Effect.run n))

/-- The method `Server::handleWatch`. -/
def Server.handleWatch (env : Env) (st : ServerState) (arg : Str) :
    Except Exn (Bool × ServerState) :=
  if arg = bytesOf "functions" then
    (Server.publishStatus env (clips.toggleWatch env st WatchItem.Deffunctions)).map
      fun st2 => (true, st2)
  else if arg = bytesOf "globals" then
    (Server.publishStatus env (clips.toggleWatch env st WatchItem.Globals)).map
      fun st2 => (true, st2)
  else if arg = bytesOf "facts" then
    (Server.publishStatus env (clips.toggleWatch env st WatchItem.Facts)).map
      fun st2 => (true, st2)
  else if arg = bytesOf "rules" then
    (Server.publishStatus env (clips.toggleWatch env st WatchItem.Rules)).map
      fun st2 => (true, st2)
  else if arg ≠ [] then .ok (false, st)
  else (Server.publishStatus env st).map fun st2 => (true, st2)

/-- The method `Server::loadFile`, which belongs to the file loader: its
call is recorded and its value comes from the environment. -/
def Server.loadFile (env : Env) (st : ServerState) (fpath : Str) : Bool × ServerState :=
  (env.loadFile fpath, st.record (Effect.loadFile fpath))

/-- The method `Server::handleCommand(c, result)`, called with an empty
`result`: the value returned, `result` afterwards and the state
afterwards. -/
def Server.handleCommand (env : Env) (st : ServerState) (c : Str) :
    Except Exn (Bool × Str × ServerState) :=
  (splitCommand c).bind fun ca =>
    let cmd := ca.1
    let arg := ca.2
    if cmd = bytesOf "assert" then
      .ok (true, [], st.engineCall env (Effect.assertString arg))
    else if cmd = bytesOf "reset" then .ok (true, [], st.engineCall env Effect.reset)
    else if cmd = bytesOf "clear" then .ok (true, [], st.engineCall env Effect.clear)
    else if cmd = bytesOf "query" then .ok (clips.query env st arg [])
    else if cmd = bytesOf "raw" then
      .ok ((Server.sendCommand env st arg).1, [], (Server.sendCommand env st arg).2)
    else if cmd = bytesOf "path" then
      (Server.handlePath env st arg).map fun r => (r.1, [], r.2)
    else if cmd = bytesOf "print" then
      .ok ((Server.handlePrint env st arg).1, [], (Server.handlePrint env st arg).2)
    else if cmd = bytesOf "watch" then
      (Server.handleWatch env st arg).map fun r => (r.1, [], r.2)
    else if cmd = bytesOf "load" then
      .ok ((Server.loadFile env st arg).1, [], (Server.loadFile env st arg).2)
    else if cmd = bytesOf "run" then
      (Server.handleRun env st arg).map fun r => (decide (r.1 ≠ 0), [], r.2)
    else if cmd = bytesOf "log" then .ok (Server.handleLog arg, [], st)
    else .ok (false, [], st)

/-- The look-up `clients[source]` of `Server::acknowledgeMessage`: a key
that is absent is inserted with a null pointer. Returns the pointer found
and the registry afterwards. -/
def Server.clientsIndex (clients : List (Str × Option Session)) (source : Str) :
    Option Session × List (Str × Option Session) :=
  match clients.lookup source with
  | some v => (v, clients)
  | none => (none, clients ++ [(source, none)])

/-- The method `Server::acknowledgeMessage`: the state afterwards. -/
def Server.acknowledgeMessage (st : ServerState) (message : TcpMessage) (success : Bool)
    (result : Str) : Except Exn ServerState :=
  (Server.ackContent message.message success result).bind fun ack =>
    match (Server.clientsIndex st.clients message.source).1 with
    | none => .error .null_pointer
    | some _ => .ok (st.record (Effect.send message.source ack))

/-- The method `Server::sendTo`: the value returned and the state
afterwards. -/
def Server.sendTo (st : ServerState) (cliEP message : Str) : Except Exn (Bool × ServerState) :=
  match st.clients.lookup cliEP with
  | none => .ok (false, st)
  | some none => .error .null_pointer
  | some (some _) => .ok (true, st.record (Effect.send cliEP message))

/-- The method `Server::removeSession`. -/
def Server.removeSession (st : ServerState) (srep : Str) : ServerState :=
  { st with clients := st.clients.filter fun kv => kv.1 ≠ srep }

/-- One pass of the loop of `Server::run` with a message in the queue, that
is, `Server::parseMessage` with what it calls: a command is handled and
acknowledged, any other message is asserted as a fact. -/
def Server.runStep (env : Env) (st : ServerState) (msg : TcpMessage) : Except Exn ServerState :=
  (Server.parseMessage msg).bind fun action =>
    match action with
    | ParseAction.handleCommand c =>
      (Server.handleCommand env st c).bind fun r =>
        Server.acknowledgeMessage r.2.2 msg r.1 r.2.1
    | ParseAction.assertFact s fact => .ok (Server.assertFact env st s fact true)

/-! ## A sample environment and server, for concrete evaluations -/

/-- Sample values for the enumerators: distinct bits, in the order of the
initialiser of `watchItems`. The values of clipswrapper.h may differ. -/
def Env.sampleBits : WatchItem → Nat
  | .Facts => 1 | .Rules => 2 | .Activations => 4 | .Focus => 8 | .Compilations => 16
  | .Statistics => 32 | .Globals => 64 | .Deffunctions => 128 | .Instances => 256
  | .Slots => 512 | .Messages => 1024 | .MessageHandlers => 2048 | .GenericFunctions => 4096
  | .Methods => 8192

/-- A sample environment: every directory exists, every file loads, a run
fires three rules, no command raises an evaluation error and the engine
prints nothing. -/
def Env.sample : Env where
  bits := Env.sampleBits
  order := [.Facts, .Rules, .Activations, .Focus, .Compilations, .Statistics, .Globals,
    .Deffunctions, .Instances, .Slots, .Messages, .MessageHandlers, .GenericFunctions, .Methods]
  runDefault := -1
  run := fun _ => 3
  evaluationError := fun _ => false
  activateRouter := true
  output := fun _ => []
  canonicalize_path := fun path => path
  chdir := fun _ => true
  loadFile := fun _ => true

/-- The sample environment with an engine that prints `R` during a reset and
`Q` during a run. -/
def Env.printing : Env :=
  { Env.sample with
    output := fun e =>
      if e = Effect.reset then bytesOf "R"
      else if e = Effect.run (-1) then bytesOf "Q" else [] }

/-- A sample server: nothing is watched, one open session is registered
under `10.0.0.1:5555`, the query router is disabled and no call has been
made. -/
def ServerState.sample : ServerState where
  watches := fun _ => false
  clppath := bytesOf "/tmp"
  defaultMsgInFact := bytesOf "network 0.0.0.0:0"
  clients := [(bytesOf "10.0.0.1:5555",
    some { endpoint := bytesOf "10.0.0.1:5555", buffer := [], isOpen := true })]
  routerEnabled := false
  routerBuffer := []
  log := []

/-! ## Issuing requests (clipsclient/src/request.cpp, clipsclient.cpp) -/

/-- The value of the static counter `Request::lastCommandId` after `n`
requests have been constructed in a process; it starts at zero. -/
def Request.counterAfter : Nat → Nat
  | 0 => 0
  | n + 1 => (Request.create (Request.counterAfter n) [] []).2

/-- The `n`-th request constructed in a process, counted from 1. -/
def Request.nth (n : Nat) (command args : Str) : Request :=
  (Request.create (Request.counterAfter (n - 1)) command args).1

/-- The state of a `ClipsClient` that sending a command reads or writes:
whether `socketPtr` is set and open, the buffers given to `socketPtr->send`
so far, the static counter of `Request`, and the pending table. -/
structure ClientState where
  isOpen : Bool
  sent : List Str
  lastCommandId : Nat
  pendingCommands : Pending

/-- The method `ClipsClient::sendCommand`: the value returned, the reference
parameter `cmdId` afterwards and the client afterwards. `none` when
`getPayload` stores outside its vector. -/
def ClipsClient.sendCommand (c : ClientState) (command args : Str) (cmdId : Nat) :
    Option (Bool × Nat × ClientState) :=
  if !c.isOpen then some (false, cmdId, c)
  else
    let rq := Request.create c.lastCommandId command args
    rq.1.getPayload.map fun p =>
      (true, rq.1.cmdId, { c with sent := c.sent ++ [p], lastCommandId := rq.2 })

/-- The receive path handles the messages `msgs` one after another: the
calls of `handleResponseMesage` that `asyncReadHandler` makes on the service
thread. Returns the pending table afterwards. -/
def ClipsClient.receive (t : Pending) (msgs : List Str) : Pending :=
  msgs.foldl (fun t s => (ClipsClient.handleResponseMesage t s).pending) t

/-- How a call of `ClipsClient::rpc` ends: it returns a value, with the
reference parameter `result` and the client afterwards; or the caller stays
blocked in `awaitResponse`; or `getPayload` stored outside its vector. -/
inductive RpcOutcome where
  | returned (value : Bool) (result : Str) (c : ClientState)
  | blocked (c : ClientState)
  | undefined

/-- The method `ClipsClient::rpc(cmd, args, result)` on the calling thread,
with the service thread handling the messages `early` after `sendCommand`
has returned and before the pending table is locked for the registration,
and the messages `late` after the registration and before the caller is
woken. The statements of `rpc` run in the order of the source: `sendCommand`,
then `pendingCommands[cmdId] = NULL`, then `awaitResponse`. -/
def ClipsClient.rpc (c : ClientState) (cmd args result : Str) (early late : List Str) :
    RpcOutcome :=
  match ClipsClient.sendCommand c cmd args 0 with
  | none => RpcOutcome.undefined
  | some (false, _, c1) => RpcOutcome.returned false result c1
  | some (true, cmdId, c1) =>
    let t2 := ClipsClient.receive c1.pendingCommands early
    let t3 := t2.assign cmdId none
    let t4 := ClipsClient.receive t3 late
    match ClipsClient.awaitResponse t4 (toInt32 cmdId) false result with
    | none => RpcOutcome.blocked { c1 with pendingCommands := t4 }
    | some r =>
      if !r.returned then RpcOutcome.returned false r.result { c1 with pendingCommands := r.pending }
      else RpcOutcome.returned r.success r.result { c1 with pendingCommands := r.pending }

/-! ## The status of the client (clipsclient/src/clipsstatus.cpp, clipsclient.cpp) -/

/-- The fields of class `ClipsStatus`; `watches` is a `uint32_t`. -/
structure ClipsStatus where
  watches : Nat
  clpPath : Str
  deriving DecidableEq, Repr

/-- The call `std::regex_match(s, match, rxStatus)` of
`ClipsStatus::fromString`, for the pattern
`watching:(\d{1,5})(\|path:[^\|]+)?`. The whole of `s` has to match: after
the literal `watching:` comes the longest run of digits, of one to five
digits (a character after the first group is the end or a `|`, never a
digit), and then either the end or the literal `|path:` with at least one
more character, none of them a `|`. Returns the sub-matches `match[1]` and
`match[2]`, the second empty when the optional group took no part; `none`
when `s` does not match. -/
def ClipsStatus.rxStatus (s : Str) : Option (Str × Str) :=
  if s.take 9 ≠ bytesOf "watching:" then none
  else
    let digits := (s.drop 9).takeWhile isDigit
    let tail := (s.drop 9).dropWhile isDigit
    if digits.length < 1 ∨ digits.length > 5 then none
    else if tail = [] then some (digits, [])
    else if tail.take 6 = bytesOf "|path:" ∧ tail.length > 6 ∧ (124 : Byte) ∉ tail.drop 6 then
      some (digits, tail)
    else none

/-- The static method `ClipsStatus::fromString`; `none` is the `NULL`
result. The loop over the sub-matches from index 2 on visits `match[2]`
alone; `rfind("|path:", 0) == 0` tests whether the sub-match starts with
`|path:`. -/
def ClipsStatus.fromString (s : Str) : Except Exn (Option ClipsStatus) :=
  match ClipsStatus.rxStatus s with
  | none => .ok none
  | some (m1, m2) =>
    (stoi m1).bind fun n =>
      if m2.length > 6 ∧ m2.take 6 = bytesOf "|path:" then
        (substr m2 6 none).map fun path => some { watches := toUInt32 n, clpPath := path }
      else .ok (some { watches := toUInt32 n, clpPath := [] })

/-- The method `ClipsClient::updateStatus` on the member `clipsStatus`: the
member afterwards and whether `onClipsStatusChanged` was called. -/
def ClipsClient.updateStatus (clipsStatus : Option ClipsStatus) (r : Reply) :
    Except Exn (Option ClipsStatus × Bool) :=
  (substr r.result 0 (some 9)).bind fun head =>
    if r.cmdId ≠ Reply.CommandIdNone ∨ r.success = false ∨ head ≠ bytesOf "watching:" then
      .ok (clipsStatus, false)
    else
      (ClipsStatus.fromString r.result).map fun ncs =>
        match ncs with
        | none => (clipsStatus, false)
        | some n => (some n, true)

/-- What the client does with a message that `asyncReadHandler` hands to
`handleResponseMesage`, as far as the member `clipsStatus` goes: a reply with
the id `Reply::CommandIdNone` reaches `updateStatus`, any other message
leaves the member as it is. -/
def ClipsClient.statusAfter (clipsStatus : Option ClipsStatus) (t : Pending) (s : Str) :
    Except Exn (Option ClipsStatus × Bool) :=
  match (ClipsClient.handleResponseMesage t s).status with
  | none => .ok (clipsStatus, false)
  | some r => ClipsClient.updateStatus clipsStatus r

/-! ## Commands checked by the client (clipsclient/src/clipsclient.cpp) -/

/-- The call `std::regex_match(args, match, rxInt)` for the pattern
`-?\d{1,9}`: the whole of `args` is an optional `-` and then one to nine
digits. -/
def ClipsClient.rxInt (args : Str) : Bool :=
  let digits := if args.head? = some 45 then args.drop 1 else args
  decide (1 ≤ digits.length) && decide (digits.length ≤ 9) && digits.all isDigit

/-- The call `std::regex_match(args, match, rxPrint)` for the pattern
`facts|rules|agenda`. -/
def ClipsClient.rxPrint (args : Str) : Bool :=
  decide (args = bytesOf "facts") || decide (args = bytesOf "rules")
    || decide (args = bytesOf "agenda")

/-- The call `std::regex_match(args, match, rxWatch)` for the pattern
`functions|globals|facts|rules`. -/
def ClipsClient.rxWatch (args : Str) : Bool :=
  decide (args = bytesOf "functions") || decide (args = bytesOf "globals")
    || decide (args = bytesOf "facts") || decide (args = bytesOf "rules")

/-- The method `ClipsClient::execute(cmd, args)`. Every call of `rpc` it
makes starts with an empty local `result`; `early` and `late` are the
messages the service thread handles during that call, as for
`ClipsClient.rpc`. Where `execute` returns false without a call of `rpc`,
the outcome is `returned false` with the client as it was. -/
def ClipsClient.execute (c : ClientState) (cmd args : Str) (early late : List Str) :
    RpcOutcome :=
  if cmd = bytesOf "reset" then ClipsClient.rpc c cmd [] [] early late
  else if cmd = bytesOf "clear" then ClipsClient.rpc c cmd [] [] early late
  else if cmd = bytesOf "run" then
    if args = [] then ClipsClient.rpc c cmd (bytesOf "-1") [] early late
    else if ClipsClient.rxInt args then ClipsClient.rpc c cmd args [] early late
    else RpcOutcome.returned false [] c
  else if cmd = bytesOf "print" then
    if ClipsClient.rxPrint args then ClipsClient.rpc c cmd args [] early late
    else RpcOutcome.returned false [] c
  else if cmd = bytesOf "watch" then
    if ClipsClient.rxWatch args then ClipsClient.rpc c cmd args [] early late
    else RpcOutcome.returned false [] c
  else if cmd = bytesOf "assert" then
    if args ≠ [] then ClipsClient.rpc c cmd args [] early late
    else RpcOutcome.returned false [] c
  else if cmd = bytesOf "raw" then
    if args ≠ [] then ClipsClient.rpc c cmd args [] early late
    else RpcOutcome.returned false [] c
  else if cmd = bytesOf "path" then
    if args ≠ [] then ClipsClient.rpc c cmd args [] early late
    else RpcOutcome.returned false [] c
  else if cmd = bytesOf "load" then
    if args ≠ [] then ClipsClient.rpc c cmd args [] early late
    else RpcOutcome.returned false [] c
  else if cmd = bytesOf "log" then
    if args ≠ [] then ClipsClient.rpc c cmd args [] early late
    else RpcOutcome.returned false [] c
  else RpcOutcome.returned false [] c

/-- The buffers given to `socketPtr->send` when a call has ended with the
outcome `o`; `none` after a store outside the vector of `getPayload`. -/
def RpcOutcome.sent : RpcOutcome → Option (List Str)
  | RpcOutcome.returned _ _ c => some c.sent
  | RpcOutcome.blocked c => some c.sent
  | RpcOutcome.undefined => none

/-! ## The claim on the commands a client sends, in its own words -/

/-- Following the claim: `args` is an optional minus sign followed by 1 to 9
decimal digits. -/
def Claim.isInteger (args : Str) : Prop :=
  ∃ sign digits : Str, args = sign ++ digits ∧ (sign = [] ∨ sign = [45])
    ∧ 1 ≤ digits.length ∧ digits.length ≤ 9 ∧ ∀ b ∈ digits, 48 ≤ b.val ∧ b.val ≤ 57

/-- Following the claim: the pairs of a command and its arguments for which
`execute` transmits a request. -/
def Claim.accepted (cmd args : Str) : Prop :=
  cmd = bytesOf "reset" ∨ cmd = bytesOf "clear"
    ∨ (cmd = bytesOf "run" ∧ (args = [] ∨ Claim.isInteger args))
    ∨ (cmd = bytesOf "print" ∧ args ∈ [bytesOf "facts", bytesOf "rules", bytesOf "agenda"])
    ∨ (cmd = bytesOf "watch"
        ∧ args ∈ [bytesOf "functions", bytesOf "globals", bytesOf "facts", bytesOf "rules"])
    ∨ (cmd ∈ [bytesOf "assert", bytesOf "raw", bytesOf "path", bytesOf "load", bytesOf "log"]
        ∧ args ≠ [])

/-- Following the claim: the arguments of the request transmitted for an
accepted pair: none for `reset` and `clear`, `-1` for `run` with empty
arguments, otherwise `args`. -/
def Claim.sentArgs (cmd args : Str) : Str :=
  if cmd = bytesOf "reset" ∨ cmd = bytesOf "clear" then []
  else if cmd = bytesOf "run" ∧ args = [] then bytesOf "-1"
  else args

/-! ## The claim on well-formed expressions, in its own words -/

/-- Following the claim: the characters a scan from left to right looks at
when it skips each backslash together with the character after it. -/
def Claim.unescaped : Str → Str
  | [] => []
  | b :: rest =>
    if b = 92 then
      match rest with
      | [] => []
      | _ :: rest2 => Claim.unescaped rest2
    else b :: Claim.unescaped rest

/-- Following the claim: among the characters `u`, no `)` occurs without an
earlier unmatched `(`, that is, up to every position there are at least as
many `(` as `)`; and every `(` has been closed at the end, that is, there are
as many `)` as `(` in all. -/
def Claim.parensMatched (u : Str) : Prop :=
  (∀ n, n ≤ u.length → (u.take n).count 41 ≤ (u.take n).count 40) ∧ u.count 41 = u.count 40

/-- The same for characters `u` that come after `d` parentheses opened and
not yet closed: the form in which the property follows the scan. -/
def Claim.matchedFrom (d : Nat) (u : Str) : Prop :=
  (∀ n, n ≤ u.length → (u.take n).count 41 ≤ d + (u.take n).count 40)
    ∧ u.count 41 = d + u.count 40

/-- Following the claim: `s` is non-empty, its first character is `(`, and
the parentheses among its unescaped characters are matched. -/
def Claim.wellFormed (s : Str) : Prop :=
  s ≠ [] ∧ s.head? = some 40 ∧ Claim.parensMatched (Claim.unescaped s)

/-! ## Theorems -/

theorem le16_length (n : Nat) : (le16 n).length = 2 := rfl

theorem le32_length (n : Nat) : (le32 n).length = 4 := rfl

/-- Overwriting the middle block `b` of a buffer by a block of the same size. -/
theorem store_middle (a b c src : Str) (h : src.length = b.length) :
    store (a ++ (b ++ c)) a.length src = some (a ++ (src ++ c)) := by
  unfold store
  have h1 : a.length + src.length ≤ (a ++ (b ++ c)).length := by
    simp only [List.length_append]; omega
  rw [if_pos h1]
  have h2 : (a ++ (b ++ c)).drop (a.length + src.length) = c := by
    rw [h, List.drop_append, List.drop_left]
  rw [h2]; simp

/-- Four consecutive stores that fill a zeroed buffer block by block. -/
theorem store_chain (hdr mid idb content : Str) (n : Nat)
    (h2 : hdr.length = 2) (h1 : mid.length = 1) (h4 : idb.length = 4)
    (hn : content.length = n) :
    ((store (List.replicate (7 + n) (0 : Byte)) 0 hdr).bind fun p1 =>
      (store p1 2 mid).bind fun p2 =>
      (store p2 3 idb).bind fun p3 =>
      store p3 7 content) = some (hdr ++ (mid ++ (idb ++ content))) := by
  have e0 : List.replicate (7 + n) (0 : Byte)
      = [] ++ (List.replicate 2 0 ++ (List.replicate 1 0 ++ (List.replicate 4 0
          ++ List.replicate n 0))) := by
    simp only [List.nil_append, ← List.replicate_add]
    congr 1; omega
  have s1 := store_middle [] (List.replicate 2 (0 : Byte))
    (List.replicate 1 0 ++ (List.replicate 4 0 ++ List.replicate n 0)) hdr (by simp [h2])
  have s2 := store_middle hdr (List.replicate 1 (0 : Byte))
    (List.replicate 4 0 ++ List.replicate n 0) mid (by simp [h1])
  have s3 := store_middle (hdr ++ mid) (List.replicate 4 (0 : Byte))
    (List.replicate n 0) idb (by simp [h4])
  have s4 := store_middle (hdr ++ mid ++ idb) (List.replicate n (0 : Byte)) [] content
    (by simp [hn])
  simp only [List.length_nil, List.length_append, h2, h1, h4, List.nil_append,
    List.append_nil, List.append_assoc] at s1 s2 s3 s4
  rw [e0]
  simp only [List.nil_append]
  rw [s1]; simp only [Option.some_bind]
  rw [s2]; simp only [Option.some_bind]
  rw [s3]; simp only [Option.some_bind]
  exact s4

theorem byteOf_val (n : Nat) : (byteOf n).val = n % 256 := rfl

theorem fromLE_le16 (n : Nat) (h : n < 65536) : fromLE (le16 n) = n := by
  simp only [le16, fromLE, byteOf_val]; omega

theorem fromLE_le32 (n : Nat) (h : n < 2 ^ 32) : fromLE (le32 n) = n := by
  simp only [le32, fromLE, byteOf_val]; omega

theorem fromLE_lt : ∀ (bs : Str), fromLE bs < 256 ^ bs.length
  | [] => by simp [fromLE]
  | b :: bs => by
    have ih := fromLE_lt bs
    have hb := b.isLt
    simp only [fromLE, List.length_cons, pow_succ]
    omega

/-- The frame built by `Request::getPayload` when the size fits 16 bits. -/
theorem getPayload_eq (r : Request) (h : r.content.length ≤ 65528) :
    r.getPayload = some (le16 (7 + r.content.length) ++ ([0] ++ (le32 r.cmdId ++ r.content))) := by
  unfold Request.getPayload
  have hm : (7 + r.content.length) % 65536 = 7 + r.content.length := Nat.mod_eq_of_lt (by omega)
  simp only [hm]
  exact store_chain _ _ _ _ _ (le16_length _) rfl (le32_length _) rfl

/-- The frame of `publish` when the size fits 16 bits. -/
theorem publish_eq (cmdId : Nat) (s : Str) (h : s.length ≤ 65524) :
    publish cmdId s
      = some (le16 (11 + s.length) ++ ([0] ++ (le32 cmdId ++ ([114, 97, 119, 32] ++ s)))) := by
  unfold publish
  have hm : (11 + s.length) % 65536 = 7 + (4 + s.length) := by
    rw [Nat.mod_eq_of_lt (by omega)]; omega
  have e11 : 11 + s.length = 7 + (4 + s.length) := by omega
  simp only [hm]
  have e0 : List.replicate (7 + (4 + s.length)) (0 : Byte)
      = [] ++ (List.replicate 2 0 ++ (List.replicate 1 0 ++ (List.replicate 4 0
          ++ (List.replicate 4 0 ++ List.replicate s.length 0)))) := by
    simp only [List.nil_append, ← List.replicate_add]
    congr 1; omega
  have s1 := store_middle [] (List.replicate 2 (0 : Byte))
    (List.replicate 1 0 ++ (List.replicate 4 0 ++ (List.replicate 4 0
      ++ List.replicate s.length 0))) (le16 (7 + (4 + s.length))) (by simp [le16_length])
  have s2 := store_middle (le16 (7 + (4 + s.length))) (List.replicate 1 (0 : Byte))
    (List.replicate 4 0 ++ (List.replicate 4 0 ++ List.replicate s.length 0)) [0] (by simp)
  have s3 := store_middle (le16 (7 + (4 + s.length)) ++ [0]) (List.replicate 4 (0 : Byte))
    (List.replicate 4 0 ++ List.replicate s.length 0) (le32 cmdId) (by simp [le32_length])
  have s4 := store_middle (le16 (7 + (4 + s.length)) ++ [0] ++ le32 cmdId)
    (List.replicate 4 (0 : Byte)) (List.replicate s.length 0) [114, 97, 119, 32] (by simp)
  have s5 := store_middle (le16 (7 + (4 + s.length)) ++ [0] ++ le32 cmdId ++ [114, 97, 119, 32])
    (List.replicate s.length (0 : Byte)) [] s (by simp)
  simp only [List.length_nil, List.length_append, le16_length, le32_length, List.length_cons,
    List.nil_append, List.append_nil, List.append_assoc, List.length_singleton] at s1 s2 s3 s4 s5
  rw [e0]
  simp only [List.nil_append]
  rw [s1]; simp only [Option.some_bind]
  rw [s2]; simp only [Option.some_bind]
  rw [s3]; simp only [Option.some_bind]
  rw [s4]; simp only [Option.some_bind]
  rw [e11]
  exact s5

/-- C4. Request frame layout: when the content (`cmd` alone for empty `args`,
otherwise `cmd`, one space, `args`) has at most 65528 bytes,
`Request::getPayload` returns the 2-byte little-endian value
`7 + length(content)`, the byte 0, the 4-byte little-endian command id and
the content; the length field equals the size of the whole frame; and for the
command `raw` with non-empty `args` this is the frame that `publish(args)` of
the simple test builds with the same id. -/
theorem request_frame_layout (cmdId : Nat) (cmd args : Str)
    (h : (if args = [] then cmd else cmd ++ [SP] ++ args).length ≤ 65528) :
    let content := if args = [] then cmd else cmd ++ [SP] ++ args
    let frame := le16 (7 + content.length) ++ [0] ++ le32 cmdId ++ content
    Request.getPayload { cmdId := cmdId, cmd := cmd, args := args } = some frame
      ∧ fromLE (frame.take 2) = frame.length
      ∧ (cmd = [114, 97, 119] → args ≠ [] → publish cmdId args = some frame) := by
  intro content frame
  have hc : Request.content { cmdId := cmdId, cmd := cmd, args := args } = content := by
    simp only [Request.content, content, List.isEmpty_iff]
    split <;> simp
  have hlen : content.length ≤ 65528 := h
  refine ⟨?_, ?_, ?_⟩
  · have := getPayload_eq { cmdId := cmdId, cmd := cmd, args := args } (by rw [hc]; exact hlen)
    rw [this, hc]
    simp [frame]
  · have h2 : frame.take 2 = le16 (7 + content.length) := by
      simp [frame, le16]
    rw [h2, fromLE_le16 _ (by omega)]
    simp [frame, le16_length, le32_length]
    omega
  · intro hraw hargs
    have hcontent : content = [114, 97, 119, 32] ++ args := by
      simp [content, hargs, hraw, SP]
    have hl : args.length ≤ 65524 := by
      have := hlen
      rw [hcontent] at this
      simp at this
      omega
    rw [publish_eq cmdId args hl]
    simp only [frame, hcontent]
    simp
    congr 1
    omega

/-- C4, instance: the request `raw (reset)` with id 1. -/
theorem request_frame_layout_witness :
    Request.getPayload { cmdId := 1, cmd := [114, 97, 119], args := [40, 114, 101, 115, 101, 116, 41] }
        = some [18, 0, 0, 1, 0, 0, 0, 114, 97, 119, 32, 40, 114, 101, 115, 101, 116, 41]
      ∧ publish 1 [40, 114, 101, 115, 101, 116, 41]
        = some [18, 0, 0, 1, 0, 0, 0, 114, 97, 119, 32, 40, 114, 101, 115, 101, 116, 41] := by
  have h := request_frame_layout 1 [114, 97, 119] [40, 114, 101, 115, 101, 116, 41] (by decide)
  exact ⟨h.1, h.2.2 rfl (by decide)⟩

/-! ### Searching a string -/

theorem findFrom_not_mem (c : Byte) : ∀ (s : Str), c ∉ s → findFrom c s = none
  | [], _ => rfl
  | x :: xs, h => by
    have hx : x ≠ c := fun e => h (by simp [e])
    have hxs : c ∉ xs := fun e => h (by simp [e])
    simp [findFrom, hx, findFrom_not_mem c xs hxs]

theorem findFrom_append (c : Byte) : ∀ (a b : Str), c ∉ a →
    findFrom c (a ++ c :: b) = some a.length
  | [], b, _ => by simp [findFrom]
  | x :: xs, b, h => by
    have hx : x ≠ c := fun e => h (by simp [e])
    have hxs : c ∉ xs := fun e => h (by simp [e])
    simp [findFrom, hx, findFrom_append c xs b hxs]

theorem find_zero (s : Str) (c : Byte) : find s c 0 = findFrom c s := by
  simp [find]

/-! ### One frame at the head of a good stream -/

theorem overlay_le16 (j n : Nat) : overlay (le16 j) (le16 n) = le16 n := by
  simp [overlay, le16]

theorem overlay_zeros (c : Str) : overlay (List.replicate (c.length + 1) 0) c = c ++ [0] := by
  simp [overlay, List.drop_replicate]

theorem read_good (pb a rest : Str) :
    IStream.read { putback := pb, avail := a ++ rest, fail := false } a.length
      = (a, { putback := a.reverse ++ pb, avail := rest, fail := false }) := by
  simp [IStream.read]

/-- On a good stream that starts with a whole frame the header is peeked
without extracting anything. -/
theorem peek_frame (junk : Nat) (pb c rest : Str) (h : c.length ≤ 65533) :
    Session.peekMessageHeader junk { putback := pb, avail := frameOf c ++ rest, fail := false }
      = (c.length + 2, { putback := pb, avail := frameOf c ++ rest, fail := false }) := by
  have hr := read_good pb (le16 (c.length + 2)) (c ++ rest)
  rw [le16_length] at hr
  unfold Session.peekMessageHeader
  simp only [frameOf, List.append_assoc]
  rw [hr]
  simp only [overlay_le16, fromLE_le16 _ (show c.length + 2 < 65536 by omega)]
  simp [IStream.unget, le16]

/-- On a good stream that starts with a whole frame `fetchStringFromBuffer`
extracts the frame and returns its content followed by one NUL. -/
theorem fetch_frame (junk : Nat) (pb c rest : Str) (h : c.length ≤ 65533) :
    Session.fetchStringFromBuffer junk
        { putback := pb, avail := frameOf c ++ rest, fail := false }
      = (c ++ [0], { putback := (frameOf c).reverse ++ pb, avail := rest, fail := false }) := by
  have hr := read_good pb (le16 (c.length + 2)) (c ++ rest)
  rw [le16_length] at hr
  have hb : sub16 (c.length + 2) 2 = c.length := by unfold sub16; omega
  unfold Session.fetchStringFromBuffer
  simp only [frameOf, List.append_assoc]
  rw [hr]
  simp only [overlay_le16, fromLE_le16 _ (show c.length + 2 < 65536 by omega), hb]
  rw [read_good]
  simp [overlay_zeros]

/-! ### Requests decoded by the server -/

/-- The frame of `Request::getPayload` is the wire frame of the discriminator
byte, the command id and the content. -/
theorem getPayload_frameOf (r : Request) (h : 7 + r.content.length ≤ 65535) :
    r.getPayload = some (frameOf ([0] ++ (le32 r.cmdId ++ r.content))) := by
  rw [getPayload_eq r (by omega)]
  simp only [frameOf, List.length_append, List.length_singleton, le32_length]
  have e : 7 + r.content.length = 1 + (4 + r.content.length) + 2 := by omega
  rw [e]

/-- What `splitCommand` returns on the content of a request followed by the
NUL that `fetchStringFromBuffer` appends. -/
theorem splitCommand_content (cmdId : Nat) (cmd args : Str)
    (hsp : SP ∉ cmd) (hnul : NUL ∉ cmd) (hargs : NUL ∉ args) :
    splitCommand (Request.content { cmdId := cmdId, cmd := cmd, args := args } ++ [0])
      = .ok (cmd, args) := by
  have hne : (0 : Byte) ≠ SP := by decide
  by_cases ha : args = []
  · subst ha
    have hs : findFrom SP (cmd ++ [0]) = none := by
      apply findFrom_not_mem
      simp only [List.mem_append, List.mem_singleton, not_or]
      exact ⟨hsp, fun e => hne e.symm⟩
    have hz : findFrom NUL (cmd ++ [NUL]) = some cmd.length := findFrom_append NUL cmd [] hnul
    simp only [Request.content, List.isEmpty_nil, if_true, splitCommand, find_zero, hs]
    change Except.map _ (substr (cmd ++ [NUL]) 0 (findFrom NUL (cmd ++ [NUL]))) = _
    rw [hz]
    simp [substr, Except.map]
  · have hc : Request.content { cmdId := cmdId, cmd := cmd, args := args } ++ [0]
        = cmd ++ SP :: (args ++ [NUL]) := by
      simp [Request.content, List.isEmpty_iff, ha, NUL]
    have hs : findFrom SP (cmd ++ SP :: (args ++ [NUL])) = some cmd.length :=
      findFrom_append SP cmd _ hsp
    have hz : findFrom NUL (args ++ [NUL]) = some args.length := findFrom_append NUL args [] hargs
    rw [hc]
    simp only [splitCommand, find_zero, hs]
    have h1 : substr (cmd ++ SP :: (args ++ [NUL])) 0 (some cmd.length) = .ok cmd := by
      simp [substr]
    have h2 : substr (cmd ++ SP :: (args ++ [NUL])) (cmd.length + 1) none
        = .ok (args ++ [NUL]) := by
      have hd : List.drop (cmd.length + 1) (cmd ++ SP :: (args ++ [NUL])) = args ++ [NUL] := by
        have : cmd ++ SP :: (args ++ [NUL]) = (cmd ++ [SP]) ++ (args ++ [NUL]) := by simp
        rw [this]
        have hl : cmd.length + 1 = (cmd ++ [SP]).length := by simp
        rw [hl, List.drop_left]
      simp [substr, hd]
    rw [h1, h2]
    simp only [Except.bind, hz]
    simp [erase, Except.map]

/-- The frame of a request, read by `fetchStringFromBuffer`, goes to
`handleCommand` and is split into its command and argument. -/
theorem request_decoded_by_server (cmdId : Nat) (cmd args : Str) (junk : Nat) (ep pb rest : Str)
    (hsp : SP ∉ cmd) (hnul : NUL ∉ cmd) (hargs : NUL ∉ args)
    (hlen : 7 + (Request.content { cmdId := cmdId, cmd := cmd, args := args }).length ≤ 65535) :
    ∃ p m is2 c,
      Request.getPayload { cmdId := cmdId, cmd := cmd, args := args } = some p
        ∧ Session.fetchStringFromBuffer junk { putback := pb, avail := p ++ rest, fail := false }
            = (m, is2)
        ∧ is2.avail = rest
        ∧ Server.parseMessage { source := ep, message := m } = .ok (ParseAction.handleCommand c)
        ∧ splitCommand c = .ok (cmd, args) := by
  let r : Request := { cmdId := cmdId, cmd := cmd, args := args }
  have hlen2 : 7 + r.content.length ≤ 65535 := hlen
  have hf := fetch_frame junk pb ([0] ++ (le32 cmdId ++ r.content)) rest
    (by simp [le32_length]; omega)
  refine ⟨_, _, _, r.content ++ [0], getPayload_frameOf r hlen, hf, rfl, ?_,
    splitCommand_content cmdId cmd args hsp hnul hargs⟩
  have h0 : charAt ([0] ++ (le32 cmdId ++ r.content) ++ [0]) 0 = 0 := rfl
  have hl : ([0] ++ (le32 cmdId ++ r.content) ++ [0]).length > 5 := by
    simp [le32_length]
    omega
  have hd : List.drop 5 ([0] ++ (le32 cmdId ++ r.content) ++ [0]) = r.content ++ [0] := by
    simp [le32]
  unfold Server.parseMessage
  simp only [h0, hl, and_self, if_true]
  have hs : substr ([0] ++ (le32 cmdId ++ r.content) ++ [0]) 5 none = .ok (r.content ++ [0]) := by
    unfold substr
    rw [if_neg (by omega), hd]
  rw [hs]
  rfl

/-- C1. Request round trip through the decoder of the server: when `cmd` has
no space and no NUL, `args` has no NUL and the frame has at most 65535 bytes,
the bytes of `Request(cmd, args).getPayload()` read by
`Session::fetchStringFromBuffer` give a message that `Server::parseMessage`
hands to `handleCommand` without its first five bytes, and `splitCommand`
decodes that text to exactly `cmd` and `args`. -/
theorem request_roundtrip_server (cmdId : Nat) (cmd args : Str) (junk : Nat) (ep pb rest : Str)
    (hsp : SP ∉ cmd) (hnul : NUL ∉ cmd) (hargs : NUL ∉ args)
    (hlen : 7 + (Request.content { cmdId := cmdId, cmd := cmd, args := args }).length ≤ 65535) :
    ∃ p m is2 c,
      Request.getPayload { cmdId := cmdId, cmd := cmd, args := args } = some p
        ∧ Session.fetchStringFromBuffer junk { putback := pb, avail := p ++ rest, fail := false }
            = (m, is2)
        ∧ is2.avail = rest
        ∧ Server.parseMessage { source := ep, message := m } = .ok (ParseAction.handleCommand c)
        ∧ splitCommand c = .ok (cmd, args) :=
  request_decoded_by_server cmdId cmd args junk ep pb rest hsp hnul hargs hlen

/-- C1, instance: the request `raw (reset)` with id 1. -/
theorem request_roundtrip_server_witness :
    ∃ p m is2 c,
      Request.getPayload
          { cmdId := 1, cmd := [114, 97, 119], args := [40, 114, 101, 115, 101, 116, 41] } = some p
        ∧ Session.fetchStringFromBuffer 0 { putback := [], avail := p ++ [], fail := false }
            = (m, is2)
        ∧ is2.avail = []
        ∧ Server.parseMessage { source := [101, 112], message := m }
            = .ok (ParseAction.handleCommand c)
        ∧ splitCommand c = .ok ([114, 97, 119], [40, 114, 101, 115, 101, 116, 41]) :=
  request_roundtrip_server 1 [114, 97, 119] [40, 114, 101, 115, 101, 116, 41] 0 [101, 112] [] []
    (by decide) (by decide) (by decide) (by decide)

/-! ### Requests decoded by `Request::fromMessage` -/

theorem find_after_prefix (a b : Str) (c : Byte) :
    find (a ++ b) c a.length = (findFrom c b).map (· + a.length) := by
  simp [find]

/-- C2, counterexample. For the empty command with no argument the frame of
`getPayload` without its length prefix has five bytes, and `fromMessage`
returns `NULL` for it instead of a request equal to the original. -/
theorem request_fromMessage_empty_command :
    Request.getPayload { cmdId := 1, cmd := [], args := [] } = some [7, 0, 0, 1, 0, 0, 0]
      ∧ Request.fromMessage (List.drop 2 [7, 0, 0, 1, 0, 0, 0]) = none := by
  decide

/-- The command that `Request::fromMessage` returns for the request
`raw (reset)`: `substr(5, argsPos)` takes `argsPos` bytes, not the bytes up to
position `argsPos`, so the command runs on into the argument. -/
theorem request_fromMessage_raw_reset :
    Request.getPayload { cmdId := 1, cmd := [114, 97, 119], args := [40, 114, 101, 115, 101, 116, 41] }
        = some [18, 0, 0, 1, 0, 0, 0, 114, 97, 119, 32, 40, 114, 101, 115, 101, 116, 41]
      ∧ Request.fromMessage [0, 1, 0, 0, 0, 114, 97, 119, 32, 40, 114, 101, 115, 101, 116, 41]
        = some { cmdId := 1, cmd := [114, 97, 119, 32, 40, 114, 101, 115],
                 args := [40, 114, 101, 115, 101, 116, 41] } := by
  decide

/-- C2, amended. For every non-empty command without a space, every
argument and every 32-bit id, with the frame not exceeding 65535 bytes,
`Request::fromMessage` applied to the frame of `Request::getPayload` without
its 2-byte length prefix returns a request whose command id and argument
equal those of the original request, and whose command equals the original
command when the argument is empty. -/
theorem request_roundtrip_fromMessage (cmdId : Nat) (cmd args : Str)
    (hid : cmdId < 2 ^ 32) (hne : cmd ≠ []) (hsp : SP ∉ cmd)
    (hlen : 7 + (Request.content { cmdId := cmdId, cmd := cmd, args := args }).length ≤ 65535) :
    ∃ p r,
      Request.getPayload { cmdId := cmdId, cmd := cmd, args := args } = some p
        ∧ Request.fromMessage (p.drop 2) = some r
        ∧ r.cmdId = cmdId ∧ r.args = args ∧ (args = [] → r.cmd = cmd) := by
  have hp := getPayload_eq { cmdId := cmdId, cmd := cmd, args := args } (by omega)
  have hcpos : 0 < cmd.length := List.length_pos.mpr hne
  have hpre : ([0] ++ le32 cmdId : Str).length = 5 := rfl
  by_cases ha : args = []
  · subst ha
    have hc : Request.content { cmdId := cmdId, cmd := cmd, args := [] } = cmd := by
      simp [Request.content]
    rw [hc] at hp
    refine ⟨_, { cmdId := cmdId, cmd := cmd, args := [] }, hp, ?_, rfl, rfl, fun _ => rfl⟩
    have hmsg : List.drop 2 (le16 (7 + cmd.length) ++ ([0] ++ (le32 cmdId ++ cmd)))
        = ([0] ++ le32 cmdId) ++ cmd := by simp [le16]
    rw [hmsg]
    have hfind : find (([0] ++ le32 cmdId) ++ cmd) SP 5 = none := by
      have := find_after_prefix ([0] ++ le32 cmdId) cmd SP
      rw [hpre] at this
      rw [this, findFrom_not_mem SP cmd hsp]; rfl
    have hcopy : copyOut (([0] ++ le32 cmdId) ++ cmd) 4 1 = le32 cmdId := by
      simp [copyOut, le32]
    have hsub : substr (([0] ++ le32 cmdId) ++ cmd) 5 none = .ok cmd := by
      simp [substr, le32]
    have h0 : charAt (([0] ++ le32 cmdId) ++ cmd) 0 = 0 := rfl
    have hl : ¬ (([0] ++ le32 cmdId) ++ cmd).length < 6 := by
      simp [le32_length]; omega
    unfold Request.fromMessage
    simp only [h0, hl, ne_eq, not_true_eq_false, or_self, if_false, hfind, hsub, hcopy,
      fromLE_le32 cmdId hid]
    simp
  · have hc : Request.content { cmdId := cmdId, cmd := cmd, args := args }
        = cmd ++ SP :: args := by
      simp [Request.content, List.isEmpty_iff, ha]
    rw [hc] at hp
    have hmsg : List.drop 2 (le16 (7 + (cmd ++ SP :: args).length)
          ++ ([0] ++ (le32 cmdId ++ (cmd ++ SP :: args))))
        = ([0] ++ le32 cmdId) ++ (cmd ++ SP :: args) := by simp [le16]
    have hfind : find (([0] ++ le32 cmdId) ++ (cmd ++ SP :: args)) SP 5
        = some (cmd.length + 5) := by
      have := find_after_prefix ([0] ++ le32 cmdId) (cmd ++ SP :: args) SP
      rw [hpre] at this
      rw [this, findFrom_append SP cmd args hsp]; rfl
    have hcopy : copyOut (([0] ++ le32 cmdId) ++ (cmd ++ SP :: args)) 4 1 = le32 cmdId := by
      simp [copyOut, le32]
    have hsub1 : substr (([0] ++ le32 cmdId) ++ (cmd ++ SP :: args)) 5 (some (cmd.length + 5))
        = .ok (List.take (cmd.length + 5) (cmd ++ SP :: args)) := by
      simp [substr, le32]
    have hsub2 : substr (([0] ++ le32 cmdId) ++ (cmd ++ SP :: args)) (cmd.length + 5 + 1) none
        = .ok args := by
      have hd : List.drop (cmd.length + 5 + 1) (([0] ++ le32 cmdId) ++ (cmd ++ SP :: args))
          = args := by
        have e : ([0] ++ le32 cmdId) ++ (cmd ++ SP :: args)
            = (([0] ++ le32 cmdId) ++ cmd ++ [SP]) ++ args := by simp
        have hl : cmd.length + 5 + 1 = (([0] ++ le32 cmdId) ++ cmd ++ [SP]).length := by
          simp [le32_length]; omega
        rw [e, hl, List.drop_left]
      unfold substr
      rw [if_neg (by simp [le32_length]; omega), hd]
    have h0 : charAt (([0] ++ le32 cmdId) ++ (cmd ++ SP :: args)) 0 = 0 := rfl
    have hl : ¬ (([0] ++ le32 cmdId) ++ (cmd ++ SP :: args)).length < 6 := by
      simp [le32_length]; omega
    have h5 : ¬ (some (cmd.length + 5) = some 5) := by
      intro e
      have := Option.some.inj e
      omega
    refine ⟨_, { cmdId := cmdId, cmd := List.take (cmd.length + 5) (cmd ++ SP :: args),
                 args := args }, hp, ?_, rfl, rfl, fun e => absurd e ha⟩
    rw [hmsg]
    unfold Request.fromMessage
    simp only [h0, hl, ne_eq, not_true_eq_false, or_self, if_false, hfind, h5, hsub1, hsub2,
      hcopy, fromLE_le32 cmdId hid]

/-- C2, instance of the amended claim: the request `reset` without argument
and with id 1. -/
theorem request_roundtrip_fromMessage_witness :
    ∃ p r,
      Request.getPayload { cmdId := 1, cmd := [114, 101, 115, 101, 116], args := [] } = some p
        ∧ Request.fromMessage (p.drop 2) = some r
        ∧ r.cmdId = 1 ∧ r.args = [] ∧ (([] : Str) = [] → r.cmd = [114, 101, 115, 101, 116]) :=
  request_roundtrip_fromMessage 1 [114, 101, 115, 101, 116] [] (by decide) (by decide)
    (by decide) (by decide)

/-! ### Replies -/

/-- C3. Reply round trip with correlation: for a structured request message
(first byte zero, then the little-endian id `i`, then anything), every
success flag `b` and every result text `r`, the content that
`Server::acknowledgeMessage` builds decodes under `Reply::fromMessage` to the
reply with command id `i`, success flag `b` and result `r`. -/
theorem reply_roundtrip (i : Nat) (rest : Str) (b : Bool) (r : Str) (hi : i < 2 ^ 32) :
    ∃ ack,
      Server.ackContent ([0] ++ le32 i ++ rest) b r = .ok ack
        ∧ Reply.fromMessage ack = some { cmdId := i, success := b, result := r } := by
  have hsub : substr ([0] ++ le32 i ++ rest) 0 (some 5) = .ok ([0] ++ le32 i) := by
    simp [substr, le32]
  refine ⟨[0] ++ le32 i ++ [if b then (1 : Byte) else 0] ++ r, ?_, ?_⟩
  · simp only [Server.ackContent, hsub]
    rfl
  · have hl : ¬ ([0] ++ le32 i ++ [if b then (1 : Byte) else 0] ++ r).length < 6 := by
      simp [le32_length]; omega
    have h0 : charAt ([0] ++ le32 i ++ [if b then (1 : Byte) else 0] ++ r) 0 = 0 := rfl
    have h5 : charAt ([0] ++ le32 i ++ [if b then (1 : Byte) else 0] ++ r) 5
        = (if b then (1 : Byte) else 0) := rfl
    have hcopy : copyOut ([0] ++ le32 i ++ [if b then (1 : Byte) else 0] ++ r) 4 1 = le32 i := by
      simp [copyOut, le32]
    have hflag : decide ((if b then (1 : Byte) else 0) ≠ 0) = b := by
      cases b <;> decide
    have hres : (if ([0] ++ le32 i ++ [if b then (1 : Byte) else 0] ++ r).length > 6
          then substr ([0] ++ le32 i ++ [if b then (1 : Byte) else 0] ++ r) 6 none
          else .ok []) = .ok r := by
      cases r with
      | nil => simp [le32_length]
      | cons x xs => simp [le32_length, substr, le32]
    unfold Reply.fromMessage
    simp only [hl, if_false, h0, ne_eq, not_true_eq_false, h5, hcopy, fromLE_le32 i hi, hres]
    simp only [← ne_eq, hflag]

/-- C3, instance: the acknowledgement of request 7 with success and the result
`ok`. -/
theorem reply_roundtrip_witness :
    ∃ ack,
      Server.ackContent ([0] ++ le32 7 ++ [114, 117, 110]) true [111, 107] = .ok ack
        ∧ Reply.fromMessage ack = some { cmdId := 7, success := true, result := [111, 107] } :=
  reply_roundtrip 7 [114, 117, 110] true [111, 107] (by decide)

/-! ### Outbound framing -/

/-- C5. Outbound framing on the server: for every string of at most 65533
bytes, `Session::send` on an open socket makes exactly one write, of the
2-byte little-endian value `length(s) + 2` followed by the bytes of `s`. -/
theorem send_writes_frame (s : Session) (str : Str) (wire : List Str)
    (hopen : s.isOpen = true) (hlen : str.length ≤ 65533) :
    s.send str wire = some (wire ++ [le16 (str.length + 2) ++ str]) := by
  have hm : (2 + str.length) % 65536 = 2 + str.length := Nat.mod_eq_of_lt (by omega)
  have e0 : List.replicate (2 + str.length) (0 : Byte)
      = [] ++ (List.replicate 1 0 ++ (List.replicate 1 0 ++ List.replicate str.length 0)) := by
    simp only [List.nil_append, ← List.replicate_add]
    congr 1; omega
  have s1 := store_middle [] (List.replicate 1 (0 : Byte))
    (List.replicate 1 0 ++ List.replicate str.length 0) [byteOf (2 + str.length)] (by simp)
  have s2 := store_middle [byteOf (2 + str.length)] (List.replicate 1 (0 : Byte))
    (List.replicate str.length 0) [byteOf ((2 + str.length) / 256)] (by simp)
  have s3 := store_middle [byteOf (2 + str.length), byteOf ((2 + str.length) / 256)]
    (List.replicate str.length (0 : Byte)) [] str (by simp)
  simp only [List.length_nil, List.length_cons, List.nil_append, List.append_nil,
    List.singleton_append, List.cons_append] at s1 s2 s3
  unfold Session.send
  simp only [hopen, Bool.not_true, Bool.false_eq_true, if_false, hm]
  rw [e0]
  simp only [List.nil_append]
  rw [s1]; simp only [Option.some_bind]
  rw [s2]; simp only [Option.some_bind]
  rw [s3]; simp only [Option.some_bind]
  have ht : List.take (2 + str.length)
        (byteOf (2 + str.length) :: byteOf ((2 + str.length) / 256) :: str)
      = byteOf (2 + str.length) :: byteOf ((2 + str.length) / 256) :: str :=
    List.take_of_length_le (by simp; omega)
  have e2 : str.length + 2 = 2 + str.length := by omega
  rw [ht, le16, e2]
  rfl

/-- C5, instance: sending `abc` on an open session. -/
theorem send_writes_frame_witness :
    Session.send { endpoint := [101, 112], buffer := [], isOpen := true } [97, 98, 99] []
      = some ([] ++ [le16 (([97, 98, 99] : Str).length + 2) ++ [97, 98, 99]]) :=
  send_writes_frame { endpoint := [101, 112], buffer := [], isOpen := true } [97, 98, 99] []
    rfl (by decide)

/-! ### The receive loop of the server session -/

theorem frameOf_length (c : Str) : (frameOf c).length = c.length + 2 := by
  simp [frameOf, le16_length]; omega

/-- The loop on a good stream holding whole frames only: one message for each
frame, in order, and nothing left. -/
theorem readLoop_frames (ep : Str) : ∀ (cs : List Str) (c : Str) (fuel : Nat) (junk : Nat → Nat)
    (pb : Str) (q : List TcpMessage),
    (∀ x ∈ c :: cs, x.length ≤ 65533) → cs.length < fuel →
    ∃ pb2, Session.readLoop ep fuel junk
        { putback := pb, avail := framesOf (c :: cs), fail := false } q
      = some ({ putback := pb2, avail := [], fail := false },
          q ++ (c :: cs).map fun x => { source := ep, message := x ++ [0] })
  | [], c, fuel, junk, pb, q, hsz, hfuel => by
    obtain ⟨f, rfl⟩ : ∃ f, fuel = f + 1 := ⟨fuel - 1, by omega⟩
    have hc : c.length ≤ 65533 := hsz c (by simp)
    refine ⟨(frameOf c).reverse ++ pb, ?_⟩
    have e : framesOf [c] = frameOf c := by simp [framesOf]
    have hp := peek_frame (junk 0) pb c [] hc
    have hf := fetch_frame (junk 1) pb c [] hc
    rw [List.append_nil] at hp hf
    rw [e]
    unfold Session.readLoop
    simp only [hp, hf]
    simp [frameOf_length]
  | c2 :: cs, c, fuel, junk, pb, q, hsz, hfuel => by
    obtain ⟨f, rfl⟩ : ∃ f, fuel = f + 1 := ⟨fuel - 1, by omega⟩
    have hc : c.length ≤ 65533 := hsz c (by simp)
    have hsz2 : ∀ x ∈ c2 :: cs, x.length ≤ 65533 := fun x hx => hsz x (List.mem_cons_of_mem c hx)
    have hf2 : cs.length < f := by simp at hfuel; omega
    obtain ⟨pb2, ih⟩ := readLoop_frames ep cs c2 f (fun k => junk (k + 2))
      ((frameOf c).reverse ++ pb) (q ++ [{ source := ep, message := c ++ [0] }]) hsz2 hf2
    refine ⟨pb2, ?_⟩
    have e : framesOf (c :: c2 :: cs) = frameOf c ++ framesOf (c2 :: cs) := rfl
    have hpos : 0 < (framesOf (c2 :: cs)).length := by
      simp [framesOf, frameOf_length]
    rw [e]
    unfold Session.readLoop
    simp only [peek_frame (junk 0) pb c _ hc, fetch_frame (junk 1) pb c _ hc]
    simp only [List.length_append, frameOf_length, gt_iff_lt, hpos, if_true]
    rw [if_neg (by omega), ih]
    simp

theorem framesOf_length_ge : ∀ (cs : List Str), cs.length ≤ (framesOf cs).length
  | [] => by simp [framesOf]
  | c :: cs => by
    have := framesOf_length_ge cs
    simp [framesOf, frameOf_length]
    omega

/-- C7. Per-session ordering: for every non-empty sequence of complete frames
(each with a length field of at least 3 and at most 65535) lying back to back
in the receive buffer, one call of `Session::asyncReadHandler` enqueues one
message for each frame, in the order of the frames, each tagged with the
endpoint of the session and made of the content of the frame followed by one
NUL, and leaves the buffer empty. -/
theorem session_ordering (ep : Str) (isOpen : Bool) (contents : List Str) (junk : Nat → Nat)
    (hne : contents ≠ [])
    (hsz : ∀ c ∈ contents, 1 ≤ c.length ∧ c.length ≤ 65533) :
    Session.asyncReadHandler { endpoint := ep, buffer := framesOf contents, isOpen := isOpen }
        false junk
      = some { buffer := [],
               enqueued := contents.map fun c => { source := ep, message := c ++ [0] },
               removed := false, rearmed := true } := by
  cases contents with
  | nil => exact absurd rfl hne
  | cons c cs =>
    have hlen := framesOf_length_ge (c :: cs)
    obtain ⟨pb2, h⟩ := readLoop_frames ep cs c ((framesOf (c :: cs)).length + 1) junk [] []
      (fun x hx => (hsz x hx).2) (by simp at hlen ⊢; omega)
    unfold Session.asyncReadHandler
    simp only [Bool.false_eq_true, if_false]
    rw [h]
    simp

/-- C7, instance: the frames of `x` and of `yz`. -/
theorem session_ordering_witness :
    Session.asyncReadHandler
        { endpoint := [101, 112], buffer := framesOf [[120], [121, 122]], isOpen := true }
        false (fun _ => 0)
      = some { buffer := [],
               enqueued := [[120], [121, 122]].map
                 fun c => { source := [101, 112], message := c ++ [0] },
               removed := false, rearmed := true } :=
  session_ordering [101, 112] true [[120], [121, 122]] (fun _ => 0) (by decide) (by decide)

/-- On a good stream that holds a single byte the failed two-byte read extracts
that byte, and `unget` on the failed stream gives nothing back. -/
theorem peek_single_byte (junk : Nat) (pb : Str) (b : Byte) :
    Session.peekMessageHeader junk { putback := pb, avail := [b], fail := false }
      = (b.val + 256 * (junk / 256 % 256), { putback := b :: pb, avail := [], fail := true }) := by
  simp [Session.peekMessageHeader, IStream.read, IStream.unget, overlay, le16, fromLE, byteOf_val]

/-- One iteration of the loop on a good stream that starts with a whole frame. -/
theorem readLoop_step_frame (ep : Str) (fuel : Nat) (junk : Nat → Nat) (pb c rest : Str)
    (q : List TcpMessage) (hc : c.length ≤ 65533) :
    Session.readLoop ep (fuel + 1) junk
        { putback := pb, avail := frameOf c ++ rest, fail := false } q
      = if rest.length > 0 then
          Session.readLoop ep fuel (fun k => junk (k + 2))
            { putback := (frameOf c).reverse ++ pb, avail := rest, fail := false }
            (q ++ [{ source := ep, message := c ++ [0] }])
        else some ({ putback := (frameOf c).reverse ++ pb, avail := rest, fail := false },
            q ++ [{ source := ep, message := c ++ [0] }]) := by
  rw [Session.readLoop]
  simp only [peek_frame (junk 0) pb c rest hc, fetch_frame (junk 1) pb c rest hc]
  rw [if_neg (by simp [frameOf_length])]

/-- One iteration of the loop on a good stream that holds a single byte, not
zero: the byte is extracted and the loop ends. -/
theorem readLoop_step_single_byte (ep : Str) (fuel : Nat) (junk : Nat → Nat) (pb : Str) (b : Byte)
    (q : List TcpMessage) (hb : b ≠ 0) :
    Session.readLoop ep (fuel + 1) junk { putback := pb, avail := [b], fail := false } q
      = some ({ putback := b :: pb, avail := [], fail := true }, q) := by
  rw [Session.readLoop]
  simp only [peek_single_byte]
  have : 0 < b.val := Nat.pos_of_ne_zero (fun e => hb (Fin.ext e))
  rw [if_pos (by simp; omega)]

/-- One iteration of the loop on a good stream that holds a whole header and
fewer bytes than the header declares: nothing is extracted. -/
theorem readLoop_step_incomplete (ep : Str) (fuel : Nat) (junk : Nat → Nat) (pb rest : Str)
    (n : Nat) (q : List TcpMessage) (hn : n < 65536) (hlt : rest.length + 2 < n) :
    Session.readLoop ep (fuel + 1) junk
        { putback := pb, avail := le16 n ++ rest, fail := false } q
      = some ({ putback := pb, avail := le16 n ++ rest, fail := false }, q) := by
  have hr := read_good pb (le16 n) rest
  rw [le16_length] at hr
  have hp : Session.peekMessageHeader (junk 0)
      { putback := pb, avail := le16 n ++ rest, fail := false }
      = (n, { putback := pb, avail := le16 n ++ rest, fail := false }) := by
    unfold Session.peekMessageHeader
    rw [hr]
    simp only [overlay_le16, fromLE_le16 n hn]
    simp [IStream.unget, le16]
  rw [Session.readLoop]
  simp only [hp]
  rw [if_pos (by simp [le16_length]; omega)]

/-- The handler on the frame of `x` followed by one byte of the next header. -/
theorem handler_frame_then_byte (ep : Str) : ∀ j : Nat → Nat,
      Session.asyncReadHandler { endpoint := ep, buffer := [3, 0, 120, 3], isOpen := true }
          false j
        = some { buffer := [], enqueued := [{ source := ep, message := [120, 0] }],
                 removed := false, rearmed := true } := by
    have e1 : ([3, 0, 120, 3] : Str) = frameOf [120] ++ [3] := by decide
    intro j
    unfold Session.asyncReadHandler
    simp only [Bool.false_eq_true, if_false, List.length_cons, List.length_nil]
    rw [e1, readLoop_step_frame ep _ j [] [120] [3] [] (by decide)]
    simp only [List.length_singleton, gt_iff_lt, Nat.lt_one_iff, if_true]
    rw [readLoop_step_single_byte ep _ _ _ 3 _ (by decide)]
    rfl

/-- The handler on a buffer that starts in the middle of a header. -/
theorem handler_misread_header (ep : Str) : ∀ j : Nat → Nat,
      Session.asyncReadHandler { endpoint := ep, buffer := [0, 121, 3, 0, 122], isOpen := true }
          false j
        = some { buffer := [0, 121, 3, 0, 122], enqueued := [],
                 removed := false, rearmed := true } := by
    have e2 : ([0, 121, 3, 0, 122] : Str) = le16 30976 ++ [3, 0, 122] := by decide
    intro j
    unfold Session.asyncReadHandler
    simp only [Bool.false_eq_true, if_false, List.length_cons, List.length_nil]
    rw [e2, readLoop_step_incomplete ep _ j [] [3, 0, 122] 30976 [] (by decide) (by decide)]
    rfl

/-- The handler on the frames of `x`, `y` and `z`. -/
theorem handler_three_frames (ep : Str) : ∀ j : Nat → Nat,
      Session.asyncReadHandler
          { endpoint := ep, buffer := [3, 0, 120, 3, 0, 121, 3, 0, 122], isOpen := true } false j
        = some { buffer := [],
                 enqueued := [{ source := ep, message := [120, 0] },
                   { source := ep, message := [121, 0] }, { source := ep, message := [122, 0] }],
                 removed := false, rearmed := true } := by
    have e3 : ([3, 0, 120, 3, 0, 121, 3, 0, 122] : Str) = framesOf [[120], [121], [122]] := by
      decide
    intro j
    obtain ⟨pb2, h⟩ := readLoop_frames ep [[121], [122]] [120] (9 + 1) j [] []
      (by decide) (by decide)
    unfold Session.asyncReadHandler
    simp only [Bool.false_eq_true, if_false, List.length_cons, List.length_nil]
    rw [e3, h]
    rfl

/-- C6, failing input. Three frames `x`, `y`, `z` arrive as the chunks
`03 00 78 03` and `00 79 03 00 7A`. The first call of `asyncReadHandler`
enqueues `x` and then extracts the lone header byte `03` of the next frame;
the second call reads `00 79` as a header of 30976 bytes and enqueues
nothing. Delivered whole, the same bytes give the three messages. -/
theorem partial_header_byte_is_lost (ep : Str) (junk : Nat → Nat → Nat) :
    Session.asyncReadHandler { endpoint := ep, buffer := [3, 0, 120, 3], isOpen := true }
        false (junk 0)
      = some { buffer := [], enqueued := [{ source := ep, message := [120, 0] }],
               removed := false, rearmed := true }
    ∧ Session.deliver ep [[3, 0, 120, 3], [0, 121, 3, 0, 122]] junk [] []
      = some ([0, 121, 3, 0, 122], [{ source := ep, message := [120, 0] }])
    ∧ Session.deliver ep [[3, 0, 120, 3, 0, 121, 3, 0, 122]] junk [] []
      = some ([], [{ source := ep, message := [120, 0] }, { source := ep, message := [121, 0] },
                   { source := ep, message := [122, 0] }]) := by
  refine ⟨handler_frame_then_byte ep (junk 0), ?_, ?_⟩
  · rw [Session.deliver, List.nil_append, handler_frame_then_byte ep (junk 0), Option.some_bind,
      Session.deliver, List.nil_append, handler_misread_header ep (junk 1)]
    rfl
  · rw [Session.deliver, List.nil_append, handler_three_frames ep (junk 0)]
    rfl

/-- C8, failing input. A frame whose length field is 2, followed by the frame
of `A`: `asyncReadHandler` enqueues the one-byte message NUL for the empty
frame, and `Server::parseMessage` passes that message to `assertFact`. -/
theorem empty_frame_is_enqueued (ep : Str) (junk : Nat → Nat) :
    Session.asyncReadHandler { endpoint := ep, buffer := [2, 0, 3, 0, 65], isOpen := true }
        false junk
      = some { buffer := [],
               enqueued := [{ source := ep, message := [0] }, { source := ep, message := [65, 0] }],
               removed := false, rearmed := true }
    ∧ Server.parseMessage { source := ep, message := [0] }
      = .ok (ParseAction.assertFact [0] (networkPrefix ++ ep)) := by
  have e : ([2, 0, 3, 0, 65] : Str) = framesOf [[], [65]] := by decide
  obtain ⟨pb2, h⟩ := readLoop_frames ep [[65]] [] (5 + 1) junk [] [] (by decide) (by decide)
  constructor
  · unfold Session.asyncReadHandler
    simp only [Bool.false_eq_true, if_false, List.length_cons, List.length_nil]
    rw [e, h]
    rfl
  · rfl

/-! ### The receive loop of the client -/

theorem toSizeT_small (n : Nat) (h : n < 2) :
    toSizeT ((n : Int) - 2) = 18446744073709551614 + n := by
  interval_cases n <;> rfl

theorem toSizeT_sub_two (n : Nat) (h2 : 2 ≤ n) (h : n < 65536) :
    toSizeT ((n : Int) - 2) = n - 2 := by
  unfold toSizeT
  omega

/-- The header read on a good stream that holds at least two bytes. -/
theorem readHeader_good (junk : Nat) (pb rest : Str) (n : Nat) (hn : n < 65536) :
    ClipsClient.readHeader junk { putback := pb, avail := le16 n ++ rest, fail := false }
      = (n, { putback := (le16 n).reverse ++ pb, avail := rest, fail := false }) := by
  have hr := read_good pb (le16 n) rest
  rw [le16_length] at hr
  unfold ClipsClient.readHeader
  rw [hr, overlay_le16, fromLE_le16 n hn]

/-- The message read on a good stream that holds all its bytes. -/
theorem readMessage_good (pb c rest : Str) :
    ClipsClient.readMessage c.length { putback := pb, avail := c ++ rest, fail := false }
      = (c, { putback := c.reverse ++ pb, avail := rest, fail := false }) := by
  unfold ClipsClient.readMessage
  rw [read_good]
  simp [overlay]

theorem unget_header (pb rest : Str) (n : Nat) :
    IStream.unget (IStream.unget
        { putback := (le16 n).reverse ++ pb, avail := rest, fail := false })
      = { putback := pb, avail := le16 n ++ rest, fail := false } := by
  simp [IStream.unget, le16]

/-- The loop body on a good stream whose header holds a size value below 2:
the difference `msgsize - 2` is negative and becomes a huge `size_t`, so the
two header bytes go back to the buffer and the loop is left by `break`. -/
theorem loopBody_size_below_two (junk : Nat) (pb rest : Str) (n : Nat)
    (calls : List Call) (hn : n < 2) (hrest : rest.length < 18446744073709551614) :
    ClipsClient.loopBody junk { putback := pb, avail := le16 n ++ rest, fail := false } calls
      = LoopStep.stop { putback := pb, avail := le16 n ++ rest, fail := false } calls := by
  have hlt : rest.length < toSizeT ((n : Int) - 2) := by
    rw [toSizeT_small n hn]; omega
  unfold ClipsClient.loopBody
  rw [readHeader_good junk pb rest n (by omega)]
  show ClipsClient.afterHeader n
    { putback := (le16 n).reverse ++ pb, avail := rest, fail := false } calls = _
  unfold ClipsClient.afterHeader
  rw [if_pos hlt, unget_header]

/-- The loop body on a good stream whose header holds the size value 2: the
header is extracted and no call is made. -/
theorem loopBody_size_two (junk : Nat) (pb rest : Str) (calls : List Call) :
    ClipsClient.loopBody junk { putback := pb, avail := le16 2 ++ rest, fail := false } calls
      = LoopStep.next { putback := (le16 2).reverse ++ pb, avail := rest, fail := false }
          calls := by
  have hz : ¬ rest.length < toSizeT ((2 : Nat) - 2 : Int) := Nat.not_lt_zero _
  have hm : sub16 2 2 = 0 := rfl
  unfold ClipsClient.loopBody
  rw [readHeader_good junk pb rest 2 (by omega)]
  show ClipsClient.afterHeader 2
    { putback := (le16 2).reverse ++ pb, avail := rest, fail := false } calls = _
  unfold ClipsClient.afterHeader
  rw [if_neg hz, if_pos hm]

/-- The loop body on a good stream that starts with a whole frame with
content: the frame is extracted and its content dispatched. -/
theorem loopBody_frame (junk : Nat) (pb c rest : Str) (calls : List Call)
    (h1 : 1 ≤ c.length) (h2 : c.length ≤ 65533) :
    ClipsClient.loopBody junk { putback := pb, avail := frameOf c ++ rest, fail := false } calls
      = LoopStep.next { putback := (frameOf c).reverse ++ pb, avail := rest, fail := false }
          (calls ++ [ClipsClient.dispatch c]) := by
  have hz : toSizeT (((c.length + 2 : Nat) : Int) - 2) = c.length :=
    (toSizeT_sub_two _ (by omega) (by omega)).trans (by omega)
  have hm : sub16 (c.length + 2) 2 = c.length := by unfold sub16; omega
  have hne : ¬ sub16 (c.length + 2) 2 = 0 := by rw [hm]; omega
  have hnl : ¬ (c ++ rest).length < toSizeT (((c.length + 2 : Nat) : Int) - 2) := by
    rw [hz]; simp
  have hrev : c.reverse ++ ((le16 (c.length + 2)).reverse ++ pb)
      = (frameOf c).reverse ++ pb := by simp [frameOf]
  have hf : frameOf c ++ rest = le16 (c.length + 2) ++ (c ++ rest) := by
    simp [frameOf]
  unfold ClipsClient.loopBody
  rw [hf, readHeader_good junk pb (c ++ rest) (c.length + 2) (by omega)]
  show ClipsClient.afterHeader (c.length + 2)
    { putback := (le16 (c.length + 2)).reverse ++ pb, avail := c ++ rest, fail := false }
    calls = _
  unfold ClipsClient.afterHeader
  rw [if_neg hnl, if_neg hne, hm, readMessage_good, hrev]

/-- The loop ends when the body is left by `break`. -/
theorem clientLoop_stop (fuel : Nat) (junk : Nat → Nat) (is is2 : IStream)
    (calls calls2 : List Call)
    (h : ClipsClient.loopBody (junk 0) is calls = LoopStep.stop is2 calls2) :
    ClipsClient.readLoop (fuel + 1) junk is calls = some (is2, calls2) := by
  rw [ClipsClient.readLoop, h]

/-- The loop goes on after the body while the buffer holds bytes. -/
theorem clientLoop_next (fuel : Nat) (junk : Nat → Nat) (is is2 : IStream)
    (calls calls2 : List Call)
    (h : ClipsClient.loopBody (junk 0) is calls = LoopStep.next is2 calls2) :
    ClipsClient.readLoop (fuel + 1) junk is calls
      = if is2.avail.length > 0 then
          ClipsClient.readLoop fuel (fun k => junk (k + 1)) is2 calls2
        else some (is2, calls2) := by
  rw [ClipsClient.readLoop, h]

/-- C9, failing input. A header with the size value 1 (or 0) followed by the
frame of `A`: `ClipsClient::asyncReadHandler` puts the header back, leaves
the buffer as it was and makes no call, so the frame of `A` behind it is not
processed. With the size value 2 the header is consumed and the frame of `A`
is processed. -/
theorem small_header_blocks_client (pb : Str) (junk : Nat → Nat) :
    ClipsClient.asyncReadHandler { putback := pb, avail := [1, 0, 3, 0, 65], fail := false }
        false junk
      = some { is := { putback := pb, avail := [1, 0, 3, 0, 65], fail := false }, calls := [],
               disconnected := false, rearmed := true }
    ∧ ClipsClient.asyncReadHandler { putback := pb, avail := [0, 0, 3, 0, 65], fail := false }
        false junk
      = some { is := { putback := pb, avail := [0, 0, 3, 0, 65], fail := false }, calls := [],
               disconnected := false, rearmed := true }
    ∧ ClipsClient.asyncReadHandler { putback := pb, avail := [2, 0, 3, 0, 65], fail := false }
        false junk
      = some { is := { putback := [65, 0, 3, 0, 2] ++ pb, avail := [], fail := false },
               calls := [Call.onMessageReceived [65]],
               disconnected := false, rearmed := true } := by
  have e1 : ([1, 0, 3, 0, 65] : Str) = le16 1 ++ [3, 0, 65] := by decide
  have e0 : ([0, 0, 3, 0, 65] : Str) = le16 0 ++ [3, 0, 65] := by decide
  have e2 : ([2, 0, 3, 0, 65] : Str) = le16 2 ++ (frameOf [65] ++ []) := by decide
  refine ⟨?_, ?_, ?_⟩
  · unfold ClipsClient.asyncReadHandler
    simp only [Bool.false_eq_true, if_false, List.length_cons, List.length_nil]
    rw [e1, clientLoop_stop _ junk _ _ _ _
      (loopBody_size_below_two (junk 0) pb [3, 0, 65] 1 [] (by decide) (by decide))]
    rfl
  · unfold ClipsClient.asyncReadHandler
    simp only [Bool.false_eq_true, if_false, List.length_cons, List.length_nil]
    rw [e0, clientLoop_stop _ junk _ _ _ _
      (loopBody_size_below_two (junk 0) pb [3, 0, 65] 0 [] (by decide) (by decide))]
    rfl
  · unfold ClipsClient.asyncReadHandler
    simp only [Bool.false_eq_true, if_false, List.length_cons, List.length_nil]
    rw [e2, clientLoop_next _ junk _ _ _ _ (loopBody_size_two (junk 0) pb _ [])]
    rw [if_pos (show (frameOf [65] ++ ([] : Str)).length > 0 by decide)]
    rw [clientLoop_next _ _ _ _ _ _
      (loopBody_frame (junk 1) ((le16 2).reverse ++ pb) [65] [] [] (by decide) (by decide))]
    rfl

/-! ### The pending table of the client -/

theorem toUInt32_toInt32 (n : Nat) (h : n < 2 ^ 32) : toUInt32 (toInt32 n) = n := by
  unfold toUInt32 toInt32
  split <;> omega

theorem Reply.fromMessage_cmdId_lt (s : Str) (r : Reply) (h : Reply.fromMessage s = some r) :
    r.cmdId < 2 ^ 32 := by
  unfold Reply.fromMessage at h
  split at h
  · exact absurd h (by simp)
  · split at h
    · exact absurd h (by simp)
    · split at h
      · rename_i res _
        have e := Option.some.inj h
        rw [← e]
        have hl := fromLE_lt (copyOut s 4 1)
        have h4 : (copyOut s 4 1).length ≤ 4 := by
          simp [copyOut]
        calc fromLE (copyOut s 4 1) < 256 ^ (copyOut s 4 1).length := hl
          _ ≤ 256 ^ 4 := Nat.pow_le_pow_right (by decide) h4
          _ = 2 ^ 32 := by norm_num
      · exact absurd h (by simp)

/-- C10. Correlation by id: for every pending table and every message that
decodes to a reply with a command id `i` other than `0xFFFFFFFF`: if `i` is a
key of the table, `handleResponseMesage` stores the reply under `i`, leaves
every other entry unchanged and notifies the waiters, and a following
`awaitResponse(i)` returns true with the success flag and result text of that
reply and removes the entry `i` only; if `i` is not a key, the table is left
unchanged and nobody is notified. -/
theorem correlation_by_id (t : Pending) (s : Str) (r : Reply) (success0 : Bool) (result0 : Str)
    (hr : Reply.fromMessage s = some r) (hid : r.cmdId ≠ Reply.CommandIdNone) :
    ((t r.cmdId).isSome = true →
        (ClipsClient.handleResponseMesage t s).pending r.cmdId = some (some r)
          ∧ (∀ j, j ≠ r.cmdId → (ClipsClient.handleResponseMesage t s).pending j = t j)
          ∧ (ClipsClient.handleResponseMesage t s).notified = true
          ∧ ∃ res,
              ClipsClient.awaitResponse (ClipsClient.handleResponseMesage t s).pending
                  (toInt32 r.cmdId) success0 result0 = some res
                ∧ res.returned = true ∧ res.success = r.success ∧ res.result = r.result
                ∧ res.pending r.cmdId = none
                ∧ ∀ j, j ≠ r.cmdId → res.pending j = t j)
      ∧ (t r.cmdId = none →
          (ClipsClient.handleResponseMesage t s).pending = t
            ∧ (ClipsClient.handleResponseMesage t s).notified = false
            ∧ (ClipsClient.handleResponseMesage t s).status = none) := by
  have hlt := Reply.fromMessage_cmdId_lt s r hr
  constructor
  · intro hkey
    have hcount : ¬ t.count r.cmdId = 0 := by simp [Pending.count, hkey]
    have heff : ClipsClient.handleResponseMesage t s
        = { pending := t.assign r.cmdId (some r), notified := true, status := none } := by
      simp [ClipsClient.handleResponseMesage, hr, hid, hcount]
    rw [heff]
    refine ⟨by simp [Pending.assign], fun j hj => by simp [Pending.assign, hj], rfl, ?_⟩
    refine ⟨{ returned := true, success := r.success, result := r.result,
              pending := (t.assign r.cmdId (some r)).erase r.cmdId }, ?_, rfl, rfl, rfl,
            by simp [Pending.erase], fun j hj => by simp [Pending.erase, Pending.assign, hj]⟩
    simp [ClipsClient.awaitResponse, ClipsClient.hasReponseArrived, toUInt32_toInt32 _ hlt,
      Pending.count, Pending.assign, Pending.index]
  · intro hkey
    have hcount : t.count r.cmdId = 0 := by simp [Pending.count, hkey]
    simp [ClipsClient.handleResponseMesage, hr, hid, hcount]

/-- C10, instance: the reply to request 7 arrives while the requests 7 and 9
are waiting. -/
theorem correlation_by_id_witness :
    ∃ res,
      ClipsClient.awaitResponse
          (ClipsClient.handleResponseMesage
            (fun j => if j = 7 ∨ j = 9 then some none else none)
            [0, 7, 0, 0, 0, 1, 111, 107]).pending
          (toInt32 7) false [] = some res
        ∧ res.returned = true ∧ res.success = true ∧ res.result = [111, 107]
        ∧ res.pending 7 = none ∧ res.pending 9 = some none := by
  have h := (correlation_by_id (fun j => if j = 7 ∨ j = 9 then some none else none)
    [0, 7, 0, 0, 0, 1, 111, 107] { cmdId := 7, success := true, result := [111, 107] }
    false [] (by decide) (by decide)).1 (by decide)
  obtain ⟨res, h1, h2, h3, h4, h5, h6⟩ := h.2.2.2
  exact ⟨res, h1, h2, h3, h4, h5, (h6 9 (by decide)).trans (by decide)⟩

/-! ### The receive loop of the server ends -/

theorem read_failed (is : IStream) (n : Nat) (h : is.fail = true) : is.read n = ([], is) := by
  simp [IStream.read, h]

theorem unget_failed (is : IStream) (h : is.fail = true) : is.unget = is := by
  simp [IStream.unget, h]

theorem read_avail_le (is : IStream) (n : Nat) :
    (is.read n).2.avail.length ≤ is.avail.length := by
  unfold IStream.read
  split
  · exact Nat.le_refl _
  · split
    · simp
    · simp

theorem read_drained (is : IStream) (n : Nat) (h : is.Drained) : (is.read n).2.Drained := by
  unfold IStream.read
  split
  · exact h
  · split
    · intro hf; simp at hf
    · intro _; rfl

theorem read_two_good (is : IStream) (hg : is.fail = false) (h2 : 2 ≤ is.avail.length) :
    (is.read 2).2.avail.length + 2 = is.avail.length ∧ (is.read 2).2.fail = false := by
  unfold IStream.read
  rw [if_neg (by simp [hg]), if_pos h2]
  simp
  omega

/-- The stream after `peekMessageHeader`: unchanged when it was good and held
two bytes, drained and failed otherwise. -/
theorem peek_cases (junk : Nat) (is : IStream) (h : is.Drained) :
    ((Session.peekMessageHeader junk is).2 = is ∧ is.fail = false ∧ 2 ≤ is.avail.length)
      ∨ ((Session.peekMessageHeader junk is).2.avail = []
          ∧ (Session.peekMessageHeader junk is).2.fail = true) := by
  obtain ⟨pb, av, fl⟩ := is
  cases fl with
  | true =>
    right
    have hav : av = [] := h rfl
    subst hav
    simp [Session.peekMessageHeader, IStream.read, IStream.unget]
  | false =>
    match av with
    | [] => right; simp [Session.peekMessageHeader, IStream.read, IStream.unget]
    | [a] => right; simp [Session.peekMessageHeader, IStream.read, IStream.unget]
    | a :: b :: rest =>
      left
      refine ⟨?_, rfl, by simp⟩
      simp [Session.peekMessageHeader, IStream.read, IStream.unget]

/-- The stream after `fetchStringFromBuffer` on a good stream that holds two
bytes: at least the header has been extracted. -/
theorem fetch_good (junk : Nat) (is : IStream) (hg : is.fail = false)
    (h2 : 2 ≤ is.avail.length) :
    (Session.fetchStringFromBuffer junk is).2.avail.length + 2 ≤ is.avail.length
      ∧ (Session.fetchStringFromBuffer junk is).2.Drained := by
  have hr := read_two_good is hg h2
  have hd : (is.read 2).2.Drained := fun hf => by rw [hr.2] at hf; exact absurd hf (by simp)
  unfold Session.fetchStringFromBuffer
  constructor
  · have := read_avail_le (is.read 2).2
      (sub16 (fromLE (overlay (le16 junk) (is.read 2).1)) 2)
    show (IStream.read (is.read 2).2 _).2.avail.length + 2 ≤ _
    omega
  · exact read_drained _ _ hd

/-- The stream after `fetchStringFromBuffer` on a failed stream is the same
stream. -/
theorem fetch_failed (junk : Nat) (is : IStream) (hf : is.fail = true) :
    (Session.fetchStringFromBuffer junk is).2 = is := by
  unfold Session.fetchStringFromBuffer
  rw [read_failed is 2 hf]
  show (IStream.read is _).2 = is
  rw [read_failed is _ hf]

/-- The loop of `Session::asyncReadHandler` ends within `buffer.size() + 1`
iterations. -/
theorem readLoop_isSome (ep : Str) : ∀ (fuel : Nat) (junk : Nat → Nat) (is : IStream)
    (q : List TcpMessage), is.Drained → is.avail.length < fuel →
    (Session.readLoop ep fuel junk is q).isSome = true
  | 0, _, _, _, _, hlt => absurd hlt (Nat.not_lt_zero _)
  | fuel + 1, junk, is, q, hd, hlt => by
    rw [Session.readLoop]
    show (if (Session.peekMessageHeader (junk 0) is).2.avail.length
          < (Session.peekMessageHeader (junk 0) is).1 then _
        else if (Session.fetchStringFromBuffer (junk 1)
            (Session.peekMessageHeader (junk 0) is).2).2.avail.length > 0 then
          Session.readLoop ep fuel (fun k => junk (k + 2))
            (Session.fetchStringFromBuffer (junk 1) (Session.peekMessageHeader (junk 0) is).2).2
            _
        else _).isSome = true
    split
    · rfl
    · split
      · rename_i hpos
        rcases peek_cases (junk 0) is hd with ⟨he, hg, h2⟩ | ⟨hav, hf⟩
        · rw [he] at hpos ⊢
          have hfg := fetch_good (junk 1) is hg h2
          exact readLoop_isSome ep fuel _ _ _ hfg.2 (by omega)
        · rw [fetch_failed _ _ hf, hav] at hpos
          exact absurd hpos (by simp)
      · rfl

/-- The handler of the server returns on every buffer. -/
theorem Session.serverHandler_returns (s : Session) (error : Bool) (junk : Nat → Nat) :
    (Session.asyncReadHandler s error junk).isSome = true := by
  unfold Session.asyncReadHandler
  split
  · rfl
  · rw [Option.isSome_map']
    exact readLoop_isSome s.endpoint _ junk _ _ (fun hf => by simp at hf) (Nat.lt_succ_self _)
/-! ### The receive loop of the client ends -/

theorem read_two_progress (is : IStream) (hd : is.Drained) :
    0 < (is.read 2).2.avail.length → (is.read 2).2.avail.length + 2 ≤ is.avail.length := by
  intro hpos
  cases hf : is.fail with
  | true =>
    rw [read_failed is 2 hf, hd hf] at hpos
    exact absurd hpos (by simp)
  | false =>
    by_cases h2 : 2 ≤ is.avail.length
    · exact Nat.le_of_eq (read_two_good is hf h2).1
    · unfold IStream.read at hpos
      rw [if_neg (by simp [hf]), if_neg h2] at hpos
      exact absurd hpos (by simp)

/-- When the loop body of the client ends at the loop condition, the stream
is drained or at least the header has been extracted. -/
theorem loopBody_next_progress (junk : Nat) (is is2 : IStream) (calls calls2 : List Call)
    (hd : is.Drained) (h : ClipsClient.loopBody junk is calls = LoopStep.next is2 calls2) :
    is2.Drained ∧ (0 < is2.avail.length → is2.avail.length + 2 ≤ is.avail.length) := by
  have hd1 : (is.read 2).2.Drained := read_drained is 2 hd
  have hp1 := read_two_progress is hd
  unfold ClipsClient.loopBody at h
  change ClipsClient.afterHeader (fromLE (overlay (le16 junk) (is.read 2).1)) (is.read 2).2 calls
    = LoopStep.next is2 calls2 at h
  unfold ClipsClient.afterHeader at h
  split at h
  · exact absurd h (by simp)
  · split at h
    · injection h with e1 e2
      subst e1
      exact ⟨hd1, hp1⟩
    · change LoopStep.next
        (IStream.read (is.read 2).2 (sub16 (fromLE (overlay (le16 junk) (is.read 2).1)) 2)).2 _
        = LoopStep.next is2 calls2 at h
      injection h with e1 e2
      subst e1
      have hle := read_avail_le (is.read 2).2
        (sub16 (fromLE (overlay (le16 junk) (is.read 2).1)) 2)
      exact ⟨read_drained _ _ hd1, fun hpos => by
        have := hp1 (by omega)
        omega⟩

/-- On a drained stream the loop of `ClipsClient::asyncReadHandler` ends
within `buffer.size() + 1` iterations. -/
theorem clientLoop_isSome : ∀ (fuel : Nat) (junk : Nat → Nat) (is : IStream)
    (calls : List Call), is.Drained → is.avail.length < fuel →
    (ClipsClient.readLoop fuel junk is calls).isSome = true
  | 0, _, _, _, _, hlt => absurd hlt (Nat.not_lt_zero _)
  | fuel + 1, junk, is, calls, hd, hlt => by
    rw [ClipsClient.readLoop]
    cases hb : ClipsClient.loopBody (junk 0) is calls with
    | stop is2 calls2 => rfl
    | next is2 calls2 =>
      have hp := loopBody_next_progress (junk 0) is is2 calls calls2 hd hb
      show Option.isSome (if is2.avail.length > 0 then
          ClipsClient.readLoop fuel (fun k => junk (k + 1)) is2 calls2
        else some (is2, calls2)) = true
      split
      · rename_i hpos
        have := hp.2 hpos
        exact clientLoop_isSome fuel _ is2 calls2 hp.1 (by omega)
      · rfl

/-- The handler of the client returns on every stream that is good or
drained. -/
theorem ClipsClient.clientHandler_returns (is : IStream) (error : Bool) (junk : Nat → Nat)
    (hd : is.Drained) : (ClipsClient.asyncReadHandler is error junk).isSome = true := by
  unfold ClipsClient.asyncReadHandler
  split
  · rfl
  · rw [Option.isSome_map']
    exact clientLoop_isSome _ junk is [] hd (Nat.lt_succ_self _)

/-! ### Abort and the life of a pending entry -/

/-- C11. Abort releases every waiter: whatever the pending table held, after
`abortAllRPC` no key is in the table; for every command id the wait
predicate `hasReponseArrived` is true and sets `aborted`; and
`awaitResponse` for that id does not block and returns false, leaving
`success` and `result` as they were. -/
theorem abort_releases_every_waiter (t : Pending) (cmdId : Int) (success : Bool) (result : Str) :
    (∀ k, ClipsClient.abortAllRPC t k = none)
      ∧ (∀ k aborted, ClipsClient.hasReponseArrived (ClipsClient.abortAllRPC t) k aborted
          = (true, true))
      ∧ ∃ res, ClipsClient.awaitResponse (ClipsClient.abortAllRPC t) cmdId success result
            = some res
          ∧ res.returned = false ∧ res.success = success ∧ res.result = result := by
  refine ⟨fun _ => rfl, fun _ _ => rfl, ?_⟩
  exact ⟨_, rfl, rfl, rfl, rfl⟩

/-- C12, failing input. After `abortAllRPC` has emptied the table,
`awaitResponse(5)` returns false, and the test `pendingCommands[cmdId] ==
nullptr` it made through `operator[]` has inserted the key 5 with a null
pointer: the table holds a waiting entry for the aborted call. -/
theorem abort_recreates_entry (t : Pending) (success : Bool) (result : Str) :
    ∃ res, ClipsClient.awaitResponse (ClipsClient.abortAllRPC t) 5 success result = some res
      ∧ res.returned = false ∧ res.pending 5 = some none := by
  exact ⟨_, rfl, rfl, rfl⟩

/-- The entry that `awaitResponse` leaves for an absent key, for every id. -/
theorem awaitResponse_absent_key (t : Pending) (cmdId : Int) (success : Bool) (result : Str)
    (h : t (toUInt32 cmdId) = none) :
    ∃ res, ClipsClient.awaitResponse t cmdId success result = some res
      ∧ res.returned = false ∧ res.pending (toUInt32 cmdId) = some none := by
  refine ⟨{ returned := false, success := success, result := result,
            pending := t.assign (toUInt32 cmdId) none }, ?_, rfl, by simp [Pending.assign]⟩
  simp [ClipsClient.awaitResponse, ClipsClient.hasReponseArrived, Pending.count, Pending.index, h]

/-- C14. Sentinel replies bypass the pending table: for every message that
decodes to a reply with command id `0xFFFFFFFF`, `handleResponseMesage`
leaves the pending table as it is, whatever it holds under the key
`0xFFFFFFFF`, notifies no waiter, and hands the reply to `updateStatus`. -/
theorem sentinel_bypasses_pending (t : Pending) (s : Str) (r : Reply)
    (hr : Reply.fromMessage s = some r) (hid : r.cmdId = Reply.CommandIdNone) :
    (ClipsClient.handleResponseMesage t s).pending = t
      ∧ (ClipsClient.handleResponseMesage t s).notified = false
      ∧ (ClipsClient.handleResponseMesage t s).status = some r := by
  simp [ClipsClient.handleResponseMesage, hr, hid]

/-- C14, instance: a status reply arrives while the table holds a waiting
entry under the key `0xFFFFFFFF`. -/
theorem sentinel_bypasses_pending_witness :
    (ClipsClient.handleResponseMesage
        (fun j => if j = 4294967295 then some none else none)
        [0, 255, 255, 255, 255, 1, 111, 107]).pending 4294967295 = some none
      ∧ (ClipsClient.handleResponseMesage
        (fun j => if j = 4294967295 then some none else none)
        [0, 255, 255, 255, 255, 1, 111, 107]).notified = false := by
  have h := sentinel_bypasses_pending (fun j => if j = 4294967295 then some none else none)
    [0, 255, 255, 255, 255, 1, 111, 107]
    { cmdId := 4294967295, success := true, result := [111, 107] } (by decide) (by decide)
  exact ⟨by rw [h.1]; decide, h.2.1⟩

/-! ### The command id allocator -/

theorem counterAfter_eq (n : Nat) : Request.counterAfter n = n % 4294967296 := by
  induction n with
  | zero => rfl
  | succ k ih =>
    show (Request.counterAfter k + 1) % 2 ^ 32 = (k + 1) % 4294967296
    rw [ih]
    omega

theorem nth_cmdId (n : Nat) (command args : Str) (h : 1 ≤ n) :
    (Request.nth n command args).cmdId = n % 4294967296 := by
  show (Request.counterAfter (n - 1) + 1) % 2 ^ 32 = n % 4294967296
  rw [counterAfter_eq]
  omega

/-- C15, counterexample. The request number 4294967295 constructed in a
process gets the command id `0xFFFFFFFF`, the value of
`Reply::CommandIdNone`. -/
theorem allocator_issues_sentinel :
    (Request.nth 4294967295 [114, 101, 115, 101, 116] []).cmdId = Reply.CommandIdNone := by
  rw [nth_cmdId _ _ _ (by decide)]
  rfl

/-- C15, amended. For every `n >= 1` that is not congruent to `2^32 - 1`
modulo `2^32`, before and after the counter wraps around, the command id of
the `n`-th request constructed in a process is `n mod 2^32` and differs from
`0xFFFFFFFF`. -/
theorem allocator_avoids_sentinel (n : Nat) (command args : Str) (h1 : 1 ≤ n)
    (h : n % 4294967296 ≠ 4294967295) :
    (Request.nth n command args).cmdId = n % 4294967296
      ∧ (Request.nth n command args).cmdId ≠ Reply.CommandIdNone := by
  rw [nth_cmdId _ _ _ h1]
  exact ⟨rfl, h⟩

/-- C15, instance of the amended claim: the first request after the counter
has wrapped around gets the id 1. -/
theorem allocator_avoids_sentinel_witness :
    (Request.nth 4294967297 [] []).cmdId = 4294967297 % 4294967296
      ∧ (Request.nth 4294967297 [] []).cmdId ≠ Reply.CommandIdNone :=
  allocator_avoids_sentinel 4294967297 [] [] (by decide) (by decide)
/-! ### Registration and transmission -/

/-- C13, failing input. A connected client with an empty pending table calls
`rpc("reset")`. When `sendCommand` has written the frame, the id 1 is not in
the table. If the service thread handles the reply to request 1 before the
registration, `handleResponseMesage` drops it, the registration then inserts
a waiting entry and the caller stays blocked in `awaitResponse`. If the same
reply is handled after the registration, `rpc` returns true. -/
theorem reply_before_registration_is_dropped :
    (∃ c1, ClipsClient.sendCommand
          { isOpen := true, sent := [], lastCommandId := 0, pendingCommands := Pending.clear }
          [114, 101, 115, 101, 116] [] 0 = some (true, 1, c1)
        ∧ c1.sent = [[12, 0, 0, 1, 0, 0, 0, 114, 101, 115, 101, 116]]
        ∧ c1.pendingCommands 1 = none)
      ∧ (∃ c2, ClipsClient.rpc
          { isOpen := true, sent := [], lastCommandId := 0, pendingCommands := Pending.clear }
          [114, 101, 115, 101, 116] [] [] [[0, 1, 0, 0, 0, 1]] [] = RpcOutcome.blocked c2
        ∧ c2.pendingCommands 1 = some none)
      ∧ (∃ c3, ClipsClient.rpc
          { isOpen := true, sent := [], lastCommandId := 0, pendingCommands := Pending.clear }
          [114, 101, 115, 101, 116] [] [] [] [[0, 1, 0, 0, 0, 1]] = RpcOutcome.returned true [] c3
        ∧ c3.pendingCommands 1 = none) := by
  refine ⟨⟨_, rfl, rfl, rfl⟩, ⟨_, rfl, rfl⟩, ⟨_, rfl, rfl⟩⟩

/-! ### `splitCommand` on a text that ends with a NUL -/

theorem findFrom_some_lt (c : Byte) : ∀ (s : Str) (i : Nat), findFrom c s = some i →
    i < s.length ∧ s.getD i 0 = c
  | [], i, h => by simp [findFrom] at h
  | x :: xs, i, h => by
    unfold findFrom at h
    split at h
    · rename_i hx
      have := Option.some.inj h
      subst this
      simp [hx]
    · cases hf : findFrom c xs with
      | none => rw [hf] at h; simp at h
      | some j =>
        rw [hf] at h
        have e : j + 1 = i := by simpa using h
        have ih := findFrom_some_lt c xs j hf
        subst e
        refine ⟨by simp [ih.1], ?_⟩
        rw [List.getD_cons_succ]
        exact ih.2

theorem findFrom_of_mem (c : Byte) : ∀ (s : Str), c ∈ s → ∃ i, findFrom c s = some i
  | [], h => by simp at h
  | x :: xs, h => by
    unfold findFrom
    by_cases hx : x = c
    · exact ⟨0, by simp [hx]⟩
    · have hm : c ∈ xs := by
        rcases List.mem_cons.mp h with e | e
        · exact absurd e.symm hx
        · exact e
      obtain ⟨j, hj⟩ := findFrom_of_mem c xs hm
      exact ⟨j + 1, by simp [hx, hj]⟩

/-- On a text that ends with a NUL, as every text the session hands over
does, `splitCommand` raises nothing. -/
theorem splitCommand_terminated (c0 : Str) :
    ∃ cmd arg, splitCommand (c0 ++ [NUL]) = .ok (cmd, arg) := by
  unfold splitCommand
  rw [find_zero]
  cases hsp : findFrom SP (c0 ++ [NUL]) with
  | none =>
    show ∃ cmd arg, Except.map _ (substr (c0 ++ [NUL]) 0 _) = _
    unfold substr
    rw [if_neg (by omega)]
    cases find (c0 ++ [NUL]) NUL 0 <;> exact ⟨_, _, rfl⟩
  | some sp =>
    obtain ⟨hlt, hget⟩ := findFrom_some_lt SP _ sp hsp
    have hsp2 : sp < c0.length := by
      rcases Nat.lt_or_ge sp c0.length with h | h
      · exact h
      · have hl : (c0 ++ [NUL]).length = c0.length + 1 := by simp
        have he : sp = c0.length := by omega
        rw [he] at hget
        simp [NUL, SP] at hget
    have h1 : substr (c0 ++ [NUL]) 0 (some sp) = .ok ((c0 ++ [NUL]).take sp) := by
      simp [substr]
    have hd : (c0 ++ [NUL]).drop (sp + 1) = c0.drop (sp + 1) ++ [NUL] := by
      rw [List.drop_append_of_le_length (by omega)]
    have h2 : substr (c0 ++ [NUL]) (sp + 1) none = .ok (c0.drop (sp + 1) ++ [NUL]) := by
      unfold substr
      rw [if_neg (by omega), hd]
    obtain ⟨j, hj⟩ := findFrom_of_mem NUL (c0.drop (sp + 1) ++ [NUL]) (by simp)
    have hjlt := (findFrom_some_lt NUL _ j hj).1
    have h3 : erase (c0.drop (sp + 1) ++ [NUL]) (find (c0.drop (sp + 1) ++ [NUL]) NUL 0)
        = .ok ((c0.drop (sp + 1) ++ [NUL]).take j) := by
      rw [find_zero, hj]
      show (if j > (c0.drop (sp + 1) ++ [NUL]).length then _ else _) = _
      rw [if_neg (by omega)]
    refine ⟨(c0 ++ [NUL]).take sp, (c0.drop (sp + 1) ++ [NUL]).take j, ?_⟩
    show Except.bind (substr (c0 ++ [NUL]) 0 (some sp)) _ = _
    rw [h1]
    show Except.bind (substr (c0 ++ [NUL]) (sp + 1) none) _ = _
    rw [h2]
    show Except.map _ (erase _ _) = _
    rw [h3]
    rfl
/-! ### The frame of a request exists only within 16 bits -/

theorem store_length (buf : Str) (off : Nat) (src b : Str) (h : store buf off src = some b) :
    b.length = buf.length := by
  unfold store at h
  split at h
  · rename_i hle
    have e := Option.some.inj h
    rw [← e]
    simp only [List.length_append, List.length_take, List.length_drop]
    omega
  · exact absurd h (by simp)

theorem store_fits (buf : Str) (off : Nat) (src b : Str) (h : store buf off src = some b) :
    off + src.length ≤ buf.length := by
  unfold store at h
  split at h
  · assumption
  · exact absurd h (by simp)

/-- When `Request::getPayload` makes all its stores inside the vector, the
frame has at most 65535 bytes. -/
theorem getPayload_some_bound (r : Request) (p : Str) (h : r.getPayload = some p) :
    7 + r.content.length ≤ 65535 := by
  unfold Request.getPayload at h
  simp only [Option.bind_eq_some] at h
  obtain ⟨p1, h1, p2, h2, p3, h3, h4⟩ := h
  have l1 := store_length _ _ _ _ h1
  have l2 := store_length _ _ _ _ h2
  have l3 := store_length _ _ _ _ h3
  have f4 := store_fits _ _ _ _ h4
  rw [l3, l2, l1, List.length_replicate] at f4
  have : (7 + r.content.length) % 65536 < 65536 := Nat.mod_lt _ (by decide)
  omega

/-! ### The router -/

/-- What `handleCommand` does once `splitCommand` has returned `cmd` and
`arg` and `cmd` is `assert`. -/
theorem handleCommand_assert (env : Env) (st : ServerState) (c arg : Str)
    (h : splitCommand c = .ok (bytesOf "assert", arg)) :
    Server.handleCommand env st c
      = .ok (true, [], st.engineCall env (Effect.assertString arg)) := by
  unfold Server.handleCommand
  rw [h]
  rfl

/-- C16. Assert command: for every fact text `f` without a NUL byte (empty
or not), when an open client sends the command `assert` with the argument `f`
(what `ClipsClient::assertFact(f)` does through `rpc` and `sendCommand`) and
the server reads that frame and parses the message, `Server::handleCommand`
makes exactly one call, `assertString(f)`, leaves `result` empty and returns
true. -/
theorem assert_command (env : Env) (st : ServerState) (cl cl1 : ClientState) (f : Str)
    (junk : Nat) (ep pb rest : Str) (ok : Bool) (id : Nat)
    (hnul : NUL ∉ f) (hopen : cl.isOpen = true)
    (hsend : ClipsClient.sendCommand cl (bytesOf "assert") f 0 = some (ok, id, cl1)) :
    ∃ p m is2 c st2,
      ok = true ∧ cl1.sent = cl.sent ++ [p]
        ∧ Session.fetchStringFromBuffer junk { putback := pb, avail := p ++ rest, fail := false }
            = (m, is2)
        ∧ Server.parseMessage { source := ep, message := m } = .ok (ParseAction.handleCommand c)
        ∧ Server.handleCommand env st c = .ok (true, [], st2)
        ∧ st2.log = st.log ++ [Effect.assertString f]
        ∧ st2.watches = st.watches ∧ st2.clients = st.clients := by
  unfold ClipsClient.sendCommand at hsend
  rw [hopen] at hsend
  simp only [Bool.not_true, Bool.false_eq_true, if_false, Option.map_eq_some'] at hsend
  obtain ⟨p, hp, hres⟩ := hsend
  have hok : ok = true := by
    have := congrArg (fun x => x.1) hres
    exact this.symm
  have hcl : cl1.sent = cl.sent ++ [p] := by
    have := congrArg (fun x => x.2.2.sent) hres
    exact this.symm
  have hbound := getPayload_some_bound _ p hp
  have hsp : SP ∉ bytesOf "assert" := by decide
  have hn : NUL ∉ bytesOf "assert" := by decide
  obtain ⟨p2, m, is2, c, hp2, hfetch, _, hparse, hsplit⟩ :=
    request_decoded_by_server (Request.create cl.lastCommandId (bytesOf "assert") f).1.cmdId
      (bytesOf "assert") f junk ep pb rest hsp hn hnul hbound
  have hpp : p2 = p := Option.some.inj (hp2.symm.trans hp)
  subst hpp
  exact ⟨p2, m, is2, c, _, hok, hcl, hfetch, hparse, handleCommand_assert env st c f hsplit,
    rfl, rfl, rfl⟩
/-- C16, instance: the fact `(block G)` of the client test, sent as the
first request of a client. -/
theorem assert_command_witness :
    ∃ p m is2 c st2,
      true = true
        ∧ [[23, 0, 0, 1, 0, 0, 0, 97, 115, 115, 101, 114, 116, 32,
            40, 98, 108, 111, 99, 107, 32, 71, 41]] = ([] : List Str) ++ [p]
        ∧ Session.fetchStringFromBuffer 0 { putback := [], avail := p ++ [], fail := false }
            = (m, is2)
        ∧ Server.parseMessage { source := bytesOf "10.0.0.1:5555", message := m }
            = .ok (ParseAction.handleCommand c)
        ∧ Server.handleCommand Env.sample ServerState.sample c = .ok (true, [], st2)
        ∧ st2.log = ServerState.sample.log ++ [Effect.assertString (bytesOf "(block G)")]
        ∧ st2.watches = ServerState.sample.watches
        ∧ st2.clients = ServerState.sample.clients :=
  assert_command Env.sample ServerState.sample
    { isOpen := true, sent := [], lastCommandId := 0, pendingCommands := Pending.clear }
    { isOpen := true,
      sent := [[23, 0, 0, 1, 0, 0, 0, 97, 115, 115, 101, 114, 116, 32,
        40, 98, 108, 111, 99, 107, 32, 71, 41]],
      lastCommandId := 1, pendingCommands := Pending.clear }
    (bytesOf "(block G)") 0 (bytesOf "10.0.0.1:5555") [] [] true 1 (by decide) rfl rfl

/-- C17, failing input. The session with endpoint `10.0.0.1:5555` receives
the text `hello` in one frame. `fetchStringFromBuffer` returns `hello`
followed by a NUL, and `parseMessage` passes that message to `assertFact`:
the string given to `clips::assertString` is `(network 10.0.0.1:5555 hello`,
a NUL, then `)`, and the C string CLIPS reads from it ends before the NUL,
without the closing parenthesis. No command is handled and nothing is
sent. -/
theorem fact_message_keeps_nul (env : Env) (st : ServerState) (junk : Nat) (pb rest : Str) :
    (Session.fetchStringFromBuffer junk
        { putback := pb, avail := frameOf (bytesOf "hello") ++ rest, fail := false }).1
      = bytesOf "hello" ++ [0]
    ∧ (∃ st2, Server.runStep env st
          { source := bytesOf "10.0.0.1:5555", message := bytesOf "hello" ++ [0] } = .ok st2
        ∧ st2.log = st.log
            ++ [Effect.assertString (bytesOf "(network 10.0.0.1:5555 hello" ++ [0] ++ bytesOf ")"),
                Effect.setFactListChanged false])
    ∧ bytesOf "(network 10.0.0.1:5555 hello" ++ [0] ++ bytesOf ")"
        ≠ bytesOf "(network 10.0.0.1:5555 hello)"
    ∧ clipsstr (bytesOf "(network 10.0.0.1:5555 hello" ++ [0] ++ bytesOf ")")
        = some (bytesOf "(network 10.0.0.1:5555 hello") := by
  refine ⟨?_, ⟨_, rfl, ?_⟩, by decide, by decide⟩
  · rw [fetch_frame junk pb (bytesOf "hello") rest (by decide)]
  · show st.log ++ [_] ++ [_] = _
    rw [List.append_assoc]
    rfl

/-- C18, failing input. `assertFact("hello", "")` on a server whose
`defaultMsgInFact` is `network 0.0.0.0:0`: the string given to
`clips::assertString` is `( hello)`, built from the empty `fact`; the
default name, which the code stores in the local `f`, does not appear. -/
theorem default_fact_name_unused (env : Env) (st : ServerState) :
    (Server.assertFact env { st with defaultMsgInFact := bytesOf "network 0.0.0.0:0" }
        (bytesOf "hello") [] true).log
      = st.log ++ [Effect.assertString (bytesOf "( hello)"), Effect.setFactListChanged false]
    ∧ bytesOf "( hello)" ≠ bytesOf "(network 0.0.0.0:0 hello)" := by
  refine ⟨?_, by decide⟩
  show st.log ++ [_] ++ [_] = _
  rw [List.append_assoc]
  rfl

/-- C19. Unknown commands are rejected: whenever `splitCommand` has split the
text into a command name other than `assert`, `reset`, `clear`, `query`,
`raw`, `path`, `print`, `watch`, `load`, `run` and `log` and any argument,
`Server::handleCommand` returns false, leaves `result` empty and leaves the
state as it was: it makes no call to the engine, to the file loader or to a
session. -/
theorem unknown_command_rejected (env : Env) (st : ServerState) (c cmd arg : Str)
    (hsplit : splitCommand c = .ok (cmd, arg))
    (hcmd : cmd ∉ [bytesOf "assert", bytesOf "reset", bytesOf "clear", bytesOf "query",
      bytesOf "raw", bytesOf "path", bytesOf "print", bytesOf "watch", bytesOf "load",
      bytesOf "run", bytesOf "log"]) :
    Server.handleCommand env st c = .ok (false, [], st) := by
  simp only [List.mem_cons, List.mem_singleton, List.not_mem_nil, or_false, not_or] at hcmd
  obtain ⟨h1, h2, h3, h4, h5, h6, h7, h8, h9, h10, h11⟩ := hcmd
  unfold Server.handleCommand
  rw [hsplit]
  show (if cmd = bytesOf "assert" then _ else _) = _
  rw [if_neg h1, if_neg h2, if_neg h3, if_neg h4, if_neg h5, if_neg h6, if_neg h7, if_neg h8,
    if_neg h9, if_neg h10, if_neg h11]

/-- C19, instance: the text `foo bar` followed by the NUL that the session
appends. -/
theorem unknown_command_rejected_witness :
    Server.handleCommand Env.sample ServerState.sample (bytesOf "foo bar" ++ [0])
      = .ok (false, [], ServerState.sample) :=
  unknown_command_rejected Env.sample ServerState.sample (bytesOf "foo bar" ++ [0])
    (bytesOf "foo") (bytesOf "bar") rfl (by decide)
/-! ### The watch command -/

/-- A broadcast to a registry without null pointers calls `Session::send`
once for every session, in the order of the registry, and changes nothing
else. -/
theorem broadcast_ok (message : Str) : ∀ (clients : List (Str × Option Session))
    (st : ServerState), (∀ kv ∈ clients, kv.2.isSome = true) →
    ∃ st2, Server.broadcast message clients st = .ok st2
      ∧ st2.log = st.log ++ clients.map (fun kv => Effect.send kv.1 message)
      ∧ st2.watches = st.watches ∧ st2.clients = st.clients ∧ st2.clppath = st.clppath
  | [], st, _ => ⟨st, rfl, by simp, rfl, rfl, rfl⟩
  | (ep, none) :: rest, st, h => by
    have := h (ep, none) (by simp)
    exact absurd this (by simp)
  | (ep, some sess) :: rest, st, h => by
    obtain ⟨st2, h1, h2, h3, h4, h5⟩ := broadcast_ok message rest
      (st.record (Effect.send ep message)) (fun kv hkv => h kv (List.mem_cons_of_mem _ hkv))
    refine ⟨st2, ?_, ?_, h3, h4, h5⟩
    · rw [Server.broadcast]
      exact h1
    · rw [h2]
      simp [ServerState.record]

/-- C20, counterexample. On the sample server the watch command with an
empty argument, which is none of `functions`, `globals`, `facts` and `rules`,
returns true and sends the status to the registered session. -/
theorem watch_without_argument_publishes :
    (Server.handleWatch Env.sample ServerState.sample []).map (fun r => (r.1, r.2.log))
      = .ok (true, [Effect.send (bytesOf "10.0.0.1:5555")
          ([0, 255, 255, 255, 255, 1] ++ bytesOf "watching:0|path:/tmp")]) := by
  rfl

/-- C20, amended. For every non-empty argument other than `functions`,
`globals`, `facts` and `rules`, `Server::handleWatch` returns false and
leaves the state as it was: no watch flag is toggled and no status is sent.
For the empty argument, on a registry without null pointers, it toggles no
watch flag, sends the status to every session and returns true. -/
theorem watch_validation (env : Env) (st : ServerState) (arg : Str)
    (harg : arg ∉ [bytesOf "functions", bytesOf "globals", bytesOf "facts", bytesOf "rules"])
    (hreg : ∀ kv ∈ st.clients, kv.2.isSome = true) :
    (arg ≠ [] → Server.handleWatch env st arg = .ok (false, st))
      ∧ (arg = [] →
          ∃ st2, Server.handleWatch env st arg = .ok (true, st2)
            ∧ st2.watches = st.watches
            ∧ st2.log = st.log
                ++ st.clients.map (fun kv => Effect.send kv.1 (Server.statusMessage env st))) := by
  simp only [List.mem_cons, List.mem_singleton, List.not_mem_nil, or_false, not_or] at harg
  obtain ⟨h1, h2, h3, h4⟩ := harg
  constructor
  · intro hne
    unfold Server.handleWatch
    rw [if_neg h1, if_neg h2, if_neg h3, if_neg h4, if_pos hne]
  · intro he
    obtain ⟨st2, hb, hlog, hw, _, _⟩ := broadcast_ok (Server.statusMessage env st) st.clients st hreg
    refine ⟨st2, ?_, hw, hlog⟩
    unfold Server.handleWatch
    rw [if_neg h1, if_neg h2, if_neg h3, if_neg h4, if_neg (by simp [he])]
    unfold Server.publishStatus
    rw [hb]
    rfl

/-- C20, instance of the amended claim: the argument `rule` on the sample
server. -/
theorem watch_validation_witness :
    (bytesOf "rule" ≠ [] →
        Server.handleWatch Env.sample ServerState.sample (bytesOf "rule")
          = .ok (false, ServerState.sample))
      ∧ (bytesOf "rule" = [] →
          ∃ st2, Server.handleWatch Env.sample ServerState.sample (bytesOf "rule") = .ok (true, st2)
            ∧ st2.watches = ServerState.sample.watches
            ∧ st2.log = ServerState.sample.log
                ++ ServerState.sample.clients.map
                  (fun kv => Effect.send kv.1
                    (Server.statusMessage Env.sample ServerState.sample))) :=
  watch_validation Env.sample ServerState.sample (bytesOf "rule") (by decide) (by decide)

/-! ### Commands that make the router raise -/

/-- C22, counterexample. On the sample server, the command text `run` with no
argument, followed by the NUL the session appends: `splitCommand` yields the
command `run` and an empty argument, `std::stoi` raises `invalid_argument` on
the empty string, so `handleRun` and with it `handleCommand` and the pass of
`Server::run` raise, and no call reaches the engine. -/
theorem run_without_argument_raises :
    splitCommand (bytesOf "run" ++ [0]) = .ok (bytesOf "run", [])
      ∧ stoi [] = .error .invalid_argument
      ∧ Server.handleCommand Env.sample ServerState.sample (bytesOf "run" ++ [0])
          = .error .invalid_argument
      ∧ Server.runStep Env.sample ServerState.sample
          { source := bytesOf "10.0.0.1:5555", message := [0, 1, 0, 0, 0] ++ bytesOf "run" ++ [0] }
          = .error .invalid_argument := by
  refine ⟨rfl, rfl, rfl, rfl⟩

/-- C23, failing inputs. The text `run abc` with its NUL: `std::stoi` raises
`invalid_argument` and `handleCommand` raises it on, also through the pass of
`Server::run` that handles the message. The text `reset x` without a NUL:
`arg.find_first_of((char)0)` is `npos`, `arg.erase(npos)` raises
`out_of_range`, and `handleCommand` raises it on. Neither call returns a
boolean. -/
theorem router_raises (env : Env) (st : ServerState) :
    Server.handleCommand env st (bytesOf "run abc" ++ [0]) = .error .invalid_argument
      ∧ Server.runStep env st
          { source := bytesOf "10.0.0.1:5555",
            message := [0, 1, 0, 0, 0] ++ bytesOf "run abc" ++ [0] }
          = .error .invalid_argument
      ∧ splitCommand (bytesOf "reset x") = .error .out_of_range
      ∧ Server.handleCommand env st (bytesOf "reset x") = .error .out_of_range := by
  refine ⟨rfl, rfl, rfl, rfl⟩

/-- C24, failing input. The text `raw (foo)` with its NUL, on an engine that
reports an evaluation error for every expression: `handleCommand` hands
`(foo)` to the engine and returns true. The flag of the engine, whatever it
is, has no part in the value returned. -/
theorem evaluation_error_not_reported (env : Env) (st : ServerState) (err : Str → Bool) :
    Server.handleCommand { env with evaluationError := fun _ => true } st
        (bytesOf "raw (foo)" ++ [0])
      = .ok (true, [],
          st.engineCall { env with evaluationError := fun _ => true }
            (Effect.sendCommandRaw (bytesOf "(foo)")))
    ∧ (Server.handleCommand { env with evaluationError := err } st
        (bytesOf "raw (foo)" ++ [0])).map (fun r => r.1) = .ok true := by
  refine ⟨rfl, rfl⟩

/-- C27, failing input. The text `re`, NUL, `set x`, NUL: the space is found,
so the command is everything before it, `re`, NUL, `set`, with the NUL in it;
only the argument is cut at its first NUL. The same command text without an
argument takes the other branch, which cuts the command at its first NUL. -/
theorem command_keeps_nul :
    splitCommand (bytesOf "re" ++ [0] ++ bytesOf "set x" ++ [0])
        = .ok (bytesOf "re" ++ [0] ++ bytesOf "set", bytesOf "x")
      ∧ NUL ∈ bytesOf "re" ++ [0] ++ bytesOf "set"
      ∧ splitCommand (bytesOf "re" ++ [0] ++ bytesOf "set" ++ [0]) = .ok (bytesOf "re", []) := by
  refine ⟨rfl, by decide, rfl⟩

/-- C29, failing input. The session `10.0.0.1:5555` of the sample server has
been removed, and the command `reset` it had sent is acknowledged: the
look-up `clients[source]` finds no entry, inserts one with a null pointer,
and `send` is called through that null pointer. `Server::sendTo`, for the
same endpoint, tests for the entry first, returns false and leaves the
registry empty. -/
theorem acknowledge_removed_session :
    (Server.removeSession ServerState.sample (bytesOf "10.0.0.1:5555")).clients = []
      ∧ Server.clientsIndex
          (Server.removeSession ServerState.sample (bytesOf "10.0.0.1:5555")).clients
          (bytesOf "10.0.0.1:5555")
        = (none, [(bytesOf "10.0.0.1:5555", none)])
      ∧ Server.acknowledgeMessage
          (Server.removeSession ServerState.sample (bytesOf "10.0.0.1:5555"))
          { source := bytesOf "10.0.0.1:5555",
            message := [0, 1, 0, 0, 0] ++ bytesOf "reset" ++ [0] } true []
        = .error .null_pointer
      ∧ (Server.sendTo (Server.removeSession ServerState.sample (bytesOf "10.0.0.1:5555"))
          (bytesOf "10.0.0.1:5555") [0, 1, 0, 0, 0, 1]).map (fun r => (r.1, r.2.clients))
        = .ok (false, []) := by
  refine ⟨rfl, rfl, rfl, rfl⟩

/-! ### The query router after a rejected query -/

/-- C30, failing input. The engine prints `R` during a reset and `Q` during a
run. On the sample server the query `foo`, which `isValidClipsString`
rejects, makes `clips::query` return false after `qr.enable()` and before
`qr.disable()`: the router stays enabled. The command `reset` handled next
leaves its output `R` in the buffer of the router, and the query `(facts)`
after it returns `RQ` as its result. Without the rejected query the same
reset leaves the buffer empty and the same query returns `Q`. -/
theorem rejected_query_leaves_router_enabled :
    (clips.query Env.printing ServerState.sample (bytesOf "foo") []).1 = false
      ∧ (clips.query Env.printing ServerState.sample (bytesOf "foo") []).2.2.routerEnabled = true
      ∧ ((Server.handleCommand Env.printing
            (clips.query Env.printing ServerState.sample (bytesOf "foo") []).2.2
            (bytesOf "reset" ++ [0])).bind fun r =>
          Server.handleCommand Env.printing r.2.2 (bytesOf "query (facts)" ++ [0])).map
          (fun r => (r.1, r.2.1, r.2.2.routerEnabled))
        = .ok (true, bytesOf "RQ", false)
      ∧ ((Server.handleCommand Env.printing ServerState.sample (bytesOf "reset" ++ [0])).bind
          fun r =>
          Server.handleCommand Env.printing r.2.2 (bytesOf "query (facts)" ++ [0])).map
          (fun r => (r.1, r.2.1, r.2.2.routerEnabled))
        = .ok (true, bytesOf "Q", false) := by
  refine ⟨rfl, rfl, rfl, rfl⟩

/-! ### Toggling a watch flag -/

theorem getWatches_fold (env : Env) (st : ServerState) (w : WatchItem)
    (hflags : ∀ a b, a ≠ b → Nat.land (env.bits a) (env.bits b) = 0) :
    ∀ (l : List WatchItem) (acc : Nat),
      Nat.land (l.foldl (fun result kv =>
          if st.watches kv then Nat.lor result (env.bits kv) else result) acc) (env.bits w)
        = Nat.lor (Nat.land acc (env.bits w))
            (if w ∈ l ∧ st.watches w = true then env.bits w else 0)
  | [], acc => by
    show _ = (acc &&& env.bits w) ||| 0
    simp
    rfl
  | k :: rest, acc => by
    rw [List.foldl_cons, getWatches_fold env st w hflags rest]
    by_cases hk : k = w
    · subst hk
      by_cases hw : st.watches k = true
      · rw [if_pos hw]
        show ((acc ||| env.bits k) &&& env.bits k ||| _) = (acc &&& env.bits k ||| _)
        rw [Nat.and_comm, Nat.and_or_distrib_left, Nat.and_self, Nat.and_comm]
        by_cases hm : k ∈ rest
        · simp [hm, hw, Nat.or_assoc]
        · simp [hm, hw]
      · rw [if_neg hw]
        simp [hw]
    · have hwk : w ≠ k := fun e => hk e.symm
      have hmem : (w ∈ k :: rest ∧ st.watches w = true) ↔ (w ∈ rest ∧ st.watches w = true) := by
        simp [hwk]
      simp only [hmem]
      by_cases hkw : st.watches k = true
      · rw [if_pos hkw]
        have h0 : env.bits k &&& env.bits w = 0 := hflags k w hk
        show ((acc ||| env.bits k) &&& env.bits w ||| _) = _
        rw [Nat.and_comm, Nat.and_or_distrib_left, Nat.and_comm (env.bits w) (env.bits k), h0,
          Nat.or_zero, Nat.and_comm]
        rfl
      · rw [if_neg hkw]

/-- With enumerators that share no bit, the value of `clips::getWatches` has
the bits of a key exactly when that key is watched. -/
theorem getWatches_bit (env : Env) (st : ServerState) (w : WatchItem)
    (hkeys : ∀ k, k ∈ env.order)
    (hflags : ∀ a b, a ≠ b → Nat.land (env.bits a) (env.bits b) = 0) :
    Nat.land (clips.getWatches env st) (env.bits w)
      = if st.watches w = true then env.bits w else 0 := by
  unfold clips.getWatches
  rw [getWatches_fold env st w hflags]
  show (0 &&& env.bits w ||| _) = _
  simp [hkeys w]

/-- With enumerators that share no bit, the loop of `clips::toggleWatch`
passes over every key but `item` and toggles `item`. -/
theorem toggleWatchLoop_flag (env : Env) (item : WatchItem) (hnz : env.bits item ≠ 0)
    (hflags : ∀ a b, a ≠ b → Nat.land (env.bits a) (env.bits b) = 0) :
    ∀ (l : List WatchItem) (st : ServerState), item ∈ l →
      clips.toggleWatchLoop env item l st
        = if st.watches item = true then
            { st.engineCall env (Effect.unwatch item) with
              watches := fun w => if w = item then false else st.watches w }
          else
            { st.engineCall env (Effect.watch item) with
              watches := fun w => if w = item then true else st.watches w }
  | [], _, h => by simp at h
  | k :: rest, st, h => by
    unfold clips.toggleWatchLoop
    by_cases hk : k = item
    · subst hk
      have hs : Nat.land (env.bits k) (env.bits k) = env.bits k := Nat.and_self _
      rw [hs, if_neg hnz]
    · have hm : item ∈ rest := by
        rcases List.mem_cons.mp h with e | e
        · exact absurd e.symm hk
        · exact e
      rw [if_pos (hflags item k (fun e => hk e.symm))]
      exact toggleWatchLoop_flag env item hnz hflags rest st hm

theorem statusMessage_congr (env : Env) (st st2 : ServerState) (hw : st2.watches = st.watches)
    (hp : st2.clppath = st.clppath) :
    Server.statusMessage env st2 = Server.statusMessage env st := by
  unfold Server.statusMessage clips.getWatches
  rw [hw, hp]

/-- What `clips::toggleWatch(item)` followed by `publishStatus()` does, with
enumerators that share no bit and a registry without null pointers. -/
theorem toggle_and_publish (env : Env) (st : ServerState) (item : WatchItem)
    (hkeys : ∀ k, k ∈ env.order) (hnz : ∀ k, env.bits k ≠ 0)
    (hflags : ∀ a b, a ≠ b → Nat.land (env.bits a) (env.bits b) = 0)
    (hreg : ∀ kv ∈ st.clients, kv.2.isSome = true) :
    ∃ st2, Server.publishStatus env (clips.toggleWatch env st item) = .ok st2
      ∧ st2.watches = (fun w => if w = item then !st.watches item else st.watches w)
      ∧ st2.clients = st.clients ∧ st2.clppath = st.clppath
      ∧ st2.log = st.log
          ++ [if st.watches item = true then Effect.unwatch item else Effect.watch item]
          ++ st.clients.map (fun kv => Effect.send kv.1 (Server.statusMessage env st2)) := by
  have ht := toggleWatchLoop_flag env item (hnz item) hflags env.order st (hkeys item)
  by_cases hw : st.watches item = true
  · rw [if_pos hw] at ht
    obtain ⟨st2, hb, hlog, hwat, hcl, hpath⟩ := broadcast_ok
      (Server.statusMessage env (clips.toggleWatch env st item))
      (clips.toggleWatch env st item).clients (clips.toggleWatch env st item)
      (by unfold clips.toggleWatch; rw [ht]; exact hreg)
    have e1 : (clips.toggleWatch env st item).clients = st.clients := by
      unfold clips.toggleWatch; rw [ht]; rfl
    have e2 : (clips.toggleWatch env st item).watches
        = fun w => if w = item then !st.watches item else st.watches w := by
      unfold clips.toggleWatch; rw [ht]; simp [hw]
    have e3 : (clips.toggleWatch env st item).clppath = st.clppath := by
      unfold clips.toggleWatch; rw [ht]; rfl
    have e4 : (clips.toggleWatch env st item).log = st.log ++ [Effect.unwatch item] := by
      unfold clips.toggleWatch; rw [ht]; rfl
    refine ⟨st2, hb, hwat.trans e2, hcl.trans e1, hpath.trans e3, ?_⟩
    rw [hlog, e4, e1, if_pos hw, statusMessage_congr env _ st2 hwat hpath]
  · rw [if_neg hw] at ht
    obtain ⟨st2, hb, hlog, hwat, hcl, hpath⟩ := broadcast_ok
      (Server.statusMessage env (clips.toggleWatch env st item))
      (clips.toggleWatch env st item).clients (clips.toggleWatch env st item)
      (by unfold clips.toggleWatch; rw [ht]; exact hreg)
    have e1 : (clips.toggleWatch env st item).clients = st.clients := by
      unfold clips.toggleWatch; rw [ht]; rfl
    have e2 : (clips.toggleWatch env st item).watches
        = fun w => if w = item then !st.watches item else st.watches w := by
      unfold clips.toggleWatch; rw [ht]; simp [hw]
    have e3 : (clips.toggleWatch env st item).clppath = st.clppath := by
      unfold clips.toggleWatch; rw [ht]; rfl
    have e4 : (clips.toggleWatch env st item).log = st.log ++ [Effect.watch item] := by
      unfold clips.toggleWatch; rw [ht]; rfl
    refine ⟨st2, hb, hwat.trans e2, hcl.trans e1, hpath.trans e3, ?_⟩
    rw [hlog, e4, e1, if_neg hw, statusMessage_congr env _ st2 hwat hpath]

/-- C21. Watch toggling. The enumerators of `clips::WatchItem` come from a
header that is not among the sources; they are taken as flags: every key of
`watchItems` has a value other than zero and no two keys share a bit. On a
registry without null pointers, for each of the names `functions`, `globals`,
`facts`, `rules` and every watch state, `Server::handleWatch(name)` returns
true; it makes one call to the engine, `Unwatch` of the corresponding item
when it was watched and `Watch` when it was not, so that the flag of that item
is inverted and every other flag is as before; it then sends to every session
the status `watching:<n>|path:<clppath>` where `n` is the value of
`getWatches()` for the new state, which has the bits of a key exactly when the
key is watched in the new state. A second call with the same name does the
same from the new state and restores the watch state there was at first. -/
theorem watch_toggles (env : Env) (st : ServerState) (name : Str) (item : WatchItem)
    (hname : (name, item) ∈ [(bytesOf "functions", WatchItem.Deffunctions),
      (bytesOf "globals", WatchItem.Globals), (bytesOf "facts", WatchItem.Facts),
      (bytesOf "rules", WatchItem.Rules)])
    (hkeys : ∀ k, k ∈ env.order) (hnz : ∀ k, env.bits k ≠ 0)
    (hflags : ∀ a b, a ≠ b → Nat.land (env.bits a) (env.bits b) = 0)
    (hreg : ∀ kv ∈ st.clients, kv.2.isSome = true) :
    ∃ st2 st3,
      Server.handleWatch env st name = .ok (true, st2)
        ∧ st2.watches item = !st.watches item
        ∧ (∀ w, w ≠ item → st2.watches w = st.watches w)
        ∧ st2.log = st.log
            ++ [if st.watches item = true then Effect.unwatch item else Effect.watch item]
            ++ st.clients.map (fun kv => Effect.send kv.1 (Server.statusMessage env st2))
        ∧ Server.statusMessage env st2
            = [0, 255, 255, 255, 255, 1] ++ bytesOf "watching:"
              ++ to_string (clips.getWatches env st2) ++ bytesOf "|path:" ++ st.clppath
        ∧ (∀ w, Nat.land (clips.getWatches env st2) (env.bits w)
            = if st2.watches w = true then env.bits w else 0)
        ∧ Server.handleWatch env st2 name = .ok (true, st3)
        ∧ st3.watches = st.watches
        ∧ st3.log = st2.log
            ++ [if st.watches item = true then Effect.watch item else Effect.unwatch item]
            ++ st.clients.map (fun kv => Effect.send kv.1 (Server.statusMessage env st3))
        ∧ (∀ w, Nat.land (clips.getWatches env st3) (env.bits w)
            = if st.watches w = true then env.bits w else 0) := by
  have hw : ∀ s, Server.handleWatch env s name
      = (Server.publishStatus env (clips.toggleWatch env s item)).map fun s2 => (true, s2) := by
    simp only [List.mem_cons, List.mem_singleton, List.not_mem_nil, or_false,
      Prod.mk.injEq] at hname
    rcases hname with ⟨h1, h2⟩ | ⟨h1, h2⟩ | ⟨h1, h2⟩ | ⟨h1, h2⟩ <;>
      (subst h1; subst h2; intro s; rfl)
  obtain ⟨st2, hp2, hwat2, hcl2, hpath2, hlog2⟩ :=
    toggle_and_publish env st item hkeys hnz hflags hreg
  obtain ⟨st3, hp3, hwat3, hcl3, hpath3, hlog3⟩ :=
    toggle_and_publish env st2 item hkeys hnz hflags (by rw [hcl2]; exact hreg)
  have hitem2 : st2.watches item = !st.watches item := by rw [hwat2]; simp
  have hback : st3.watches = st.watches := by
    rw [hwat3, hwat2]
    funext w
    by_cases h : w = item
    · simp [h]
    · simp [h]
  refine ⟨st2, st3, ?_, hitem2, ?_, hlog2, ?_, fun w => getWatches_bit env st2 w hkeys hflags,
    ?_, hback, ?_, ?_⟩
  · rw [hw, hp2]; rfl
  · intro w hne
    rw [hwat2]
    simp [hne]
  · unfold Server.statusMessage
    rw [hpath2]
    simp only [List.append_assoc, List.cons_append, List.nil_append]
  · rw [hw, hp3]; rfl
  · rw [hlog3, hcl2, hitem2]
    cases st.watches item <;> rfl
  · intro w
    rw [getWatches_bit env st3 w hkeys hflags, hback]

/-- C21, instance: the name `rules` on the sample server, where nothing is
watched and the enumerators are the sample flags. -/
theorem watch_toggles_witness :
    ∃ st2 st3,
      Server.handleWatch Env.sample ServerState.sample (bytesOf "rules") = .ok (true, st2)
        ∧ st2.watches WatchItem.Rules = !ServerState.sample.watches WatchItem.Rules
        ∧ (∀ w, w ≠ WatchItem.Rules → st2.watches w = ServerState.sample.watches w)
        ∧ st2.log = ServerState.sample.log
            ++ [if ServerState.sample.watches WatchItem.Rules = true
                then Effect.unwatch WatchItem.Rules else Effect.watch WatchItem.Rules]
            ++ ServerState.sample.clients.map
                (fun kv => Effect.send kv.1 (Server.statusMessage Env.sample st2))
        ∧ Server.statusMessage Env.sample st2
            = [0, 255, 255, 255, 255, 1] ++ bytesOf "watching:"
              ++ to_string (clips.getWatches Env.sample st2) ++ bytesOf "|path:"
              ++ ServerState.sample.clppath
        ∧ (∀ w, Nat.land (clips.getWatches Env.sample st2) (Env.sample.bits w)
            = if st2.watches w = true then Env.sample.bits w else 0)
        ∧ Server.handleWatch Env.sample st2 (bytesOf "rules") = .ok (true, st3)
        ∧ st3.watches = ServerState.sample.watches
        ∧ st3.log = st2.log
            ++ [if ServerState.sample.watches WatchItem.Rules = true
                then Effect.watch WatchItem.Rules else Effect.unwatch WatchItem.Rules]
            ++ ServerState.sample.clients.map
                (fun kv => Effect.send kv.1 (Server.statusMessage Env.sample st3))
        ∧ (∀ w, Nat.land (clips.getWatches Env.sample st3) (Env.sample.bits w)
            = if ServerState.sample.watches w = true then Env.sample.bits w else 0) :=
  watch_toggles Env.sample ServerState.sample (bytesOf "rules") WatchItem.Rules (by decide)
    (by intro k; cases k <;> decide) (by intro k; cases k <;> decide)
    (by intro a b; cases a <;> cases b <;> decide) (by decide)

/-- On the sample server the two status messages of the scenario: after the
first `watch rules` the bitmask is 2, the sample flag of `Rules`, after the
second it is 0. -/
theorem watch_rules_twice_sample :
    ((Server.handleWatch Env.sample ServerState.sample (bytesOf "rules")).bind fun r =>
        (Server.handleWatch Env.sample r.2 (bytesOf "rules")).map fun r2 => r2.2.log)
      = .ok [Effect.watch WatchItem.Rules,
          Effect.send (bytesOf "10.0.0.1:5555")
            ([0, 255, 255, 255, 255, 1] ++ bytesOf "watching:2|path:/tmp"),
          Effect.unwatch WatchItem.Rules,
          Effect.send (bytesOf "10.0.0.1:5555")
            ([0, 255, 255, 255, 255, 1] ++ bytesOf "watching:0|path:/tmp")] := by
  rfl

/-! ### Expressions accepted for the engine -/

theorem matchedFrom_zero (u : Str) : Claim.matchedFrom 0 u ↔ Claim.parensMatched u := by
  unfold Claim.matchedFrom Claim.parensMatched
  simp

theorem matchedFrom_nil (d : Nat) : Claim.matchedFrom d [] ↔ d = 0 := by
  unfold Claim.matchedFrom
  constructor
  · intro h
    have := h.2
    simp at this
    exact this.symm
  · intro h
    subst h
    simp

/-- How the property passes over one character `b` in front of `u`, where
`o` and `c` say how much `b` adds to the count of `(` and of `)`. -/
theorem matchedFrom_cons (d : Nat) (b : Byte) (u : Str) (o c : Nat)
    (ho : ∀ l : Str, (b :: l).count 40 = l.count 40 + o)
    (hc : ∀ l : Str, (b :: l).count 41 = l.count 41 + c) :
    Claim.matchedFrom d (b :: u)
      ↔ (∀ n, n ≤ u.length → (u.take n).count 41 + c ≤ d + ((u.take n).count 40 + o))
        ∧ u.count 41 + c = d + (u.count 40 + o) := by
  unfold Claim.matchedFrom
  rw [ho, hc]
  constructor
  · rintro ⟨h1, h2⟩
    refine ⟨fun n hn => ?_, h2⟩
    have := h1 (n + 1) (by simp; omega)
    rw [List.take_succ_cons, ho, hc] at this
    exact this
  · rintro ⟨h1, h2⟩
    refine ⟨fun n hn => ?_, h2⟩
    cases n with
    | zero => simp
    | succ m =>
      rw [List.take_succ_cons, ho, hc]
      exact h1 m (by simp at hn; omega)

theorem matchedFrom_open (d : Nat) (u : Str) :
    Claim.matchedFrom d (40 :: u) ↔ Claim.matchedFrom (d + 1) u := by
  rw [matchedFrom_cons d 40 u 1 0 (fun l => by simp) (fun l => by simp [List.count_cons])]
  unfold Claim.matchedFrom
  constructor
  · rintro ⟨h1, h2⟩
    exact ⟨fun n hn => by have := h1 n hn; omega, by omega⟩
  · rintro ⟨h1, h2⟩
    exact ⟨fun n hn => by have := h1 n hn; omega, by omega⟩

theorem matchedFrom_close (d : Nat) (u : Str) :
    Claim.matchedFrom d (41 :: u) ↔ d ≠ 0 ∧ Claim.matchedFrom (d - 1) u := by
  rw [matchedFrom_cons d 41 u 0 1 (fun l => by simp [List.count_cons]) (fun l => by simp)]
  unfold Claim.matchedFrom
  constructor
  · rintro ⟨h1, h2⟩
    have h0 := h1 0 (Nat.zero_le _)
    simp at h0
    exact ⟨by omega, fun n hn => by have := h1 n hn; omega, by omega⟩
  · rintro ⟨h0, h1, h2⟩
    exact ⟨fun n hn => by have := h1 n hn; omega, by omega⟩

theorem matchedFrom_other (d : Nat) (b : Byte) (u : Str) (h40 : b ≠ 40) (h41 : b ≠ 41) :
    Claim.matchedFrom d (b :: u) ↔ Claim.matchedFrom d u := by
  rw [matchedFrom_cons d b u 0 0 (fun l => by simp [List.count_cons, h40])
    (fun l => by simp [List.count_cons, h41])]
  rfl

/-- The loop of `clips::isValidClipsString`, entered with `d` parentheses on
the stack, ends with true exactly when the parentheses among the unescaped
characters are matched after `d` open ones. -/
theorem scanParens_iff : ∀ (n : Nat) (s : Str) (d : Nat), s.length ≤ n →
    (clips.scanParens s d = true ↔ Claim.matchedFrom d (Claim.unescaped s))
  | _, [], d, _ => by
    unfold clips.scanParens Claim.unescaped
    rw [matchedFrom_nil]
    simp
  | 0, _ :: _, _, h => by simp at h
  | n + 1, b :: rest, d, h => by
    have hl : rest.length ≤ n := by simp at h; omega
    unfold clips.scanParens Claim.unescaped
    by_cases h92 : b = 92
    · rw [if_pos h92, if_pos h92]
      cases rest with
      | nil =>
        show ((d == 0) = true) ↔ _
        rw [matchedFrom_nil]
        simp
      | cons x rest2 =>
        exact scanParens_iff n rest2 d (by simp at hl; omega)
    · rw [if_neg h92, if_neg h92]
      by_cases h40 : b = 40
      · rw [if_pos h40, h40, matchedFrom_open]
        exact scanParens_iff n rest (d + 1) hl
      · rw [if_neg h40]
        by_cases h41 : b = 41
        · rw [if_pos h41, h41, matchedFrom_close]
          by_cases hd : d = 0
          · rw [if_pos hd]
            simp [hd]
          · rw [if_neg hd]
            rw [scanParens_iff n rest (d - 1) hl]
            simp [hd]
        · rw [if_neg h41, matchedFrom_other d b _ h40 h41]
          exact scanParens_iff n rest d hl

/-- C28. Pre-validation of injected expressions. `clips::sendCommand(s)`
makes one call, `sendCommandRaw(s)`, and returns true when
`isValidClipsString(s)` holds; otherwise it returns false and leaves the
state as it was, with no call to the engine. `isValidClipsString(s)` holds
exactly when `s` is non-empty, starts with `(`, and, among the characters
left when each backslash is skipped together with the character after it, no
`)` occurs without an earlier unmatched `(` and every `(` has been closed at
the end. -/
theorem sendCommand_prevalidates (env : Env) (st : ServerState) (s : Str) :
    clips.sendCommand env st s
        = (if clips.isValidClipsString s = true
            then (true, st.engineCall env (Effect.sendCommandRaw s)) else (false, st))
      ∧ (clips.isValidClipsString s = true ↔ Claim.wellFormed s) := by
  constructor
  · unfold clips.sendCommand
    cases clips.isValidClipsString s <;> rfl
  · unfold clips.isValidClipsString Claim.wellFormed
    rw [← matchedFrom_zero, ← scanParens_iff s.length s 0 (Nat.le_refl _)]
    cases s with
    | nil => simp
    | cons b rest =>
      by_cases hb : b = 40
      · simp [hb, charAt]
      · simp [hb, charAt]

/-- Three expressions on the sample server: `(a \) b)` with an escaped
parenthesis is handed to the engine, `(a ) b)` and `(a (b) \` are not. -/
theorem sendCommand_samples :
    (clips.sendCommand Env.sample ServerState.sample (bytesOf "(a \\) b)")).1 = true
      ∧ (clips.sendCommand Env.sample ServerState.sample (bytesOf "(a \\) b)")).2.log
          = [Effect.sendCommandRaw (bytesOf "(a \\) b)")]
      ∧ (clips.sendCommand Env.sample ServerState.sample (bytesOf "(a ) b)")).1 = false
      ∧ (clips.sendCommand Env.sample ServerState.sample (bytesOf "(a ) b)")).2.log = []
      ∧ (clips.sendCommand Env.sample ServerState.sample (bytesOf "(a (b) \\")).1 = false := by
  refine ⟨rfl, rfl, rfl, rfl, rfl⟩

/-! ### Commands checked by the client -/

theorem rxInt_iff (args : Str) : ClipsClient.rxInt args = true ↔ Claim.isInteger args := by
  unfold ClipsClient.rxInt Claim.isInteger
  constructor
  · intro h
    simp only [Bool.and_eq_true, decide_eq_true_eq, List.all_eq_true] at h
    obtain ⟨⟨h1, h2⟩, h3⟩ := h
    have hd : ∀ b : Byte, isDigit b = true → 48 ≤ b.val ∧ b.val ≤ 57 := by
      intro b hb
      simpa [isDigit] using hb
    by_cases hh : args.head? = some 45
    · rw [if_pos hh] at h1 h2 h3
      cases args with
      | nil => simp at hh
      | cons x rest =>
        have hx : x = 45 := by simpa using hh
        subst hx
        exact ⟨[45], rest, rfl, Or.inr rfl, h1, h2, fun b hb => hd b (h3 b hb)⟩
    · rw [if_neg hh] at h1 h2 h3
      exact ⟨[], args, rfl, Or.inl rfl, h1, h2, fun b hb => hd b (h3 b hb)⟩
  · rintro ⟨sign, digits, he, hs, h1, h2, h3⟩
    have hd : ∀ b ∈ digits, isDigit b = true := by
      intro b hb
      have := h3 b hb
      simp [isDigit, this.1, this.2]
    rcases hs with hs | hs
    · subst hs
      simp only [List.nil_append] at he
      subst he
      have hh : ¬ args.head? = some 45 := by
        intro hh
        cases args with
        | nil => simp at hh
        | cons x rest =>
          have hx : x = 45 := by simpa using hh
          have := h3 x (by simp)
          rw [hx] at this
          exact absurd this.1 (by decide)
      rw [if_neg hh]
      simp only [Bool.and_eq_true, decide_eq_true_eq, List.all_eq_true]
      exact ⟨⟨h1, h2⟩, hd⟩
    · subst hs
      subst he
      simp only [List.singleton_append, List.head?_cons, if_true, List.drop_succ_cons,
        List.drop_zero, Bool.and_eq_true, decide_eq_true_eq, List.all_eq_true]
      exact ⟨⟨h1, h2⟩, hd⟩

theorem rxPrint_iff (args : Str) :
    ClipsClient.rxPrint args = true
      ↔ args ∈ [bytesOf "facts", bytesOf "rules", bytesOf "agenda"] := by
  simp [ClipsClient.rxPrint, or_assoc]

theorem rxWatch_iff (args : Str) :
    ClipsClient.rxWatch args = true
      ↔ args ∈ [bytesOf "functions", bytesOf "globals", bytesOf "facts", bytesOf "rules"] := by
  simp [ClipsClient.rxWatch, or_assoc]

/-- An open client that calls `rpc` with a request that fits its frame gives
that frame to the socket, however the call ends. -/
theorem rpc_sent (c : ClientState) (cmd args result p : Str) (early late : List Str)
    (hopen : c.isOpen = true)
    (hp : (Request.create c.lastCommandId cmd args).1.getPayload = some p) :
    (ClipsClient.rpc c cmd args result early late).sent = some (c.sent ++ [p]) := by
  have hs : ClipsClient.sendCommand c cmd args 0
      = some (true, (Request.create c.lastCommandId cmd args).1.cmdId,
          { c with sent := c.sent ++ [p],
                   lastCommandId := (Request.create c.lastCommandId cmd args).2 }) := by
    unfold ClipsClient.sendCommand
    rw [hopen]
    show Option.map _ (Request.create c.lastCommandId cmd args).1.getPayload = _
    rw [hp]
    rfl
  unfold ClipsClient.rpc
  rw [hs]
  simp only
  split
  · rfl
  · split <;> rfl

theorem content_length_le (r : Request) : r.content.length ≤ r.cmd.length + 1 + r.args.length := by
  unfold Request.content
  split
  · omega
  · simp only [List.length_append, List.length_cons, List.length_nil]
    omega

/-- C26, counterexample. On a client whose socket is not open, `execute` with
the command `reset`, a pair the claim lists, returns false and gives nothing
to the socket: `sendCommand` returns false before a request is made. -/
theorem execute_on_closed_socket :
    Claim.accepted (bytesOf "reset") []
      ∧ ClipsClient.execute
          { isOpen := false, sent := [], lastCommandId := 0, pendingCommands := Pending.clear }
          (bytesOf "reset") [] [] []
        = RpcOutcome.returned false []
          { isOpen := false, sent := [], lastCommandId := 0, pendingCommands := Pending.clear } :=
  ⟨Or.inl rfl, rfl⟩

/-- C26, amended. Client-side command validation, on a client whose socket is
open and for a command and arguments that fit a frame (at most 65527 bytes
together).
When the pair is one the claim lists (`reset` or `clear`; `run` with empty
arguments or an integer of 1 to 9 digits with an optional minus sign; `print`
with `facts`, `rules` or `agenda`; `watch` with `functions`, `globals`, `facts`
or `rules`; `assert`, `raw`, `path`, `load` or `log` with non-empty
arguments), `execute` gives exactly one frame to the socket, the frame of the
request with that command and with no arguments for `reset` and `clear`, the
argument `-1` for `run` with empty arguments, and `args` otherwise, however
the call ends afterwards. For every other pair `execute` returns false and
leaves the client as it was: nothing is sent, no command id is used. -/
theorem execute_validation (c : ClientState) (cmd args : Str) (early late : List Str)
    (hopen : c.isOpen = true) (hfit : cmd.length + args.length ≤ 65527) :
    (Claim.accepted cmd args →
        ∃ p, (Request.create c.lastCommandId cmd (Claim.sentArgs cmd args)).1.getPayload = some p
          ∧ (ClipsClient.execute c cmd args early late).sent = some (c.sent ++ [p]))
      ∧ (¬ Claim.accepted cmd args →
          ClipsClient.execute c cmd args early late = RpcOutcome.returned false [] c) := by
  have accept : ∀ a : Str, Claim.accepted cmd args → Claim.sentArgs cmd args = a →
      ClipsClient.execute c cmd args early late = ClipsClient.rpc c cmd a [] early late →
      cmd.length + 1 + a.length ≤ 65528 →
      (Claim.accepted cmd args →
        ∃ p, (Request.create c.lastCommandId cmd (Claim.sentArgs cmd args)).1.getPayload = some p
          ∧ (ClipsClient.execute c cmd args early late).sent = some (c.sent ++ [p]))
      ∧ (¬ Claim.accepted cmd args →
          ClipsClient.execute c cmd args early late = RpcOutcome.returned false [] c) := by
    intro a hacc hsa hex hlen
    refine ⟨fun _ => ?_, fun hn => absurd hacc hn⟩
    have hp := getPayload_eq (Request.create c.lastCommandId cmd a).1
      (Nat.le_trans (content_length_le _) hlen)
    rw [hsa, hex]
    exact ⟨_, hp, rpc_sent c cmd a [] _ early late hopen hp⟩
  have reject : ¬ Claim.accepted cmd args →
      ClipsClient.execute c cmd args early late = RpcOutcome.returned false [] c →
      (Claim.accepted cmd args →
        ∃ p, (Request.create c.lastCommandId cmd (Claim.sentArgs cmd args)).1.getPayload = some p
          ∧ (ClipsClient.execute c cmd args early late).sent = some (c.sent ++ [p]))
      ∧ (¬ Claim.accepted cmd args →
          ClipsClient.execute c cmd args early late = RpcOutcome.returned false [] c) :=
    fun hrej hex => ⟨fun h => absurd h hrej, fun _ => hex⟩
  by_cases h1 : cmd = bytesOf "reset"
  · refine accept [] (Or.inl h1) ?_ ?_ (by simp; omega)
    · unfold Claim.sentArgs; rw [if_pos (Or.inl h1)]
    · unfold ClipsClient.execute; rw [if_pos h1]
  by_cases h2 : cmd = bytesOf "clear"
  · refine accept [] (Or.inr (Or.inl h2)) ?_ ?_ (by simp; omega)
    · unfold Claim.sentArgs; rw [if_pos (Or.inr h2)]
    · unfold ClipsClient.execute; rw [if_neg h1, if_pos h2]
  have h12 : ¬ (cmd = bytesOf "reset" ∨ cmd = bytesOf "clear") := fun h => h.elim h1 h2
  by_cases h3 : cmd = bytesOf "run"
  · by_cases ha : args = []
    · refine accept (bytesOf "-1") (Or.inr (Or.inr (Or.inl ⟨h3, Or.inl ha⟩))) ?_ ?_ ?_
      · unfold Claim.sentArgs; rw [if_neg h12, if_pos ⟨h3, ha⟩]
      · unfold ClipsClient.execute; rw [if_neg h1, if_neg h2, if_pos h3, if_pos ha]
      · rw [h3]; decide
    · by_cases hi : ClipsClient.rxInt args = true
      · refine accept args
          (Or.inr (Or.inr (Or.inl ⟨h3, Or.inr ((rxInt_iff args).mp hi)⟩))) ?_ ?_ (by omega)
        · unfold Claim.sentArgs; rw [if_neg h12, if_neg (fun h => ha h.2)]
        · unfold ClipsClient.execute
          rw [if_neg h1, if_neg h2, if_pos h3, if_neg ha, if_pos hi]
      · refine reject ?_ ?_
        · rintro (h | h | ⟨_, h | h⟩ | ⟨h, _⟩ | ⟨h, _⟩ | ⟨h, _⟩)
          · exact h1 h
          · exact h2 h
          · exact ha h
          · exact hi ((rxInt_iff args).mpr h)
          · rw [h3] at h; exact absurd h (by decide)
          · rw [h3] at h; exact absurd h (by decide)
          · rw [h3] at h; exact absurd h (by decide)
        · unfold ClipsClient.execute
          rw [if_neg h1, if_neg h2, if_pos h3, if_neg ha, if_neg hi]
  have h123 : ¬ (cmd = bytesOf "run" ∧ args = []) := fun h => h3 h.1
  by_cases h4 : cmd = bytesOf "print"
  · by_cases hi : ClipsClient.rxPrint args = true
    · refine accept args
        (Or.inr (Or.inr (Or.inr (Or.inl ⟨h4, (rxPrint_iff args).mp hi⟩)))) ?_ ?_ (by omega)
      · unfold Claim.sentArgs; rw [if_neg h12, if_neg h123]
      · unfold ClipsClient.execute
        rw [if_neg h1, if_neg h2, if_neg h3, if_pos h4, if_pos hi]
    · refine reject ?_ ?_
      · rintro (h | h | ⟨h, _⟩ | ⟨_, h⟩ | ⟨h, _⟩ | ⟨h, _⟩)
        · exact h1 h
        · exact h2 h
        · exact h3 h
        · exact hi ((rxPrint_iff args).mpr h)
        · rw [h4] at h; exact absurd h (by decide)
        · rw [h4] at h; exact absurd h (by decide)
      · unfold ClipsClient.execute
        rw [if_neg h1, if_neg h2, if_neg h3, if_pos h4, if_neg hi]
  by_cases h5 : cmd = bytesOf "watch"
  · by_cases hi : ClipsClient.rxWatch args = true
    · refine accept args
        (Or.inr (Or.inr (Or.inr (Or.inr (Or.inl ⟨h5, (rxWatch_iff args).mp hi⟩))))) ?_ ?_
        (by omega)
      · unfold Claim.sentArgs; rw [if_neg h12, if_neg h123]
      · unfold ClipsClient.execute
        rw [if_neg h1, if_neg h2, if_neg h3, if_neg h4, if_pos h5, if_pos hi]
    · refine reject ?_ ?_
      · rintro (h | h | ⟨h, _⟩ | ⟨h, _⟩ | ⟨_, h⟩ | ⟨h, _⟩)
        · exact h1 h
        · exact h2 h
        · exact h3 h
        · exact h4 h
        · exact hi ((rxWatch_iff args).mpr h)
        · rw [h5] at h; exact absurd h (by decide)
      · unfold ClipsClient.execute
        rw [if_neg h1, if_neg h2, if_neg h3, if_neg h4, if_pos h5, if_neg hi]
  have early5 : ∀ (P : Prop), (Claim.accepted cmd args → (cmd ∈ [bytesOf "assert",
      bytesOf "raw", bytesOf "path", bytesOf "load", bytesOf "log"] ∧ args ≠ [] → P) → P) := by
    intro P hacc hP
    rcases hacc with h | h | ⟨h, _⟩ | ⟨h, _⟩ | ⟨h, _⟩ | h
    · exact absurd h h1
    · exact absurd h h2
    · exact absurd h h3
    · exact absurd h h4
    · exact absurd h h5
    · exact hP h
  have last : ∀ hm : cmd ∈ [bytesOf "assert", bytesOf "raw", bytesOf "path", bytesOf "load",
      bytesOf "log"],
      ClipsClient.execute c cmd args early late
        = (if args ≠ [] then ClipsClient.rpc c cmd args [] early late
            else RpcOutcome.returned false [] c) →
      (Claim.accepted cmd args →
        ∃ p, (Request.create c.lastCommandId cmd (Claim.sentArgs cmd args)).1.getPayload = some p
          ∧ (ClipsClient.execute c cmd args early late).sent = some (c.sent ++ [p]))
      ∧ (¬ Claim.accepted cmd args →
          ClipsClient.execute c cmd args early late = RpcOutcome.returned false [] c) := by
    intro hm hex
    by_cases ha : args ≠ []
    · refine accept args (Or.inr (Or.inr (Or.inr (Or.inr (Or.inr ⟨hm, ha⟩))))) ?_ ?_ (by omega)
      · unfold Claim.sentArgs; rw [if_neg h12, if_neg h123]
      · rw [hex, if_pos ha]
    · refine reject (fun hacc => early5 False hacc (fun h => ha h.2)) ?_
      rw [hex, if_neg ha]
  by_cases h6 : cmd = bytesOf "assert"
  · refine last (by rw [h6]; decide) ?_
    unfold ClipsClient.execute
    rw [if_neg h1, if_neg h2, if_neg h3, if_neg h4, if_neg h5, if_pos h6]
  by_cases h7 : cmd = bytesOf "raw"
  · refine last (by rw [h7]; decide) ?_
    unfold ClipsClient.execute
    rw [if_neg h1, if_neg h2, if_neg h3, if_neg h4, if_neg h5, if_neg h6, if_pos h7]
  by_cases h8 : cmd = bytesOf "path"
  · refine last (by rw [h8]; decide) ?_
    unfold ClipsClient.execute
    rw [if_neg h1, if_neg h2, if_neg h3, if_neg h4, if_neg h5, if_neg h6, if_neg h7, if_pos h8]
  by_cases h9 : cmd = bytesOf "load"
  · refine last (by rw [h9]; decide) ?_
    unfold ClipsClient.execute
    rw [if_neg h1, if_neg h2, if_neg h3, if_neg h4, if_neg h5, if_neg h6, if_neg h7, if_neg h8,
      if_pos h9]
  by_cases h10 : cmd = bytesOf "log"
  · refine last (by rw [h10]; decide) ?_
    unfold ClipsClient.execute
    rw [if_neg h1, if_neg h2, if_neg h3, if_neg h4, if_neg h5, if_neg h6, if_neg h7, if_neg h8,
      if_neg h9, if_pos h10]
  refine reject (fun hacc => early5 False hacc (fun h => ?_)) ?_
  · have hm := h.1
    simp only [List.mem_cons, List.mem_singleton, List.not_mem_nil, or_false] at hm
    rcases hm with e | e | e | e | e
    · exact h6 e
    · exact h7 e
    · exact h8 e
    · exact h9 e
    · exact h10 e
  · unfold ClipsClient.execute
    rw [if_neg h1, if_neg h2, if_neg h3, if_neg h4, if_neg h5, if_neg h6, if_neg h7, if_neg h8,
      if_neg h9, if_neg h10]

/-- C26, instance of the amended claim: `run` with empty arguments on a
client that has sent nothing yet. The frame given to the socket is that of `run -1`. -/
theorem execute_validation_witness :
    (Claim.accepted (bytesOf "run") [] →
        ∃ p, (Request.create 0 (bytesOf "run")
              (Claim.sentArgs (bytesOf "run") [])).1.getPayload = some p
          ∧ (ClipsClient.execute
              { isOpen := true, sent := [], lastCommandId := 0, pendingCommands := Pending.clear }
              (bytesOf "run") [] [] []).sent = some ([] ++ [p]))
      ∧ (¬ Claim.accepted (bytesOf "run") [] →
          ClipsClient.execute
              { isOpen := true, sent := [], lastCommandId := 0, pendingCommands := Pending.clear }
              (bytesOf "run") [] [] []
            = RpcOutcome.returned false []
              { isOpen := true, sent := [], lastCommandId := 0,
                pendingCommands := Pending.clear }) :=
  execute_validation
    { isOpen := true, sent := [], lastCommandId := 0, pendingCommands := Pending.clear }
    (bytesOf "run") [] [] [] rfl (by decide)

/-- What `execute` gives to the socket, and what it refuses, on a client that
has sent nothing yet: `run` with empty arguments goes out as `run -1`,
`reset` goes out without its arguments, `run` with ten digits and `print`
with `agendas` are refused. -/
theorem execute_samples :
    (ClipsClient.execute
        { isOpen := true, sent := [], lastCommandId := 0, pendingCommands := Pending.clear }
        (bytesOf "run") [] [] []).sent = some [[13, 0, 0, 1, 0, 0, 0] ++ bytesOf "run -1"]
      ∧ (ClipsClient.execute
        { isOpen := true, sent := [], lastCommandId := 0, pendingCommands := Pending.clear }
        (bytesOf "reset") (bytesOf "now") [] []).sent
          = some [[12, 0, 0, 1, 0, 0, 0] ++ bytesOf "reset"]
      ∧ (ClipsClient.execute
        { isOpen := true, sent := [], lastCommandId := 0, pendingCommands := Pending.clear }
        (bytesOf "run") (bytesOf "1234567890") [] []).sent = some []
      ∧ (ClipsClient.execute
        { isOpen := true, sent := [], lastCommandId := 0, pendingCommands := Pending.clear }
        (bytesOf "print") (bytesOf "agendas") [] []).sent = some [] := by
  refine ⟨rfl, rfl, rfl, rfl⟩

/-! ### The run command without an argument -/

/-- What `handleCommand` does once `splitCommand` has returned the command
`run` and an argument. -/
theorem handleCommand_run (env : Env) (st : ServerState) (c arg : Str)
    (h : splitCommand c = .ok (bytesOf "run", arg)) :
    Server.handleCommand env st c
      = (Server.handleRun env st arg).map fun r => (decide (r.1 ≠ 0), [], r.2) := by
  unfold Server.handleCommand
  rw [h]
  rfl

/-- C22, amended. Run with no argument: when a client whose socket is open
calls `execute` with the command `run` and empty arguments, the one frame it
gives to the socket is that of the request `run -1`; and when the server
reads that frame and parses the message, `Server::handleCommand` makes
exactly one call to the engine, `run` with the step bound -1, and returns
whether the engine fired any rule. -/
theorem run_default_from_client (env : Env) (st : ServerState) (cl : ClientState)
    (early late : List Str) (junk : Nat) (ep pb rest : Str) (hopen : cl.isOpen = true) :
    ∃ p m is2 c,
      (Request.create cl.lastCommandId (bytesOf "run") (bytesOf "-1")).1.getPayload = some p
        ∧ (ClipsClient.execute cl (bytesOf "run") [] early late).sent = some (cl.sent ++ [p])
        ∧ Session.fetchStringFromBuffer junk { putback := pb, avail := p ++ rest, fail := false }
            = (m, is2)
        ∧ Server.parseMessage { source := ep, message := m } = .ok (ParseAction.handleCommand c)
        ∧ Server.handleCommand env st c
            = .ok (decide (env.run (-1) ≠ 0), [], st.engineCall env (Effect.run (-1))) := by
  obtain ⟨p, m, is2, c, hp, hfetch, _, hparse, hsplit⟩ :=
    request_decoded_by_server (Request.create cl.lastCommandId (bytesOf "run") (bytesOf "-1")).1.cmdId
      (bytesOf "run") (bytesOf "-1") junk ep pb rest (by decide) (by decide) (by decide)
      (Nat.le_of_ble_eq_true rfl)
  have hex : ClipsClient.execute cl (bytesOf "run") [] early late
      = ClipsClient.rpc cl (bytesOf "run") (bytesOf "-1") [] early late := rfl
  refine ⟨p, m, is2, c, hp, ?_, hfetch, hparse, ?_⟩
  · rw [hex]
    exact rpc_sent cl (bytesOf "run") (bytesOf "-1") [] p early late hopen hp
  · rw [handleCommand_run env st c (bytesOf "-1") hsplit]
    rfl

/-- C22, instance of the amended claim: the first request of a client, read
by the session `10.0.0.1:5555` of the sample server. -/
theorem run_default_from_client_witness :
    ∃ p m is2 c,
      (Request.create 0 (bytesOf "run") (bytesOf "-1")).1.getPayload = some p
        ∧ (ClipsClient.execute
              { isOpen := true, sent := [], lastCommandId := 0, pendingCommands := Pending.clear }
              (bytesOf "run") [] [] []).sent = some ([] ++ [p])
        ∧ Session.fetchStringFromBuffer 0 { putback := [], avail := p ++ [], fail := false }
            = (m, is2)
        ∧ Server.parseMessage { source := bytesOf "10.0.0.1:5555", message := m }
            = .ok (ParseAction.handleCommand c)
        ∧ Server.handleCommand Env.sample ServerState.sample c
            = .ok (decide (Env.sample.run (-1) ≠ 0), [],
                ServerState.sample.engineCall Env.sample (Effect.run (-1))) :=
  run_default_from_client Env.sample ServerState.sample
    { isOpen := true, sent := [], lastCommandId := 0, pendingCommands := Pending.clear }
    [] [] 0 (bytesOf "10.0.0.1:5555") [] [] rfl

/-! ### The status from the server to the client -/

theorem byteOf_digit (n : Nat) (h : n < 10) :
    isDigit (byteOf (48 + n)) = true ∧ (byteOf (48 + n)).val - 48 = n := by
  have hv : (byteOf (48 + n)).val = 48 + n := by
    show (48 + n) % 256 = 48 + n
    omega
  unfold isDigit
  rw [hv]
  exact ⟨by simp; omega, by omega⟩

/-- The digits `std::to_string` writes for `n`: all of them digits, at least
one, and their value is `n`. -/
theorem decimalDigits_spec : ∀ (fuel n : Nat), n < fuel →
    (∀ b ∈ decimalDigits fuel n, isDigit b = true)
      ∧ 1 ≤ (decimalDigits fuel n).length
      ∧ (decimalDigits fuel n).foldl (fun a d => 10 * a + (d.val - 48)) 0 = n
  | 0, _, h => by omega
  | fuel + 1, n, h => by
    unfold decimalDigits
    by_cases hn : n < 10
    · rw [if_pos hn]
      have hb := byteOf_digit n hn
      refine ⟨fun b hb2 => ?_, by simp, ?_⟩
      · rw [List.mem_singleton.mp hb2]; exact hb.1
      · simp [hb.2]
    · rw [if_neg hn]
      obtain ⟨h1, h2, h3⟩ := decimalDigits_spec fuel (n / 10) (by omega)
      have hb := byteOf_digit (n % 10) (Nat.mod_lt _ (by decide))
      refine ⟨fun b hb2 => ?_, by simp, ?_⟩
      · rcases List.mem_append.mp hb2 with hm | hm
        · exact h1 b hm
        · rw [List.mem_singleton.mp hm]; exact hb.1
      · rw [List.foldl_append, h3]
        simp only [List.foldl_cons, List.foldl_nil, hb.2]
        omega

theorem decimalDigits_length : ∀ (fuel n k : Nat), n < fuel → n < 10 ^ (k + 1) →
    (decimalDigits fuel n).length ≤ k + 1
  | 0, _, _, h, _ => by omega
  | fuel + 1, n, k, h, hk => by
    unfold decimalDigits
    by_cases hn : n < 10
    · rw [if_pos hn]; simp
    · rw [if_neg hn]
      cases k with
      | zero => simp at hk; omega
      | succ j =>
        have hdiv : n / 10 < 10 ^ (j + 1) := by
          rw [Nat.div_lt_iff_lt_mul (by decide)]
          calc n < 10 ^ (j + 1 + 1) := hk
            _ = 10 ^ (j + 1) * 10 := by rw [Nat.pow_succ]
        have := decimalDigits_length fuel (n / 10) j (by omega) hdiv
        simp only [List.length_append, List.length_cons, List.length_nil]
        omega

theorem to_string_nat (w : Nat) : to_string (w : Int) = decimalDigits (w + 1) w := by
  unfold to_string
  rw [if_neg (by omega)]
  simp

theorem takeWhile_prefix (P : Byte → Bool) (c : Byte) (hc : P c = false) :
    ∀ (d r : Str), (∀ b ∈ d, P b = true) →
      (d ++ c :: r).takeWhile P = d ∧ (d ++ c :: r).dropWhile P = c :: r
  | [], r, _ => by simp [List.takeWhile, List.dropWhile, hc]
  | x :: d, r, h => by
    have hx : P x = true := h x (by simp)
    obtain ⟨h1, h2⟩ := takeWhile_prefix P c hc d r (fun b hb => h b (List.mem_cons_of_mem _ hb))
    constructor
    · show (x :: (d ++ c :: r)).takeWhile P = _
      rw [List.takeWhile_cons, if_pos hx, h1]
    · show (x :: (d ++ c :: r)).dropWhile P = _
      rw [List.dropWhile_cons, if_pos hx, h2]

theorem takeWhile_all (P : Byte → Bool) : ∀ (d : Str), (∀ b ∈ d, P b = true) →
    d.takeWhile P = d
  | [], _ => rfl
  | x :: d, h => by
    rw [List.takeWhile_cons, if_pos (h x (by simp)),
      takeWhile_all P d (fun b hb => h b (List.mem_cons_of_mem _ hb))]

/-- The function `std::stoi` reads back what `std::to_string` wrote for an
`int` that is not negative. -/
theorem stoi_to_string (w : Nat) (h : w ≤ 2147483647) : stoi (to_string (w : Int)) = .ok w := by
  rw [to_string_nat]
  obtain ⟨h1, h2, h3⟩ := decimalDigits_spec (w + 1) w (Nat.lt_succ_self w)
  generalize decimalDigits (w + 1) w = d at h1 h2 h3
  cases d with
  | nil => simp at h2
  | cons x xs =>
    have hx : isDigit x = true := h1 x (by simp)
    have hxv : 48 ≤ x.val ∧ x.val ≤ 57 := by simpa [isDigit] using hx
    have hsp : isSpace x = false := by
      unfold isSpace
      have h32 : x ≠ 32 := by
        intro e; rw [e] at hxv; exact absurd hxv.1 (by decide)
      simp [h32]
      omega
    have h45 : x ≠ 45 := by
      intro e; rw [e] at hxv; exact absurd hxv.1 (by decide)
    have h43 : x ≠ 43 := by
      intro e; rw [e] at hxv; exact absurd hxv.1 (by decide)
    have htw := takeWhile_all isDigit (x :: xs) h1
    unfold stoi
    have hdw : (x :: xs).dropWhile isSpace = x :: xs := by
      rw [List.dropWhile_cons, if_neg (by simp [hsp])]
    simp only [hdw, List.head?_cons, Option.some.injEq, h45, h43, or_self, if_false, htw]
    rw [if_neg (by simp)]
    simp only [decide_False, Bool.false_eq_true, if_false, h3]
    rw [if_neg (by omega)]

/-- What `handleResponseMesage` does with a message that decodes to a reply
with the id `Reply::CommandIdNone`. -/
theorem sentinel_reply_effect (t : Pending) (s : Str) (r : Reply)
    (hr : Reply.fromMessage s = some r) (hid : r.cmdId = Reply.CommandIdNone) :
    (ClipsClient.handleResponseMesage t s).pending = t
      ∧ (ClipsClient.handleResponseMesage t s).status = some r := by
  simp [ClipsClient.handleResponseMesage, hr, hid]
theorem fromMessage_header (a b c d f : Byte) (rest : Str) (hne : rest ≠ []) :
    Reply.fromMessage (0 :: a :: b :: c :: d :: f :: rest)
      = some { cmdId := fromLE [a, b, c, d], success := decide (f ≠ 0), result := rest } := by
  have hl : 0 < rest.length := List.length_pos.mpr hne
  unfold Reply.fromMessage
  rw [if_neg (by simp), if_neg (by simp [charAt])]
  have hsz : (0 :: a :: b :: c :: d :: f :: rest).length > 6 := by simp; omega
  simp only [hsz, if_true]
  have hs : substr (0 :: a :: b :: c :: d :: f :: rest) 6 none = .ok rest := by
    unfold substr
    rw [if_neg (by simp)]
    rfl
  rw [hs]
  rfl


/-- The regular expression of `ClipsStatus::fromString` on a status text:
its two sub-matches. -/
theorem rxStatus_status (w : Nat) (p : Str) (hrange : w ≤ 99999) (hne : p ≠ [])
    (hbar : (124 : Byte) ∉ p) :
    ClipsStatus.rxStatus (bytesOf "watching:" ++ (to_string (w : Int) ++ (bytesOf "|path:" ++ p)))
      = some (to_string (w : Int), bytesOf "|path:" ++ p) := by
  rw [to_string_nat]
  obtain ⟨h1, h2, _⟩ := decimalDigits_spec (w + 1) w (Nat.lt_succ_self w)
  have h5 := decimalDigits_length (w + 1) w 4 (Nat.lt_succ_self w) (by norm_num; omega)
  generalize decimalDigits (w + 1) w = d at h1 h2 h5
  have ht := takeWhile_prefix isDigit 124 (by decide) d (bytesOf "path:" ++ p) h1
  have hcons : bytesOf "|path:" ++ p = 124 :: (bytesOf "path:" ++ p) := rfl
  have hdrop : (bytesOf "watching:" ++ (d ++ (bytesOf "|path:" ++ p))).drop 9
      = d ++ 124 :: (bytesOf "path:" ++ p) := rfl
  have htake : (bytesOf "watching:" ++ (d ++ (bytesOf "|path:" ++ p))).take 9
      = bytesOf "watching:" := rfl
  unfold ClipsStatus.rxStatus
  rw [if_neg (by rw [htake]; simp)]
  simp only [hdrop, ht.1, ht.2]
  rw [if_neg (by omega), if_neg (by simp)]
  have hp6 : (124 :: (bytesOf "path:" ++ p)).take 6 = bytesOf "|path:" := rfl
  have hd6 : (124 :: (bytesOf "path:" ++ p)).drop 6 = p := rfl
  have hl6 : (124 :: (bytesOf "path:" ++ p)).length > 6 := by
    have : 0 < p.length := List.length_pos.mpr hne
    show (bytesOf "path:" ++ p).length + 1 > 6
    rw [List.length_append]
    have : (bytesOf "path:").length = 5 := rfl
    omega
  rw [if_pos ⟨hp6, hl6, by rw [hd6]; exact hbar⟩, hcons]


theorem toUInt32_small (w : Nat) (h : w < 4294967296) : toUInt32 (w : Int) = w := by
  unfold toUInt32
  have : ((w : Int) % 2 ^ 32) = (w : Int) := Int.emod_eq_of_lt (by omega) (by omega)
  rw [this]
  simp


/-- The method `ClipsStatus::fromString` on a status text. -/
theorem fromString_status (w : Nat) (p : Str) (hrange : w ≤ 99999) (hne : p ≠ [])
    (hbar : (124 : Byte) ∉ p) :
    ClipsStatus.fromString
        (bytesOf "watching:" ++ (to_string (w : Int) ++ (bytesOf "|path:" ++ p)))
      = .ok (some { watches := w, clpPath := p }) := by
  unfold ClipsStatus.fromString
  rw [rxStatus_status w p hrange hne hbar]
  simp only [stoi_to_string w (by omega)]
  have hl6 : (bytesOf "|path:" ++ p).length > 6 := by
    have : 0 < p.length := List.length_pos.mpr hne
    rw [List.length_append]
    have : (bytesOf "|path:").length = 6 := rfl
    omega
  have ht6 : (bytesOf "|path:" ++ p).take 6 = bytesOf "|path:" := rfl
  have hs6 : substr (bytesOf "|path:" ++ p) 6 none = .ok p := by
    unfold substr
    rw [if_neg (by omega)]
    rfl
  simp only [Except.bind, hl6, ht6, and_self, if_true, hs6, Except.map,
    toUInt32_small w (by omega)]


theorem substr_watching (w : Nat) (p : Str) :
    substr (bytesOf "watching:" ++ (to_string (w : Int) ++ (bytesOf "|path:" ++ p))) 0
      (some 9) = .ok (bytesOf "watching:") := by
  unfold substr
  rw [if_neg (by omega)]
  rfl

/-- The method `ClipsClient::updateStatus` on a successful reply with the id
`Reply::CommandIdNone` whose result starts with `watching:` and from which
`ClipsStatus::fromString` makes the status `ncs`. -/
theorem updateStatus_of (old : Option ClipsStatus) (r : Reply) (ncs : ClipsStatus)
    (hid : r.cmdId = Reply.CommandIdNone) (hs : r.success = true)
    (hhead : substr r.result 0 (some 9) = .ok (bytesOf "watching:"))
    (hfs : ClipsStatus.fromString r.result = .ok (some ncs)) :
    ClipsClient.updateStatus old r = .ok (some ncs, true) := by
  unfold ClipsClient.updateStatus
  rw [hhead]
  show (if r.cmdId ≠ Reply.CommandIdNone ∨ r.success = false
      ∨ bytesOf "watching:" ≠ bytesOf "watching:" then _ else _) = _
  rw [if_neg (by simp [hid, hs]), hfs]
  rfl

/-- The method `ClipsClient::updateStatus` on the reply that carries a status
text. -/
theorem updateStatus_status (old : Option ClipsStatus) (w : Nat) (p : Str) (hrange : w ≤ 99999)
    (hne : p ≠ []) (hbar : (124 : Byte) ∉ p) :
    ClipsClient.updateStatus old
        { cmdId := 4294967295, success := true,
          result := bytesOf "watching:" ++ (to_string (w : Int) ++ (bytesOf "|path:" ++ p)) }
      = .ok (some { watches := w, clpPath := p }, true) :=
  updateStatus_of old _ _ rfl rfl (substr_watching w p) (fromString_status w p hrange hne hbar)

theorem statusMessage_eq (env : Env) (st : ServerState) :
    Server.statusMessage env st
      = 0 :: 255 :: 255 :: 255 :: 255 :: 1
          :: (bytesOf "watching:"
            ++ (to_string (clips.getWatches env st : Int) ++ (bytesOf "|path:" ++ st.clppath))) := by
  unfold Server.statusMessage
  simp only [List.append_assoc, List.cons_append, List.nil_append, List.singleton_append]

/-- The reply that `Reply::fromMessage` makes of a status text. -/
theorem fromMessage_status (x : Str) :
    Reply.fromMessage (0 :: 255 :: 255 :: 255 :: 255 :: 1 :: (bytesOf "watching:" ++ x))
      = some { cmdId := 4294967295, success := true, result := bytesOf "watching:" ++ x } := by
  rw [fromMessage_header 255 255 255 255 1 (bytesOf "watching:" ++ x)
    (fun h => absurd (List.append_eq_nil.mp h).1 (by decide))]
  have hid : fromLE [255, 255, 255, 255] = 4294967295 := by decide
  have hs : decide ((1 : Byte) ≠ 0) = true := by decide
  rw [hid, hs]

theorem statusAfter_of (old : Option ClipsStatus) (t : Pending) (s : Str) (r : Reply)
    (h : (ClipsClient.handleResponseMesage t s).status = some r) :
    ClipsClient.statusAfter old t s = ClipsClient.updateStatus old r := by
  unfold ClipsClient.statusAfter
  rw [h]

/-- C25. Status round trip. For every watch bitmask `w` from 0 to 99999 and
every non-empty working path `p` without a `|`, on a server whose
`getWatches()` is `w` and whose `clppath` is `p`: the status that
`publishStatus` builds decodes, by `Reply::fromMessage`, to the reply with id
`0xFFFFFFFF`, success true and the result `watching:<w>|path:<p>` with `w` in
decimal; and when the client handles that content, `handleResponseMesage`
leaves the pending table as it is and passes the reply to `updateStatus`,
which, through `ClipsStatus::fromString`, sets the status of the client to
`watches = w` and `clpPath = p` and calls `onClipsStatusChanged`, whatever the
status was before. -/
theorem status_roundtrip (env : Env) (st : ServerState) (w : Nat) (p : Str)
    (old : Option ClipsStatus) (t : Pending)
    (hw : clips.getWatches env st = w) (hp : st.clppath = p)
    (hrange : w ≤ 99999) (hne : p ≠ []) (hbar : (124 : Byte) ∉ p) :
    Reply.fromMessage (Server.statusMessage env st)
        = some { cmdId := 4294967295, success := true,
                 result := bytesOf "watching:" ++ (to_string (w : Int) ++ (bytesOf "|path:" ++ p)) }
      ∧ (ClipsClient.handleResponseMesage t (Server.statusMessage env st)).pending = t
      ∧ ClipsClient.statusAfter old t (Server.statusMessage env st)
          = .ok (some { watches := w, clpPath := p }, true) := by
  have hreply : Reply.fromMessage (Server.statusMessage env st)
      = some { cmdId := 4294967295, success := true,
               result := bytesOf "watching:" ++ (to_string (w : Int) ++ (bytesOf "|path:" ++ p)) } := by
    rw [statusMessage_eq, hw, hp]
    exact fromMessage_status _
  have hresp := sentinel_reply_effect t _ _ hreply rfl
  refine ⟨hreply, hresp.1, ?_⟩
  rw [statusAfter_of old t _ _ hresp.2]
  exact updateStatus_status old w p hrange hne hbar

/-- C25, instance: the sample server with the rules watched, so that the
bitmask is 2, and the path `/tmp`; the client has no status yet. -/
theorem status_roundtrip_witness :
    Reply.fromMessage
        (Server.statusMessage Env.sample
          { ServerState.sample with watches := fun k => decide (k = WatchItem.Rules) })
        = some { cmdId := 4294967295, success := true,
                 result := bytesOf "watching:"
                   ++ (to_string ((2 : Nat) : Int) ++ (bytesOf "|path:" ++ bytesOf "/tmp")) }
      ∧ (ClipsClient.handleResponseMesage Pending.clear
          (Server.statusMessage Env.sample
            { ServerState.sample with watches := fun k => decide (k = WatchItem.Rules) })).pending
          = Pending.clear
      ∧ ClipsClient.statusAfter none Pending.clear
          (Server.statusMessage Env.sample
            { ServerState.sample with watches := fun k => decide (k = WatchItem.Rules) })
          = .ok (some { watches := 2, clpPath := bytesOf "/tmp" }, true) :=
  status_roundtrip Env.sample
    { ServerState.sample with watches := fun k => decide (k = WatchItem.Rules) }
    2 (bytesOf "/tmp") none Pending.clear rfl rfl (by decide) (by decide) (by decide)

/-- The receive loop of the client hands the content of a status frame to
`handleResponseMesage`: the status starts with a zero byte. -/
theorem status_frame_dispatched (env : Env) (st : ServerState) (junk : Nat) (pb rest : Str)
    (calls : List Call) (hlen : (Server.statusMessage env st).length ≤ 65533) :
    ClipsClient.loopBody junk
        { putback := pb, avail := frameOf (Server.statusMessage env st) ++ rest, fail := false }
        calls
      = LoopStep.next
          { putback := (frameOf (Server.statusMessage env st)).reverse ++ pb, avail := rest,
            fail := false }
          (calls ++ [Call.handleResponseMesage (Server.statusMessage env st)]) := by
  have h1 : 1 ≤ (Server.statusMessage env st).length := by
    unfold Server.statusMessage
    simp only [List.length_append, List.length_cons, List.length_nil]
    omega
  rw [loopBody_frame junk pb _ rest calls h1 hlen]
  rfl

end TcpClips
